import Mathlib

/-! Command grammar, session registry and reader of the chat server.

A shallow embedding of `pkg/commands/commands.go`, of the helpers of
`pkg/utilities/utilities.go` and of the registry, broadcast, write, read and idle-supervisor
code of `pkg/session/connection.go`, followed by theorems about them.

Go strings and byte slices are modelled as the list of their byte values.  The few
standard-library functions the code calls (`strings.Split`, `strings.HasPrefix`,
`strings.ToLower`, `strings.EqualFold`, `strconv.Atoi`, `fmt.Sprintf`) are modelled next
to the code that uses them.  A transport (`net.Conn`) belongs to the environment and is
given by what each of its `Write` calls replies.  Loops whose end depends on the
environment take a step bound.
-/

namespace Chat

/-! ## Strings -/

/-- A Go `string`: an immutable sequence of bytes, each kept as its value `0..255`. -/
abbrev GoString := List Nat

/-- The bytes (UTF-8) of a string literal of the source. -/
def str (s : String) : GoString := s.toUTF8.data.toList.map UInt8.toNat

/-- The function `strings.HasPrefix`. -/
def HasPrefix (s pre : GoString) : Bool := pre.isPrefixOf s

/-- The function `strings.Split(s, sep)` for a one-byte separator `sep`, the only way the
source calls it (`sep = " "`): the pieces between the occurrences of `sep`, empty pieces
included; the empty string gives one empty piece. -/
def Split : GoString → Nat → List GoString
  | [], _ => [[]]
  | c :: cs, sep =>
    if c = sep then [] :: Split cs sep
    else
      match Split cs sep with
      | [] => [[c]]
      | t :: ts => (c :: t) :: ts

/-- The byte-wise branch of `strings.ToLower`: `c += 'a' - 'A'` when `'A' <= c && c <= 'Z'`. -/
def lowerASCII (c : Nat) : Nat := if 65 ≤ c ∧ c ≤ 90 then c + 32 else c

/-- The function `strings.ToLower`.  A string whose bytes are all below `utf8.RuneSelf`
(0x80) is lower-cased byte by byte.  Any other string goes through
`strings.Map(unicode.ToLower, s)`, which depends on the Unicode tables of the standard
library; that branch is the parameter `mapLower`. -/
def ToLower (mapLower : GoString → GoString) (s : GoString) : GoString :=
  if s.all (fun c => decide (c < 128)) then s.map lowerASCII else mapLower s

/-- The value of `strconv.IntSize` on the 64-bit platforms the server is built for. -/
def intSize : Nat := 64

/-- The function `strconv.Atoi`: `some n` when it returns `(n, nil)`, `none` when it returns
an error.  One optional sign, then at least one decimal digit and nothing else (syntax
error otherwise); the value must fit a signed `intSize`-bit integer (range error
otherwise). -/
def Atoi (s : GoString) : Option Int :=
  let neg : Bool := s.head? = some 45
  let ds : GoString := if s.head? = some 45 ∨ s.head? = some 43 then s.tail else s
  if ds = [] ∨ ¬ (ds.all (fun c => decide (48 ≤ c ∧ c ≤ 57)) = true) then none
  else
    let un : Nat := ds.foldl (fun n c => n * 10 + (c - 48)) 0
    let cutoff : Nat := 2 ^ (intSize - 1)
    if neg = false ∧ un ≥ cutoff then none
    else if neg = true ∧ un > cutoff then none
    else some (if neg then - (un : Int) else (un : Int))

/-- The function `fmt.Sprintf` on the fragment the modelled code uses: formats whose only
verb is `%s`, with string operands.  Each `%s` is replaced by the next operand, every other
byte of the format is copied; a `%s` without operand prints `%!s(MISSING)` and operands
left over are reported as `%!(EXTRA string=..., ...)`. -/
def Sprintf : GoString → List GoString → GoString
  | [], [] => []
  | [], a :: args =>
    str "%!(EXTRA " ++ (str ", ").intercalate ((a :: args).map (fun x => str "string=" ++ x))
      ++ str ")"
  | 37 :: 115 :: rest, [] => str "%!s(MISSING)" ++ Sprintf rest []
  | 37 :: 115 :: rest, a :: args => a ++ Sprintf rest args
  | c :: rest, args => c :: Sprintf rest args

/-! ## `pkg/utilities` -/

/-- Go: `func endOfLine(src string) string`. -/
def endOfLine (src : GoString) : GoString := src ++ str "\r\n"

/-- Go: `func Fmt(format string, args ...any) string`. -/
def Fmt (format : GoString) (args : List GoString) : GoString := Sprintf format args

/-- Go: `func Fmtln(format string, args ...any) string`. -/
def Fmtln (format : GoString) (args : List GoString) : GoString :=
  Sprintf (endOfLine format) args

/-! ## `pkg/commands`: data -/

/-- Go: `type CommandType int8`. -/
abbrev CommandType := Int

def CommandNull : CommandType := 0
def CommandDisplayMenu : CommandType := 1
def CommandDisplayHistory : CommandType := 2
def CommandListMembers : CommandType := 3
def CommandListChannels : CommandType := 4
def CommandListCommands : CommandType := 5
def commandSentinel : CommandType := 6

/-- Go: `type errorType int8`. -/
abbrev errorType := Int

def errorSuccess : errorType := 0
def errorUnexpectedArgument : errorType := 1
def errorArgumentNotSpecified : errorType := 2
def errorInvalidValue : errorType := 3
def errorUnrecognizedArgument : errorType := 4
def errorSentinel : errorType := 5

/-- Go: `type parseError struct`. -/
structure parseError where
  t : errorType
  msg : GoString
  deriving DecidableEq, Repr

/-- Go: `type ParseResult struct`; `Error` is `none` for a nil pointer. -/
structure ParseResult where
  CommandType : CommandType
  Channel : GoString
  Period : Nat
  Error : Option parseError
  Matched : Bool
  deriving DecidableEq, Repr

/-- Go: `type option struct`. -/
structure option where
  name : GoString
  arg : GoString
  hint : GoString
  deriving DecidableEq, Repr

/-- Go: `type command struct`. -/
structure command where
  name : GoString
  desc : GoString
  options : List option
  _type : CommandType
  deriving DecidableEq, Repr

/-- Go: `func newCommand(name, desc string, options ...*option) *command`.  The composite
literal sets `name`, `desc` and `options`; `_type` keeps the zero value of `int8`. -/
def newCommand (name desc : GoString) (options : List option) : command :=
  { name := name, desc := desc, options := options, _type := 0 }

/-- Go: `func (c *command) addOption(name, arg, hint string) *command`. -/
def command.addOption (c : command) (name arg hint : GoString) : command :=
  { c with options := c.options ++ [{ name := name, arg := arg, hint := hint }] }

/-- Go: `func index(cmd CommandType) int`; `none` is the panic "Index out of range". -/
def index (cmd : CommandType) : Option Nat :=
  if cmd ≤ CommandNull ∨ cmd ≥ commandSentinel then none
  else some (cmd - CommandDisplayMenu).toNat

/-- One assignment `commandTable[index(t)] = c` of `init`; `none` when `index` panics or
the slot does not exist. -/
def setSlot (table : Option (List (Option command))) (t : CommandType) (c : command) :
    Option (List (Option command)) :=
  match table, index t with
  | some slots, some i => if i < slots.length then some (slots.set i (some c)) else none
  | _, _ => none

/-- The slots of `commandTable` after `init`: `make([]*command, commandSentinel-CommandNull-1)`
followed by the five assignments, in source order. -/
def initCommandTable : Option (List (Option command)) :=
  let t0 : Option (List (Option command)) :=
    some (List.replicate (commandSentinel - CommandNull - 1).toNat none)
  let t1 := setSlot t0 CommandDisplayMenu (newCommand (str ":menu") (str "Display menu") [])
  let t2 := setSlot t1 CommandDisplayHistory
    (((newCommand (str ":history") (str "Display chat history") []).addOption
      (str "-channel") (str "<name>") (str "Channel's name")).addOption
      (str "-period") (str "<n>") (str "Time period"))
  let t3 := setSlot t2 CommandListMembers
    ((newCommand (str ":members") (str "Display chat members") []).addOption
      (str "-channel") (str "<name>") (str "Channel's name"))
  let t4 := setSlot t3 CommandListChannels
    (newCommand (str ":channels") (str "Display all channels") [])
  setSlot t4 CommandListCommands (newCommand (str ":commands") (str "Display commands") [])

/-- The global `commandTable` as `ParseCommand` ranges over it: the commands held by the
slots, in slot order. -/
def commandTable : List command :=
  (initCommandTable.getD []).filterMap id

/-- The global `errorsTable` after `init`: `make([]string, errorSentinel-errorSuccess)` with
the five assignments, by index. -/
def errorsTable : List GoString :=
  [str "Success", str "Unexpected argument", str "Argument not specified",
   str "Invalid value", str "Unregognized argument"]

/-! ## `pkg/commands`: rendering and parsing -/

/-- Go: `func (e *parseError) Error() string`.  `none` is the run-time panic of
`errorsTable[e.t]` when `e.t` is outside the table. -/
def parseError.Error (e : parseError) : Option GoString :=
  if 0 ≤ e.t then
    match errorsTable.get? e.t.toNat with
    | some desc => some (Fmtln (str "error: %s") [desc ++ str " " ++ e.msg])
    | none => none
  else none

/-- How the body of `for _, opt := range cmd.options` is left. -/
inductive Flow where
  /-- The loop ended, by `break` or by running out of options. -/
  | done (result : ParseResult)
  /-- A `return result` inside the loop. -/
  | returned (result : ParseResult)
  deriving DecidableEq, Repr

/-- The loop `for _, opt := range cmd.options` of `ParseCommand`, for the pair
`arguments[i] = name`, `arguments[i+1] = value`. -/
def scanOptions (name value : GoString) (result : ParseResult) : List option → Flow
  | [] => Flow.done result
  | opt :: opts =>
    if name = opt.name then
      if opt.name = str "-channel" then
        Flow.done { result with Channel := value, Matched := true }
      else if opt.name = str "-period" then
        match Atoi value with
        | none =>
          Flow.returned { result with
            Error := some { t := errorInvalidValue, msg := Fmt (str "period %s") [value] } }
        | some count =>
          if count < 0 then
            Flow.returned { result with
              Error := some { t := errorInvalidValue, msg := Fmt (str "period %s") [value] } }
          else
            Flow.done { result with Period := count.toNat, Matched := true }
      else scanOptions name value result opts
    else scanOptions name value result opts

/-- The loop `for i := 1; i < len(arguments); i += 2` of `ParseCommand`, as a recursion on
`arguments[i:]`: the test `i == len(arguments)-1` holds exactly when one token is left. -/
def parseOptions (cmd : command) : Nat → ParseResult → List GoString → ParseResult
  | _, result, [] => result
  | optionIndex, result, [a] =>
    if optionIndex ≥ cmd.options.length then
      { result with Error := some { t := errorUnexpectedArgument, msg := Fmt (str "%s") [a] } }
    else
      { result with Error := some { t := errorArgumentNotSpecified, msg := [] } }
  | optionIndex, result, a :: v :: rest =>
    if optionIndex ≥ cmd.options.length then
      { result with Error := some { t := errorUnexpectedArgument, msg := Fmt (str "%s") [a] } }
    else
      match scanOptions a v result cmd.options with
      | Flow.returned result1 => result1
      | Flow.done result1 =>
        if result1.Matched = false then
          { result1 with Error := some { t := errorUnrecognizedArgument, msg := a } }
        else parseOptions cmd (optionIndex + 1) result1 rest

/-- The loop `for _, cmd := range commandTable` of `ParseCommand`; `first` is
`arguments[0]` and `rest` is `arguments[1:]`. -/
def matchCommand (mapLower : GoString → GoString) (first : GoString) (rest : List GoString)
    (result : ParseResult) : List command → ParseResult
  | [] => result
  | cmd :: cmds =>
    if ToLower mapLower first = cmd.name then
      parseOptions cmd 0 { result with CommandType := cmd._type } rest
    else matchCommand mapLower first rest result cmds

/-- Go: `func ParseCommand(buffer *bytes.Buffer) *ParseResult`, on the contents of the
buffer. -/
def ParseCommand (mapLower : GoString → GoString) (buffer : GoString) : ParseResult :=
  let builder : GoString := buffer
  let result : ParseResult :=
    { CommandType := commandSentinel, Channel := [], Period := 0, Error := none,
      Matched := false }
  if HasPrefix builder (str ":") then
    match Split builder 32 with
    | [] => result
    | first :: rest => matchCommand mapLower first rest result commandTable
  else result

/-! ## Vocabulary of the statements -/

/-- The line made of the given tokens separated by single spaces (`strings.Join(tokens, " ")`). -/
def lineOf : List GoString → GoString
  | [] => []
  | [t] => t
  | t :: u :: rest => t ++ 32 :: lineOf (u :: rest)

/-- Digits of `n` in base ten put in front of `acc`, most significant first; `fuel` bounds
the number of digits. -/
def decimalAux : Nat → Nat → GoString → GoString
  | 0, _, acc => acc
  | fuel + 1, n, acc =>
    if n < 10 then (n + 48) :: acc
    else decimalAux fuel (n / 10) ((n % 10 + 48) :: acc)

/-- The decimal numeral of `n`, without sign or leading zero (what `strconv.Itoa` prints). -/
def decimal (n : Nat) : GoString := decimalAux (n + 1) n []

/-- The result `ParseCommand` starts from: `&ParseResult{CommandType: commandSentinel}`. -/
def sentinelResult : ParseResult :=
  { CommandType := commandSentinel, Channel := [], Period := 0, Error := none,
    Matched := false }

/-- The entry of `commandTable` for `:history`. -/
def historyCommand : command :=
  { name := str ":history", desc := str "Display chat history",
    options :=
      [{ name := str "-channel", arg := str "<name>", hint := str "Channel's name" },
       { name := str "-period", arg := str "<n>", hint := str "Time period" }],
    _type := 0 }

/-! ## Transports (`net.Conn`) and run-time faults -/

/-- A non-nil Go `error`, kept as its message. -/
abbrev GoError := GoString

/-- What one call of `net.Conn.Write` returns: `(n int, err error)`. -/
structure WriteReply where
  n : Int
  err : Option GoError
  deriving DecidableEq, Repr

/-- A `net.Conn` as seen by the code, which only calls `Write` on it.  The transport belongs
to the environment: `reply k p` is what its call number `k` returns when given the slice
`p`, whatever that is.  `calls` counts the calls made so far and `written` collects the
bytes the transport reported as accepted, in call order. -/
structure Conn where
  reply : Nat → GoString → WriteReply
  calls : Nat
  written : GoString

/-- One call `conn.Write(p)`: the reply of the transport, and the transport afterwards, with
the first `n` bytes of `p` accepted. -/
def Conn.Write (c : Conn) (p : GoString) : Conn × WriteReply :=
  let r := c.reply c.calls p
  ({ c with calls := c.calls + 1, written := c.written ++ p.take r.n.toNat }, r)

/-- Why a modelled function does not return: a run-time panic of Go, or the step bound of
the model ran out before its loop ended. -/
inductive Fault where
  | panic
  | outOfFuel
  deriving DecidableEq, Repr

/-- Arithmetic of Go `int` (64 bits, two's complement). -/
def wrapInt (x : Int) : Int := (x + 2 ^ 63) % 2 ^ 64 - 2 ^ 63

/-- Arithmetic of Go `int32` (two's complement). -/
def wrapInt32 (x : Int) : Int := (x + 2 ^ 31) % 2 ^ 32 - 2 ^ 31

/-- The loop of `Connection.writeBytes`, from the current value of `bWritten`; `fuel` bounds
the number of iterations.  The slice expression `contents[bWritten:]` panics when
`bWritten` is outside `0..len(contents)`. -/
def writeBytesLoop (contents : GoString) (contentsSize : Int) :
    Nat → Conn → Int → Except Fault (Conn × Int × Option GoError)
  | 0, conn, bWritten =>
    if bWritten < contentsSize then Except.error Fault.outOfFuel
    else Except.ok (conn, bWritten, none)
  | fuel + 1, conn, bWritten =>
    if bWritten < contentsSize then
      if bWritten < 0 ∨ (contents.length : Int) < bWritten then Except.error Fault.panic
      else
        match conn.Write (contents.drop bWritten.toNat) with
        | (conn1, r) =>
          match r.err with
          | some err => Except.ok (conn1, bWritten, some err)
          | none => writeBytesLoop contents contentsSize fuel conn1 (wrapInt (bWritten + r.n))
    else Except.ok (conn, bWritten, none)

/-- The loop of `util.WriteBytes`, from the current value of `bWritten`: every call is
given `buffer.Bytes()`, the whole contents of the buffer (nothing is ever read from it). -/
def WriteBytesLoop (buffer : GoString) :
    Nat → Conn → Int → Except Fault (Conn × Int × Option GoError)
  | 0, conn, bWritten =>
    if bWritten < (buffer.length : Int) then Except.error Fault.outOfFuel
    else Except.ok (conn, bWritten, none)
  | fuel + 1, conn, bWritten =>
    if bWritten < (buffer.length : Int) then
      match conn.Write buffer with
      | (conn1, r) =>
        match r.err with
        | some err => Except.ok (conn1, bWritten, some err)
        | none => WriteBytesLoop buffer fuel conn1 (wrapInt (bWritten + r.n))
    else Except.ok (conn, bWritten, none)

/-- Go: `func WriteBytes(conn net.Conn, buffer *bytes.Buffer) (int, error)`, with at most
`fuel` iterations of its loop. -/
def WriteBytes (fuel : Nat) (conn : Conn) (buffer : GoString) :
    Except Fault (Conn × Int × Option GoError) :=
  WriteBytesLoop buffer fuel conn 0

/-- The function `strings.EqualFold`.  Bytes are compared pairwise as long as both are ASCII
(equal, or an upper-case letter and its lower-case form); when the strings end together
the answer is `true`.  At the first pair holding a byte of `utf8.RuneSelf` or more the
comparison of what is left of both strings goes through the Unicode tables of the standard
library; that branch is the parameter `foldUnicode`. -/
def EqualFold (foldUnicode : GoString → GoString → Bool) : GoString → GoString → Bool
  | [], [] => true
  | [], _ :: _ => false
  | _ :: _, [] => false
  | sr :: s, tr :: t =>
    if 128 ≤ sr ∨ 128 ≤ tr then foldUnicode (sr :: s) (tr :: t)
    else if tr = sr then EqualFold foldUnicode s t
    else if 65 ≤ min sr tr ∧ min sr tr ≤ 90 ∧ max sr tr = min sr tr + 32 then
      EqualFold foldUnicode s t
    else false

/-! ## `pkg/session`: connections and the registry -/

/-- Modelled from the spec: `backend.Participant`, of which the package `session` reads the
display name only (the package `backend` is not part of the sources). -/
structure Participant where
  Name : GoString
  deriving DecidableEq, Repr

/-- Modelled from the spec: `backend.ParticipantMessage{Sender, Time, Contents}`; the three
fields are printed with `%s`. -/
structure ParticipantMessage where
  Sender : GoString
  Time : GoString
  Contents : GoString
  deriving DecidableEq, Repr

/-- Modelled from the spec: `backend.SystemMessage{Time, Contents, ReceiveList}`;
`ReceiveList` holds remote addresses. -/
structure SystemMessage where
  Time : GoString
  Contents : GoString
  ReceiveList : List GoString
  deriving DecidableEq, Repr

/-- Go: `type ConnectionState int32`. -/
abbrev ConnectionState := Int

def Pending : ConnectionState := 1
def Connected : ConnectionState := 2

/-- Go: `type Connection struct`; `participant` is `none` for a nil pointer. -/
structure Connection where
  conn : Conn
  ipAddr : GoString
  state : ConnectionState
  participant : Option Participant

/-- Go: `func (c *Connection) isState(state ConnectionState) bool`. -/
def Connection.isState (c : Connection) (state : ConnectionState) : Bool :=
  decide (c.state = state)

/-- Go: `type ConnectionMap struct`, by its field `connections map[string]*Connection`: the
entries of the map, in the order in which a `range` loop visits them (Go leaves that order
open, so statements about a registry are made for every order).  A key is looked up at its
first entry.  The mutex is not modelled; every method runs from `Lock` to `Unlock` without
interleaving. -/
abbrev ConnectionMap := List (GoString × Connection)

/-- Go: `func newConnectionMap() *ConnectionMap`. -/
def newConnectionMap : ConnectionMap := []

/-- The map read `connMap.connections[key]`: `none` when the key is absent. -/
def getConn : ConnectionMap → GoString → Option Connection
  | [], _ => none
  | (k, c) :: rest, key => if k = key then some c else getConn rest key

/-- The map write `connMap.connections[key] = c`: the entry of `key` is replaced, or a new
entry is made. -/
def setConn : ConnectionMap → GoString → Connection → ConnectionMap
  | [], key, c => [(key, c)]
  | (k, c0) :: rest, key, c =>
    if k = key then (key, c) :: rest else (k, c0) :: setConn rest key c

/-- Go: `func (connMap *ConnectionMap) addConn(conn *Connection)`. -/
def addConn (connMap : ConnectionMap) (conn : Connection) : ConnectionMap :=
  setConn connMap conn.ipAddr conn

/-- Go: `func (connMap *ConnectionMap) removeConn(connIpAddr string)`. -/
def removeConn (connMap : ConnectionMap) (connIpAddr : GoString) : ConnectionMap :=
  connMap.filter (fun e => decide (e.1 ≠ connIpAddr))

/-- How a method that may panic ends, with the registry it leaves behind. -/
inductive Run where
  | returned (connMap : ConnectionMap)
  | panicked (connMap : ConnectionMap) (message : GoString)

/-- Go: `func (connMap *ConnectionMap) assignParticipant(connIpAddr string, participant
*backend.Participant)`; `participant` is `none` for a nil pointer. -/
def assignParticipant (connMap : ConnectionMap) (connIpAddr : GoString)
    (participant : Option Participant) : Run :=
  match getConn connMap connIpAddr with
  | none =>
    Run.panicked connMap
      (Sprintf (str "connection with ip address \x7b%s\x7d doesn't exist") [connIpAddr])
  | some conn =>
    Run.returned
      (setConn connMap connIpAddr { conn with participant := participant, state := Connected })

/-- Go: `func (c *Connection) writeBytes(contents []byte, contentsSize int) (int, error)`,
with at most `fuel` iterations of its loop; the connection is returned with its transport
as the calls left it. -/
def Connection.writeBytes (fuel : Nat) (c : Connection) (contents : GoString)
    (contentsSize : Int) : Except Fault (Connection × Int × Option GoError) :=
  match writeBytesLoop contents contentsSize fuel c.conn 0 with
  | Except.error f => Except.error f
  | Except.ok (conn1, bWritten, err) => Except.ok ({ c with conn := conn1 }, bWritten, err)

/-! ## `pkg/session`: broadcast -/

/-- One call of `writeBytes` made by a broadcast: the key of the connection, the bytes
handed over and what the call returned.  The list of these records is kept next to the
result for the statements about who is written to; the Go functions return the two
counters only. -/
structure Delivery where
  key : GoString
  contents : GoString
  bytesWritten : Int
  err : Option GoError
  deriving DecidableEq, Repr

/-- What a broadcast leaves: the registry with the transports as the writes left them, the
returned pair `(droppedMessageCount, sentMessageCount)`, and the calls of `writeBytes` in
the order they were made. -/
structure Broadcast where
  connections : ConnectionMap
  dropped : Int
  sent : Int
  deliveries : List Delivery

/-- The statements shared by the three loops of the broadcasts:
`bytesWritten, err := connection.writeBytes(...)` followed by the update of one of the two
`int32` counters.  Gives the connection after the call, the counters and the record of the
call. -/
def deliver (fuel : Nat) (key : GoString) (connection : Connection)
    (formatedMessageContents : GoString) (formatedMessageContentsLenght : Int)
    (droppedMessageCount sentMessageCount : Int) :
    Except Fault (Connection × Int × Int × Delivery) :=
  match connection.writeBytes fuel formatedMessageContents formatedMessageContentsLenght with
  | Except.error f => Except.error f
  | Except.ok (connection1, bytesWritten, err) =>
    let call : Delivery :=
      { key := key, contents := formatedMessageContents, bytesWritten := bytesWritten,
        err := err }
    if err ≠ none ∨ bytesWritten ≠ formatedMessageContentsLenght then
      Except.ok (connection1, wrapInt32 (droppedMessageCount + 1), sentMessageCount, call)
    else
      Except.ok (connection1, droppedMessageCount, wrapInt32 (sentMessageCount + 1), call)

/-- The test `!senderWasSkipped && strings.EqualFold(connection.participant.Name,
message.Sender)`; reading `Name` through a nil `participant` panics, and the read is only
made when `senderWasSkipped` is false. -/
def isSender (foldUnicode : GoString → GoString → Bool) (senderWasSkipped : Bool)
    (connection : Connection) (sender : GoString) : Except Fault Bool :=
  if senderWasSkipped then Except.ok false
  else
    match connection.participant with
    | none => Except.error Fault.panic
    | some participant => Except.ok (EqualFold foldUnicode participant.Name sender)

/-- The loop `for _, connection := range connMap.connections` of
`broadcastParticipantMessage`, on the entries still to visit. -/
def participantLoop (foldUnicode : GoString → GoString → Bool) (fuel : Nat)
    (formatedMessageContents : GoString) (formatedMessageContentsLenght : Int)
    (sender : GoString) : ConnectionMap → Bool → Int → Int → Except Fault Broadcast
  | [], _, droppedMessageCount, sentMessageCount =>
    Except.ok
      { connections := [], dropped := droppedMessageCount, sent := sentMessageCount,
        deliveries := [] }
  | (key, connection) :: rest, senderWasSkipped, droppedMessageCount, sentMessageCount =>
    if connection.isState Connected then
      match isSender foldUnicode senderWasSkipped connection sender with
      | Except.error f => Except.error f
      | Except.ok true =>
        match participantLoop foldUnicode fuel formatedMessageContents
            formatedMessageContentsLenght sender rest true droppedMessageCount
            sentMessageCount with
        | Except.error f => Except.error f
        | Except.ok b => Except.ok { b with connections := (key, connection) :: b.connections }
      | Except.ok false =>
        match deliver fuel key connection formatedMessageContents
            formatedMessageContentsLenght droppedMessageCount sentMessageCount with
        | Except.error f => Except.error f
        | Except.ok (connection1, dropped1, sent1, call) =>
          match participantLoop foldUnicode fuel formatedMessageContents
              formatedMessageContentsLenght sender rest senderWasSkipped dropped1 sent1 with
          | Except.error f => Except.error f
          | Except.ok b =>
            Except.ok { b with connections := (key, connection1) :: b.connections,
                               deliveries := call :: b.deliveries }
    else
      match participantLoop foldUnicode fuel formatedMessageContents
          formatedMessageContentsLenght sender rest senderWasSkipped droppedMessageCount
          sentMessageCount with
      | Except.error f => Except.error f
      | Except.ok b => Except.ok { b with connections := (key, connection) :: b.connections }

/-- Go: `func (connMap *ConnectionMap) broadcastParticipantMessage(message
*backend.ParticipantMessage) (int32, int32)`; every call of `writeBytes` may take `fuel`
iterations. -/
def broadcastParticipantMessage (foldUnicode : GoString → GoString → Bool) (fuel : Nat)
    (connMap : ConnectionMap) (message : ParticipantMessage) : Except Fault Broadcast :=
  let formatedMessageContents : GoString :=
    Sprintf (str "[%s:%s]  %s") [message.Sender, message.Time, message.Contents]
  let formatedMessageContentsLenght : Int := formatedMessageContents.length
  participantLoop foldUnicode fuel formatedMessageContents formatedMessageContentsLenght
    message.Sender connMap false 0 0

/-- The loop `for _, receiver := range message.ReceiveList` of `broadcastSystemMessage`, on
the receivers still to visit; the registry is carried along because a connection may be
named more than once. -/
def receiveListLoop (fuel : Nat) (formatedMessageContents : GoString)
    (formatedMessageContentsLenght : Int) :
    List GoString → ConnectionMap → Int → Int → Except Fault Broadcast
  | [], connMap, droppedMessageCount, sentMessageCount =>
    Except.ok
      { connections := connMap, dropped := droppedMessageCount, sent := sentMessageCount,
        deliveries := [] }
  | receiver :: rest, connMap, droppedMessageCount, sentMessageCount =>
    match getConn connMap receiver with
    | some connection =>
      match deliver fuel receiver connection formatedMessageContents
          formatedMessageContentsLenght droppedMessageCount sentMessageCount with
      | Except.error f => Except.error f
      | Except.ok (connection1, dropped1, sent1, call) =>
        match receiveListLoop fuel formatedMessageContents formatedMessageContentsLenght rest
            (setConn connMap receiver connection1) dropped1 sent1 with
        | Except.error f => Except.error f
        | Except.ok b => Except.ok { b with deliveries := call :: b.deliveries }
    | none =>
      receiveListLoop fuel formatedMessageContents formatedMessageContentsLenght rest connMap
        droppedMessageCount sentMessageCount

/-- The loop `for _, connection := range connMap.connections` of `broadcastSystemMessage`, on
the entries still to visit. -/
def everyoneLoop (fuel : Nat) (formatedMessageContents : GoString)
    (formatedMessageContentsLenght : Int) :
    ConnectionMap → Int → Int → Except Fault Broadcast
  | [], droppedMessageCount, sentMessageCount =>
    Except.ok
      { connections := [], dropped := droppedMessageCount, sent := sentMessageCount,
        deliveries := [] }
  | (key, connection) :: rest, droppedMessageCount, sentMessageCount =>
    match deliver fuel key connection formatedMessageContents formatedMessageContentsLenght
        droppedMessageCount sentMessageCount with
    | Except.error f => Except.error f
    | Except.ok (connection1, dropped1, sent1, call) =>
      match everyoneLoop fuel formatedMessageContents formatedMessageContentsLenght rest
          dropped1 sent1 with
      | Except.error f => Except.error f
      | Except.ok b =>
        Except.ok { b with connections := (key, connection1) :: b.connections,
                           deliveries := call :: b.deliveries }

/-- Go: `func (connMap *ConnectionMap) broadcastSystemMessage(message
*backend.SystemMessage) (int32, int32)`; every call of `writeBytes` may take `fuel`
iterations. -/
def broadcastSystemMessage (fuel : Nat) (connMap : ConnectionMap)
    (message : SystemMessage) : Except Fault Broadcast :=
  let formatedMessageContents : GoString :=
    Sprintf (str "[%s]  %s") [message.Time, message.Contents]
  let formatedMessageContentsLenght : Int := formatedMessageContents.length
  if message.ReceiveList.length ≠ 0 then
    receiveListLoop fuel formatedMessageContents formatedMessageContentsLenght
      message.ReceiveList connMap 0 0
  else
    everyoneLoop fuel formatedMessageContents formatedMessageContentsLenght connMap 0 0

/-! ## `pkg/session`: the idle supervisor as a step machine -/

/-- A `time.Timer` as the supervisor uses it, with the channel `C` holding at most one value
(the behaviour the idiom `if !t.Stop() { <-t.C }` of the source is written for): `active`
says the timer is armed and has not fired, `pending` says a value waits in `C`, `duration`
is what it was last armed for. -/
structure Timer where
  active : Bool
  pending : Bool
  duration : Nat
  deriving DecidableEq, Repr

/-- The function `time.NewTimer(d)`. -/
def NewTimer (d : Nat) : Timer := { active := true, pending := false, duration := d }

/-- The method `t.Stop()`: the timer is disarmed; the result is true when the call stopped
an armed timer. -/
def Timer.Stop (t : Timer) : Timer × Bool := ({ t with active := false }, t.active)

/-- The method `t.Reset(d)`. -/
def Timer.Reset (t : Timer) (d : Nat) : Timer := { t with active := true, duration := d }

/-- The armed timer runs out: a value is put in `C`.  A timer that is not armed does
nothing. -/
def Timer.fire (t : Timer) : Timer :=
  if t.active then { t with active := false, pending := true } else t

/-- What happens to the supervisor: the timer runs out (a step of the environment), or the
`select` of `disconnectIfIdle` takes one of its three cases. -/
inductive Event where
  | timerFires
  | timerExpiry
  | abort
  | quit
  deriving DecidableEq, Repr

/-- The part of a `Reader` that `disconnectIfIdle` touches, and where the goroutine is:
`running` until it returns, `blocked` when it waits for ever in `<-connectionTimeout.C`. -/
structure Supervisor where
  connectionTimeout : Timer
  timeoutDuration : Nat
  idleConnectionsChClosed : Bool
  connClosed : Bool
  running : Bool
  blocked : Bool
  deriving DecidableEq, Repr

/-- The supervisor of a reader made by `newReader` with time-out `d`, when
`disconnectIfIdle` starts. -/
def newSupervisor (d : Nat) : Supervisor :=
  { connectionTimeout := NewTimer d, timeoutDuration := d, idleConnectionsChClosed := false,
    connClosed := false, running := true, blocked := false }

/-- The supervisor handles the event: it is in its `select`, and for the timer case a value
waits in `C`. -/
def handles (s : Supervisor) (e : Event) : Bool :=
  s.running && !s.blocked &&
    (match e with
     | Event.timerFires => false
     | Event.timerExpiry => s.connectionTimeout.pending
     | Event.abort => true
     | Event.quit => true)

/-- One step of `disconnectIfIdle`: the body of the `select` case the event stands for.  An
event that is not handled leaves the supervisor as it is; the timer running out only
changes the timer. -/
def step (s : Supervisor) (e : Event) : Supervisor :=
  match e with
  | Event.timerFires => { s with connectionTimeout := s.connectionTimeout.fire }
  | Event.timerExpiry =>
    if handles s Event.timerExpiry then
      { s with connectionTimeout := { s.connectionTimeout with pending := false },
               idleConnectionsChClosed := true, connClosed := true, running := false }
    else s
  | Event.abort =>
    if handles s Event.abort then
      match s.connectionTimeout.Stop with
      | (t1, true) => { s with connectionTimeout := t1.Reset s.timeoutDuration }
      | (t1, false) =>
        if t1.pending then
          { s with connectionTimeout :=
              Timer.Reset { t1 with pending := false } s.timeoutDuration }
        else { s with connectionTimeout := t1, blocked := true }
    else s
  | Event.quit => if handles s Event.quit then { s with running := false } else s

/-- The supervisor after a sequence of events. -/
def run (s : Supervisor) (events : List Event) : Supervisor := events.foldl step s

/-! ## `ParseCommand` with checked indexing -/

/-- The index expression `arguments[i]`, which panics outside the slice. -/
def argAt (arguments : List GoString) (i : Nat) : Except Fault GoString :=
  match arguments.get? i with
  | some a => Except.ok a
  | none => Except.error Fault.panic

/-- The loop `for i := 1; i < len(arguments); i += 2` of `ParseCommand` with the loop
variable `i` and every index expression checked; `fuel` bounds the number of iterations. -/
def parseOptionsChecked (cmd : command) (arguments : List GoString) :
    Nat → Nat → Nat → ParseResult → Except Fault ParseResult
  | 0, i, _, result =>
    if i < arguments.length then Except.error Fault.outOfFuel else Except.ok result
  | fuel + 1, i, optionIndex, result =>
    if i < arguments.length then
      if optionIndex ≥ cmd.options.length then
        match argAt arguments i with
        | Except.error f => Except.error f
        | Except.ok a =>
          Except.ok { result with
            Error := some { t := errorUnexpectedArgument, msg := Fmt (str "%s") [a] } }
      else if i = arguments.length - 1 then
        Except.ok { result with Error := some { t := errorArgumentNotSpecified, msg := [] } }
      else
        match argAt arguments i, argAt arguments (i + 1) with
        | Except.ok a, Except.ok v =>
          match scanOptions a v result cmd.options with
          | Flow.returned result1 => Except.ok result1
          | Flow.done result1 =>
            if result1.Matched = false then
              Except.ok { result1 with
                Error := some { t := errorUnrecognizedArgument, msg := a } }
            else parseOptionsChecked cmd arguments fuel (i + 2) (optionIndex + 1) result1
        | _, _ => Except.error Fault.panic
    else Except.ok result

/-- The loop `for _, cmd := range commandTable` of `ParseCommand` over the slots of the
table: reading `cmd.name` through a nil slot panics, and so does `arguments[0]` on an empty
slice. -/
def matchCommandChecked (mapLower : GoString → GoString) (arguments : List GoString)
    (result : ParseResult) : List (Option command) → Except Fault ParseResult
  | [] => Except.ok result
  | none :: _ => Except.error Fault.panic
  | some cmd :: cmds =>
    match argAt arguments 0 with
    | Except.error f => Except.error f
    | Except.ok first =>
      if ToLower mapLower first = cmd.name then
        parseOptionsChecked cmd arguments arguments.length 1 0
          { result with CommandType := cmd._type }
      else matchCommandChecked mapLower arguments result cmds

/-- Go: `func ParseCommand(buffer *bytes.Buffer) *ParseResult` run after `init`, with every
index expression and pointer read checked. -/
def ParseCommandChecked (mapLower : GoString → GoString) (buffer : GoString) :
    Except Fault ParseResult :=
  match initCommandTable with
  | none => Except.error Fault.panic
  | some slots =>
    if HasPrefix buffer (str ":") then
      matchCommandChecked mapLower (Split buffer 32) sentinelResult slots
    else Except.ok sentinelResult

/-! ## Assumptions on transports, for the statements -/

/-- Every call of `Write` on a non-empty slice either returns an error or accepts at least
one byte and no more than it was given. -/
def Conn.progresses (c : Conn) : Prop :=
  ∀ (k : Nat) (p : GoString), p ≠ [] →
    (c.reply k p).err ≠ none ∨ (1 ≤ (c.reply k p).n ∧ (c.reply k p).n ≤ (p.length : Int))

/-- No call of `Write` returns an error. -/
def Conn.neverFails (c : Conn) : Prop :=
  ∀ (k : Nat) (p : GoString), (c.reply k p).err = none

/-- A transport that accepts one byte per call and never fails, with nothing written yet. -/
def byteWiseConn : Conn :=
  { reply := fun _ _ => { n := 1, err := none }, calls := 0, written := [] }

/-- A transport that accepts everything it is given and never fails, with nothing written
yet. -/
def greedyConn : Conn :=
  { reply := fun _ p => { n := p.length, err := none }, calls := 0, written := [] }

/-! ## Vocabulary of the statements on broadcasts -/

/-- The line of a participant message: `[<Sender>:<Time>]  <Contents>`. -/
def participantLine (message : ParticipantMessage) : GoString :=
  str "[" ++ message.Sender ++ str ":" ++ message.Time ++ str "]  " ++ message.Contents

/-- The line of a system message: `[<Time>]  <Contents>`. -/
def systemLine (message : SystemMessage) : GoString :=
  str "[" ++ message.Time ++ str "]  " ++ message.Contents

/-- The connection has a participant whose name equals `sender` up to case. -/
def sameName (foldUnicode : GoString → GoString → Bool) (sender : GoString)
    (c : Connection) : Bool :=
  match c.participant with
  | some participant => EqualFold foldUnicode participant.Name sender
  | none => false

/-- The keys of the entries in state `Connected`, in the order of the registry. -/
def connectedKeys : ConnectionMap → List GoString
  | [] => []
  | (k, c) :: rest =>
    if c.state = Connected then k :: connectedKeys rest else connectedKeys rest

/-- The keys of the entries in state `Connected`, in the order of the registry, without
the first one whose participant has the name of the sender. -/
def recipients (foldUnicode : GoString → GoString → Bool) (sender : GoString) :
    ConnectionMap → List GoString
  | [] => []
  | (k, c) :: rest =>
    if c.state = Connected then
      if sameName foldUnicode sender c then connectedKeys rest
      else k :: recipients foldUnicode sender rest
    else recipients foldUnicode sender rest

/-- Some `Connected` entry has a participant with the name of the sender. -/
def senderConnected (foldUnicode : GoString → GoString → Bool) (sender : GoString)
    (connMap : ConnectionMap) : Bool :=
  connMap.any (fun e => decide (e.2.state = Connected) && sameName foldUnicode sender e.2)

/-- A call of `writeBytes` counts as sent: no error and the whole length written. -/
def Delivery.isSent (len : Int) (d : Delivery) : Bool :=
  decide (d.err = none) && decide (d.bytesWritten = len)

/-- The key is registered. -/
def registered (connMap : ConnectionMap) (key : GoString) : Bool :=
  (getConn connMap key).isSome

/-- An `int32` counter that starts at `x` and is incremented `n` times. -/
def count32 (x : Int) : Nat → Int
  | 0 => x
  | n + 1 => count32 (wrapInt32 (x + 1)) n

/-- The entry `e1` is the entry `e` up to the state of its transport: same key, address,
state, participant and behaviour of the transport. -/
def sameEntry (e e1 : GoString × Connection) : Prop :=
  e1.1 = e.1 ∧ e1.2.ipAddr = e.2.ipAddr ∧ e1.2.state = e.2.state ∧
    e1.2.participant = e.2.participant ∧ e1.2.conn.reply = e.2.conn.reply

/-- A connection for the examples, on a transport that accepts what it is given. -/
def exampleConnection (ipAddr : GoString) (state : ConnectionState)
    (participant : Option Participant) : Connection :=
  { conn := greedyConn, ipAddr := ipAddr, state := state, participant := participant }

/-- A registry for the examples: two `Connected` connections whose participants are both
called Alice up to case, a `Connected` one for Bob and a `Pending` one without
participant. -/
def exampleMap : ConnectionMap :=
  [(str "10.0.0.1:1",
      exampleConnection (str "10.0.0.1:1") Connected (some { Name := str "alice" })),
   (str "10.0.0.2:1",
      exampleConnection (str "10.0.0.2:1") Connected (some { Name := str "ALICE" })),
   (str "10.0.0.3:1",
      exampleConnection (str "10.0.0.3:1") Connected (some { Name := str "bob" })),
   (str "10.0.0.4:1", exampleConnection (str "10.0.0.4:1") Pending none)]

/-- A registry whose first connection is `Connected` with a nil participant, followed by a
`Connected` connection for Bob. -/
def brokenMap : ConnectionMap :=
  [(str "10.0.0.1:1", exampleConnection (str "10.0.0.1:1") Connected none),
   (str "10.0.0.3:1",
      exampleConnection (str "10.0.0.3:1") Connected (some { Name := str "bob" }))]

/-- A message of Alice. -/
def exampleMessage : ParticipantMessage :=
  { Sender := str "Alice", Time := str "10:15:00", Contents := str "hello" }

/-- A Unicode branch of `strings.EqualFold` for the examples, whose names are all ASCII. -/
def noFold : GoString → GoString → Bool := fun _ _ => false

/-- A system message for three receivers: a registered address, an address that is not
registered, and the first address again. -/
def exampleSystemMessage : SystemMessage :=
  { Time := str "10:15:00", Contents := str "welcome",
    ReceiveList := [str "10.0.0.4:1", str "9.9.9.9:1", str "10.0.0.4:1"] }

/-- A registry with one connection, on a transport that accepts what it is given. -/
def singleMap : ConnectionMap :=
  [(str "10.0.0.4:1", exampleConnection (str "10.0.0.4:1") Pending none)]

/-- A system message that names the address of `singleMap` `n` times. -/
def repeatedMessage (n : Nat) : SystemMessage :=
  { Time := str "10:15:00", Contents := str "welcome",
    ReceiveList := List.replicate n (str "10.0.0.4:1") }

/-! ## Vocabulary of the statements on the registry -/

/-- The registry a method leaves behind, however it ended. -/
def Run.connections : Run → ConnectionMap
  | Run.returned m => m
  | Run.panicked m _ => m

/-- The method returned normally. -/
def Run.isReturned : Run → Bool
  | Run.returned _ => true
  | Run.panicked _ _ => false

/-- The registries reached from the empty one by `addConn` of a connection in state
`Pending` without participant, by `removeConn`, and by calls of `assignParticipant` with a
participant (a non-nil pointer) that return normally. -/
inductive Reachable : ConnectionMap → Prop where
  | empty : Reachable newConnectionMap
  | add (m : ConnectionMap) (c : Connection) :
      Reachable m → c.state = Pending → c.participant = none → Reachable (addConn m c)
  | remove (m : ConnectionMap) (a : GoString) : Reachable m → Reachable (removeConn m a)
  | assign (m : ConnectionMap) (a : GoString) (p : Participant) (m1 : ConnectionMap) :
      Reachable m → assignParticipant m a (some p) = Run.returned m1 → Reachable m1

/-! ## Vocabulary of the statements on the supervisor -/

/-- What holds of a supervisor started with time-out `d`, after any events: it never blocks,
the notification channel and the transport are closed together and only once it has
returned, and while it runs its timer is either armed or has fired, for the duration
`d`. -/
def Supervised (d : Nat) (s : Supervisor) : Prop :=
  s.timeoutDuration = d ∧ s.blocked = false ∧ s.idleConnectionsChClosed = s.connClosed ∧
    (s.connClosed = true → s.running = false) ∧
    (s.running = true →
      s.connectionTimeout.duration = d ∧
        s.connectionTimeout.active = !s.connectionTimeout.pending)

/-- A transport that accepts at most two bytes per call and never fails, with nothing
written yet. -/
def pairWiseConn : Conn :=
  { reply := fun _ p => { n := min 2 p.length, err := none }, calls := 0, written := [] }

/-- What can be seen of a write loop that returned: the bytes the transport accepted, the
count and the error returned; `none` when it did not return. -/
def observe (r : Except Fault (Conn × Int × Option GoError)) :
    Option (GoString × Int × Option GoError) :=
  match r with
  | Except.ok (c, n, err) => some (c.written, n, err)
  | Except.error _ => none

/-! ## `pkg/session`: the reader's buffer and `read` -/

/-- The function `strings.Trim(s, cutset)` for a cutset of ASCII bytes, the only way the
source calls it: the bytes of the cutset are removed from the end of `s` and then from its
start, until a byte outside the cutset is met. -/
def Trim (s cutset : GoString) : GoString :=
  ((s.reverse.dropWhile (fun c => decide (c ∈ cutset))).reverse).dropWhile
    (fun c => decide (c ∈ cutset))

/-- Go: `func TrimWhitespaces(src []byte) []byte`; the cutset is the literal
`" \r\n\v\t\f"` of the source. -/
def TrimWhitespaces (src : GoString) : GoString := Trim src (str " \r\n\x0b\t\x0c")

/-- A byte slice: the bytes of its backing array from the start of the slice on (as many
as its capacity) and its length. -/
structure Slice where
  array : GoString
  len : Nat
  deriving DecidableEq, Repr

/-- The expression `make([]byte, len, cap)`. -/
def makeBytes (len cap : Nat) : Slice := { array := List.replicate cap 0, len := len }

/-- The slice expression `s[:high]`, by its contents: on a slice the upper bound may go up to
the capacity, and the expression panics outside `0..cap(s)`. -/
def Slice.upTo (s : Slice) (high : Int) : Except Fault GoString :=
  if high < 0 ∨ (s.array.length : Int) < high then Except.error Fault.panic
  else Except.ok (s.array.take high.toNat)

/-- What one call of `net.Conn.Read` does: the bytes it stores at the start of the slice it
was given, and the `(n int, err error)` it returns. -/
structure ReadReply where
  data : GoString
  n : Int
  err : Option GoError
  deriving DecidableEq, Repr

/-- A `net.Conn` as seen by the reader, which calls `Read` and `LocalAddr` on it.  The
transport belongs to the environment: `respond k len` is what its call number `k` does when
given a slice of length `len`. -/
structure ReadEnd where
  respond : Nat → Nat → ReadReply
  calls : Nat
  localAddr : GoString

/-- One call `conn.Read(p)`: the transport afterwards, the slice with the bytes stored in
it (no more than `len(p)`), and the values returned. -/
def ReadEnd.Read (c : ReadEnd) (p : Slice) : ReadEnd × Slice × Int × Option GoError :=
  let r := c.respond c.calls p.len
  let stored := r.data.take p.len
  ({ c with calls := c.calls + 1 }, { p with array := stored ++ p.array.drop stored.length },
    r.n, r.err)

/-- Go: `type ReaderState int32`. -/
abbrev ReaderState := Int

def ProcessingMenu : ReaderState := 1

/-- Go: `type ReaderSubstate int32`. -/
abbrev ReaderSubstate := Int

def NotSet : ReaderSubstate := 0

/-- Go: `type Reader struct`, by the fields that `newReader` sets and `read` uses; the three
channels and the accumulated participant and channel data are left out. -/
structure Reader where
  conn : ReadEnd
  ipAddr : GoString
  state : ReaderState
  substate : ReaderSubstate
  connectionTimeout : Timer
  timeoutDuration : Nat
  buffer : Slice

/-- Go: `func newReader(conn net.Conn, connIpAddr string, connectionTimeout time.Duration)
*Reader`; the address kept is `conn.LocalAddr().String()`. -/
def newReader (conn : ReadEnd) (_connIpAddr : GoString) (connectionTimeout : Nat) : Reader :=
  { conn := conn, ipAddr := conn.localAddr, state := ProcessingMenu, substate := NotSet,
    connectionTimeout := NewTimer connectionTimeout, timeoutDuration := connectionTimeout,
    buffer := makeBytes 0 1024 }

/-- Go: `type ReadResult struct`; `asBytes` is kept by its contents. -/
structure ReadResult where
  bytesRead : Int
  asBytes : GoString
  asStr : GoString
  err : Option GoError
  deriving DecidableEq, Repr

/-- Go: `func (reader *Reader) read() ReadResult`, with the reader as the call leaves it.
The cutset of `strings.Trim` is the literal of the source, in which every backslash is
escaped. -/
def Reader.read (reader : Reader) : Except Fault (Reader × ReadResult) :=
  match reader.conn.Read reader.buffer with
  | (conn1, buffer1, bytesRead, err) =>
    match buffer1.upTo bytesRead with
    | Except.error f => Except.error f
    | Except.ok bytes =>
      Except.ok
        ({ reader with conn := conn1, buffer := buffer1 },
         { bytesRead := wrapInt32 bytesRead, asBytes := bytes,
           asStr := Trim bytes (str " \\t\\r\\n\\v\\f"), err := err })

/-- A transport that holds the bytes `avail` for its first `Read`, which stores as many of
them as the slice takes, and is at end of file afterwards. -/
def fillingEnd (avail : GoString) : ReadEnd :=
  { respond := fun call len =>
      if call = 0 then
        { data := avail.take len, n := ((min len avail.length : Nat) : Int), err := none }
      else { data := [], n := 0, err := some (str "EOF") },
    calls := 0, localAddr := str "127.0.0.1:8080" }

/-- What `read` returned, `none` when it did not return. -/
def readResult (r : Except Fault (Reader × ReadResult)) : Option ReadResult :=
  match r with
  | Except.ok (_, result) => some result
  | Except.error _ => none

/-- A reader whose buffer has length and capacity `n`, as `make([]byte, n)` gives, on the
transport `conn`. -/
def readerOfLength (conn : ReadEnd) (n : Nat) : Reader :=
  { newReader conn [] 0 with buffer := makeBytes n n }

/-! ## Vocabulary of the statements on what a broadcast writes -/

/-- The call `c.writeBytes(line, len(line))` returned `(n, err)` and left the connection
`c1`, whose transport has been called at least once more than that of `c`. -/
def writtenOnce (fuel : Nat) (line : GoString) (c c1 : Connection) (n : Int)
    (err : Option GoError) : Prop :=
  c.writeBytes fuel line line.length = Except.ok (c1, n, err) ∧ c.conn.calls < c1.conn.calls

/-- The connection `c1` is `c` after `n` calls of `writeBytes(line, len(line))` that
returned, one after the other. -/
def writtenTimes (fuel : Nat) (line : GoString) : Nat → Connection → Connection → Prop
  | 0, c, c1 => c1 = c
  | n + 1, c, c1 =>
    ∃ (c0 : Connection) (k : Int) (err : Option GoError),
      writtenOnce fuel line c c0 k err ∧ writtenTimes fuel line n c0 c1

/-- The entry `e1` is the entry `e` after one call of `writeBytes(line, len(line))` on its
connection, and that call is one of the recorded calls `ds`. -/
def lineWritten (fuel : Nat) (line : GoString) (ds : List Delivery)
    (e e1 : GoString × Connection) : Prop :=
  e1.1 = e.1 ∧
    ∃ d ∈ ds, d.key = e.1 ∧ d.contents = line ∧
      writtenOnce fuel line e.2 e1.2 d.bytesWritten d.err

/-- The entry `e1` is what a broadcast of `line` to the `Connected` connections leaves of
`e`: a `Connected` entry has been written to once, any other entry is as it was, its
transport included. -/
def broadcastTo (fuel : Nat) (line : GoString) (ds : List Delivery)
    (e e1 : GoString × Connection) : Prop :=
  (e.2.state = Connected → lineWritten fuel line ds e e1) ∧
    (e.2.state ≠ Connected → e1 = e)

/-- A transport whose `Write` accepts nothing and reports no error, with nothing written
yet. -/
def stalledConn : Conn :=
  { reply := fun _ _ => { n := 0, err := none }, calls := 0, written := [] }

/-- A `Connected` connection on the transport `stalledConn`. -/
def stalledConnection (ipAddr : GoString) (participant : Option Participant) : Connection :=
  { conn := stalledConn, ipAddr := ipAddr, state := Connected, participant := participant }

/-- A registry of two `Connected` connections: Bob, on a transport that accepts nothing,
and behind him Carol, on a transport that accepts what it is given. -/
def stalledMap : ConnectionMap :=
  [(str "10.0.0.3:1", stalledConnection (str "10.0.0.3:1") (some { Name := str "bob" })),
   (str "10.0.0.5:1",
      exampleConnection (str "10.0.0.5:1") Connected (some { Name := str "carol" }))]

/-- A system message for everyone: its `ReceiveList` is empty. -/
def everyoneMessage : SystemMessage :=
  { Time := str "10:15:00", Contents := str "welcome", ReceiveList := [] }

/-- What can be seen of the transports after a broadcast that returned: for every entry
its key, the number of calls of `Write` and the bytes accepted; `none` when the broadcast
did not return. -/
def transportsAfter (r : Except Fault Broadcast) : Option (List (GoString × Nat × GoString)) :=
  match r with
  | Except.ok b => some (b.connections.map (fun e => (e.1, e.2.conn.calls, e.2.conn.written)))
  | Except.error _ => none

/-! ## Lemmas on the library models -/

theorem str_colon : str ":" = [58] := by decide

theorem str_verb : str "%s" = [37, 115] := by decide

theorem str_channel : str "-channel" = [45, 99, 104, 97, 110, 110, 101, 108] := by decide

theorem str_period : str "-period" = [45, 112, 101, 114, 105, 111, 100] := by decide

theorem Split_of_not_mem (t : GoString) (h : 32 ∉ t) : Split t 32 = [t] := by
  induction t with
  | nil => rfl
  | cons c cs ih =>
    have hc : c ≠ 32 := fun e => h (by simp [e])
    have hcs : 32 ∉ cs := fun e => h (by simp [e])
    simp [Split, hc, ih hcs]

theorem Split_append_sep (t s : GoString) (h : 32 ∉ t) :
    Split (t ++ 32 :: s) 32 = t :: Split s 32 := by
  induction t with
  | nil => simp [Split]
  | cons c cs ih =>
    have hc : c ≠ 32 := fun e => h (by simp [e])
    have hcs : 32 ∉ cs := fun e => h (by simp [e])
    simp [Split, hc, ih hcs]

theorem Split_lineOf (t : GoString) (ts : List GoString)
    (h : ∀ x ∈ t :: ts, 32 ∉ x) : Split (lineOf (t :: ts)) 32 = t :: ts := by
  induction ts generalizing t with
  | nil => exact Split_of_not_mem t (h t (by simp))
  | cons u rest ih =>
    have ht : 32 ∉ t := h t (by simp)
    have hrest : ∀ x ∈ u :: rest, 32 ∉ x := fun x hx => h x (List.mem_cons_of_mem _ hx)
    simp only [lineOf]
    rw [Split_append_sep t _ ht, ih u hrest]

theorem Fmt_verb (a : GoString) : Fmt (str "%s") [a] = a := by
  simp [Fmt, str_verb, Sprintf]

theorem ToLower_of_lower (m : GoString → GoString) (s : GoString)
    (h : ∀ c ∈ s, c < 65 ∨ (90 < c ∧ c < 128)) : ToLower m s = s := by
  have hall : s.all (fun c => decide (c < 128)) = true := by
    rw [List.all_eq_true]
    intro c hc
    have := h c hc
    simp only [decide_eq_true_eq]
    omega
  have hmap : s.map lowerASCII = s := by
    conv_rhs => rw [← List.map_id s]
    apply List.map_congr_left
    intro c hc
    have := h c hc
    simp only [lowerASCII, id]
    split_ifs <;> omega
  simp [ToLower, hall, hmap]

/-! ## Lemmas on the tables -/

theorem commandTable_names_nodup : (commandTable.map (fun c => c.name)).Nodup := by decide

theorem commandTable_names_lower :
    ∀ cmd ∈ commandTable, ∀ c ∈ cmd.name, c < 65 ∨ (90 < c ∧ c < 128) := by decide

theorem commandTable_names_shape :
    ∀ cmd ∈ commandTable, cmd.name.head? = some 58 ∧ 32 ∉ cmd.name := by decide

theorem commandTable_types : ∀ cmd ∈ commandTable, cmd._type = CommandNull := by decide

theorem commandTable_options :
    ∀ cmd ∈ commandTable, ∀ opt ∈ cmd.options,
      opt.name = str "-channel" ∨ opt.name = str "-period" := by decide

/-! ## Lemmas on the loops of `ParseCommand` -/

/-- Induction over a token list two tokens at a time, the way the option loop advances. -/
theorem pairs_induction {P : List GoString → Prop} (h0 : P []) (h1 : ∀ a, P [a])
    (h2 : ∀ a v rest, P rest → P (a :: v :: rest)) : ∀ ts, P ts
  | [] => h0
  | [a] => h1 a
  | a :: v :: rest => h2 a v rest (pairs_induction h0 h1 h2 rest)

theorem scanOptions_done (a v : GoString) (r r1 : ParseResult) (opts : List option)
    (h : scanOptions a v r opts = Flow.done r1) :
    r1.CommandType = r.CommandType ∧ r1.Error = r.Error ∧
      (r.Matched = true → r1.Matched = true) := by
  induction opts with
  | nil =>
    simp only [scanOptions, Flow.done.injEq] at h
    subst h
    simp
  | cons opt opts ih =>
    simp only [scanOptions] at h
    split_ifs at h with h1 h2 h3
    · simp only [Flow.done.injEq] at h
      subst h
      simp
    · split at h
      · simp at h
      · split_ifs at h
        simp only [Flow.done.injEq] at h
        subst h
        simp
    · exact ih h
    · exact ih h

theorem scanOptions_returned (a v : GoString) (r r1 : ParseResult) (opts : List option)
    (h : scanOptions a v r opts = Flow.returned r1) :
    r1 = { r with Error := some { t := errorInvalidValue, msg := Fmt (str "period %s") [v] } } := by
  induction opts with
  | nil => simp [scanOptions] at h
  | cons opt opts ih =>
    simp only [scanOptions] at h
    split_ifs at h with h1 h2 h3
    · split at h
      · simp only [Flow.returned.injEq] at h
        exact h.symm
      · split_ifs at h
        simp only [Flow.returned.injEq] at h
        exact h.symm
    · exact ih h
    · exact ih h

theorem parseOptions_CommandType (cmd : command) :
    ∀ ts oi r, (parseOptions cmd oi r ts).CommandType = r.CommandType := by
  intro ts
  induction ts using pairs_induction with
  | h0 => intro oi r; rfl
  | h1 a =>
    intro oi r
    simp only [parseOptions]
    split_ifs <;> rfl
  | h2 a v rest ih =>
    intro oi r
    simp only [parseOptions]
    split_ifs
    · rfl
    · cases hs : scanOptions a v r cmd.options with
      | returned r1 =>
        simp only
        rw [scanOptions_returned a v r r1 _ hs]
      | done r1 =>
        simp only
        have h := scanOptions_done a v r r1 _ hs
        split_ifs
        · exact h.1
        · rw [ih]; exact h.1

theorem parseOptions_Matched (cmd : command) :
    ∀ ts oi r, r.Matched = true → (parseOptions cmd oi r ts).Matched = true := by
  intro ts
  induction ts using pairs_induction with
  | h0 => intro oi r h; exact h
  | h1 a =>
    intro oi r h
    simp only [parseOptions]
    split_ifs <;> exact h
  | h2 a v rest ih =>
    intro oi r h
    simp only [parseOptions]
    split_ifs
    · exact h
    · cases hs : scanOptions a v r cmd.options with
      | returned r1 =>
        simp only
        rw [scanOptions_returned a v r r1 _ hs]
        exact h
      | done r1 =>
        simp only
        have h1 := (scanOptions_done a v r r1 _ hs).2.2 h
        split_ifs with hm
        · rw [h1] at hm
          exact absurd hm (by simp)
        · exact ih _ _ h1

theorem matchCommand_of_name (m : GoString → GoString) (first : GoString)
    (rest : List GoString) (r : ParseResult) (cmd : command) :
    ∀ table : List command, (table.map (fun c => c.name)).Nodup → cmd ∈ table →
      ToLower m first = cmd.name →
      matchCommand m first rest r table =
        parseOptions cmd 0 { r with CommandType := cmd._type } rest := by
  intro table
  induction table with
  | nil => intro _ h; simp at h
  | cons c cs ih =>
    intro hnd hmem hname
    simp only [List.map_cons, List.nodup_cons] at hnd
    simp only [matchCommand]
    by_cases hc : c.name = cmd.name
    · have hcmd : cmd = c := by
        rcases List.mem_cons.mp hmem with h | h
        · exact h
        · exact absurd (hc ▸ List.mem_map_of_mem (fun c => c.name) h) hnd.1
      subst hcmd
      simp [hname]
    · have hmem1 : cmd ∈ cs := by
        rcases List.mem_cons.mp hmem with h | h
        · exact absurd (h ▸ rfl) hc
        · exact h
      have hne : ¬ ToLower m first = c.name := fun e => hc (e.symm.trans hname)
      simp only [hne, if_false]
      exact ih hnd.2 hmem1 hname

theorem matchCommand_no_name (m : GoString → GoString) (first : GoString)
    (rest : List GoString) (r : ParseResult) :
    ∀ table : List command, (∀ cmd ∈ table, ToLower m first ≠ cmd.name) →
      matchCommand m first rest r table = r := by
  intro table
  induction table with
  | nil => intro _; rfl
  | cons c cs ih =>
    intro h
    simp only [matchCommand]
    rw [if_neg (h c (by simp))]
    exact ih (fun cmd hc => h cmd (List.mem_cons_of_mem _ hc))

theorem matchCommand_some_name (m : GoString → GoString) (first : GoString)
    (rest : List GoString) (r : ParseResult) :
    ∀ table : List command, (∃ cmd ∈ table, ToLower m first = cmd.name) →
      ∃ cmd ∈ table, ToLower m first = cmd.name ∧
        matchCommand m first rest r table =
          parseOptions cmd 0 { r with CommandType := cmd._type } rest := by
  intro table
  induction table with
  | nil => intro h; simp at h
  | cons c cs ih =>
    intro h
    simp only [matchCommand]
    by_cases hc : ToLower m first = c.name
    · exact ⟨c, by simp, hc, by simp [hc]⟩
    · obtain ⟨cmd, hmem, hname⟩ := h
      have hmem1 : cmd ∈ cs := by
        rcases List.mem_cons.mp hmem with e | e
        · exact absurd (e ▸ hname) hc
        · exact e
      obtain ⟨cmd1, h1, h2, h3⟩ := ih ⟨cmd, hmem1, hname⟩
      exact ⟨cmd1, List.mem_cons_of_mem _ h1, h2, by simp only [hc, if_false]; exact h3⟩

theorem HasPrefix_lineOf (t : GoString) (ts : List GoString) (h : t.head? = some 58) :
    HasPrefix (lineOf (t :: ts)) (str ":") = true := by
  cases t with
  | nil => simp at h
  | cons c cs =>
    simp only [List.head?_cons, Option.some.injEq] at h
    subst h
    cases ts <;> simp [lineOf, HasPrefix, str_colon]

/-- On the line made of a registered command name and space-free tokens, `ParseCommand` runs
the option loop of that command on the tokens. -/
theorem ParseCommand_lineOf (m : GoString → GoString) (cmd : command) (rest : List GoString)
    (hcmd : cmd ∈ commandTable) (hrest : ∀ x ∈ rest, 32 ∉ x) :
    ParseCommand m (lineOf (cmd.name :: rest)) =
      parseOptions cmd 0 { sentinelResult with CommandType := cmd._type } rest := by
  have hshape := commandTable_names_shape cmd hcmd
  have hsplit : Split (lineOf (cmd.name :: rest)) 32 = cmd.name :: rest := by
    apply Split_lineOf
    intro x hx
    rcases List.mem_cons.mp hx with e | e
    · rw [e]; exact hshape.2
    · exact hrest x e
  have hlow : ToLower m cmd.name = cmd.name :=
    ToLower_of_lower m _ (commandTable_names_lower cmd hcmd)
  simp only [ParseCommand, HasPrefix_lineOf _ _ hshape.1, if_true, hsplit]
  exact matchCommand_of_name m _ _ _ cmd commandTable commandTable_names_nodup hcmd hlow

/-- Tokens that were consumed without error leave the loop in the state it reaches on the
rest of the line. -/
theorem parseOptions_append (cmd : command) (rest : List GoString) :
    ∀ (j : Nat) (pairs : List GoString) (oi : Nat) (r : ParseResult),
      pairs.length = 2 * j → (parseOptions cmd oi r pairs).Error = none →
      parseOptions cmd oi r (pairs ++ rest) =
        parseOptions cmd (oi + j) (parseOptions cmd oi r pairs) rest := by
  intro j
  induction j with
  | zero =>
    intro pairs oi r hlen _
    have : pairs = [] := List.length_eq_zero.mp (by simpa using hlen)
    subst this
    simp [parseOptions]
  | succ j ih =>
    intro pairs oi r hlen herr
    match pairs, hlen with
    | a :: v :: ps, hlen =>
      have hps : ps.length = 2 * j := by
        simp only [List.length_cons] at hlen
        omega
      simp only [parseOptions] at herr
      simp only [List.cons_append, parseOptions, List.append_eq]
      by_cases h1 : oi ≥ cmd.options.length
      · rw [if_pos h1] at herr
        simp at herr
      · rw [if_neg h1] at herr
        simp only [if_neg h1]
        cases hs : scanOptions a v r cmd.options with
        | returned r1 =>
          rw [hs] at herr
          simp only at herr
          rw [scanOptions_returned a v r r1 _ hs] at herr
          simp at herr
        | done r1 =>
          rw [hs] at herr
          simp only at herr ⊢
          by_cases h2 : r1.Matched = false
          · rw [if_pos h2] at herr
            simp at herr
          · rw [if_neg h2] at herr
            simp only [if_neg h1, if_neg h2]
            rw [ih ps (oi + 1) r1 hps herr]
            congr 1
            omega

/-! ## Lemmas on decimal numerals -/

theorem decimalAux_spec :
    ∀ (fuel n : Nat) (acc : GoString), n < fuel →
      ∃ ds : GoString, decimalAux fuel n acc = ds ++ acc ∧ ds ≠ [] ∧
        (∀ d ∈ ds, 48 ≤ d ∧ d ≤ 57) ∧
        ds.foldl (fun k c => k * 10 + (c - 48)) 0 = n := by
  intro fuel
  induction fuel with
  | zero => intro n acc h; omega
  | succ fuel ih =>
    intro n acc h
    simp only [decimalAux]
    by_cases hn : n < 10
    · refine ⟨[n + 48], ?_, by simp, ?_, ?_⟩
      · simp [hn]
      · intro d hd
        simp only [List.mem_singleton] at hd
        omega
      · simp
    · rw [if_neg hn]
      have hlt : n / 10 < fuel := by omega
      obtain ⟨ds, h1, h2, h3, h4⟩ := ih (n / 10) ((n % 10 + 48) :: acc) hlt
      refine ⟨ds ++ [n % 10 + 48], ?_, by simp, ?_, ?_⟩
      · rw [h1]; simp
      · intro d hd
        rcases List.mem_append.mp hd with e | e
        · exact h3 d e
        · simp only [List.mem_singleton] at e
          omega
      · rw [List.foldl_append, h4]
        simp only [List.foldl_cons, List.foldl_nil]
        omega

theorem decimal_digits (n : Nat) :
    ∃ d ds, decimal n = d :: ds ∧ (∀ c ∈ d :: ds, 48 ≤ c ∧ c ≤ 57) ∧
      (d :: ds).foldl (fun k c => k * 10 + (c - 48)) 0 = n := by
  obtain ⟨ds, h1, h2, h3, h4⟩ := decimalAux_spec (n + 1) n [] (by omega)
  cases ds with
  | nil => exact absurd rfl h2
  | cons d tl => exact ⟨d, tl, by simpa [decimal] using h1, h3, h4⟩

theorem decimal_no_space (n : Nat) : 32 ∉ decimal n := by
  obtain ⟨d, ds, h1, h2, _⟩ := decimal_digits n
  rw [h1]
  intro h
  have := h2 32 h
  omega

theorem Atoi_decimal (n : Nat) (h : n < 2 ^ 63) : Atoi (decimal n) = some (n : Int) := by
  obtain ⟨d, ds, h1, h2, h3⟩ := decimal_digits n
  have hd := h2 d (by simp)
  have hall : (d :: ds).all (fun c => decide (48 ≤ c ∧ c ≤ 57)) = true := by
    rw [List.all_eq_true]
    intro c hc
    simpa using h2 c hc
  have h45 : ¬ d = 45 := by omega
  have h43 : ¬ d = 43 := by omega
  have hcut : ¬ n ≥ 2 ^ (intSize - 1) := by
    simp only [intSize]
    omega
  rw [h1]
  unfold Atoi
  simp only [List.head?_cons, Option.some.injEq, h45, h43, or_self, if_false, decide_False,
    hall, h3, hcut, reduceCtorEq, not_true_eq_false, and_false, false_and, Bool.false_eq_true]

/-! ## The two ways `ParseCommand` returns -/

theorem Split_ne_nil (s : GoString) : Split s 32 ≠ [] := by
  cases s with
  | nil => simp [Split]
  | cons c cs =>
    simp only [Split]
    split_ifs
    · simp
    · split <;> simp

/-- Either no command is matched and the initial result is returned unchanged, or the first
registered command whose name equals the lower-cased first token is run on the other
tokens. -/
theorem ParseCommand_cases (m : GoString → GoString) (line : GoString) :
    ((HasPrefix line (str ":") = false ∨
        ∀ cmd ∈ commandTable, ToLower m ((Split line 32).headD []) ≠ cmd.name) ∧
      ParseCommand m line = sentinelResult) ∨
    (HasPrefix line (str ":") = true ∧
      ∃ cmd ∈ commandTable, ToLower m ((Split line 32).headD []) = cmd.name ∧
        ParseCommand m line =
          parseOptions cmd 0 { sentinelResult with CommandType := cmd._type }
            (Split line 32).tail) := by
  by_cases hp : HasPrefix line (str ":") = true
  · cases hs : Split line 32 with
    | nil => exact absurd hs (Split_ne_nil line)
    | cons first rest =>
      by_cases hex : ∃ cmd ∈ commandTable, ToLower m first = cmd.name
      · right
        obtain ⟨cmd, h1, h2, h3⟩ :=
          matchCommand_some_name m first rest sentinelResult commandTable hex
        refine ⟨hp, cmd, h1, by simpa using h2, ?_⟩
        simp only [ParseCommand, hp, if_true, hs, List.tail_cons]
        exact h3
      · left
        have hno : ∀ cmd ∈ commandTable, ToLower m first ≠ cmd.name :=
          fun cmd hc e => hex ⟨cmd, hc, e⟩
        refine ⟨Or.inr (by simpa using hno), ?_⟩
        simp only [ParseCommand, hp, if_true, hs]
        exact matchCommand_no_name m first rest sentinelResult commandTable hno
  · left
    refine ⟨Or.inl (by simpa using hp), ?_⟩
    simp [ParseCommand, hp, sentinelResult]

theorem matchCommand_congr (m : GoString → GoString) (f1 f2 : GoString)
    (rest : List GoString) (r : ParseResult) (h : ToLower m f1 = ToLower m f2) :
    ∀ table, matchCommand m f1 rest r table = matchCommand m f2 rest r table := by
  intro table
  induction table with
  | nil => rfl
  | cons c cs ih => simp only [matchCommand, h, ih]

theorem historyCommand_mem : historyCommand ∈ commandTable := by decide

/-! ## The claims -/

/-- C1 (fails on the code): on each of the five registered command names `ParseCommand`
returns `CommandNull` as the command type, not the type of the command, because
`newCommand` never sets the `_type` field that `ParseCommand` copies into the result. -/
theorem ParseCommand_commandType_always_null (m : GoString → GoString) :
    (ParseCommand m (str ":menu")).CommandType = CommandNull ∧
    (ParseCommand m (str ":history")).CommandType = CommandNull ∧
    (ParseCommand m (str ":members")).CommandType = CommandNull ∧
    (ParseCommand m (str ":channels")).CommandType = CommandNull ∧
    (ParseCommand m (str ":commands")).CommandType = CommandNull ∧
    CommandNull ≠ CommandDisplayMenu ∧ CommandNull ≠ CommandDisplayHistory ∧
    CommandNull ≠ CommandListMembers ∧ CommandNull ≠ CommandListChannels ∧
    CommandNull ≠ CommandListCommands := by
  refine ⟨rfl, rfl, rfl, rfl, rfl, ?_, ?_, ?_, ?_, ?_⟩ <;> decide

/-- The option loop of `:history` on a `-channel` pair followed by a `-period` pair whose
value is a decimal numeral. -/
theorem parseOptions_channel_period (c : GoString) (n : Nat) (h : n < 2 ^ 63)
    (r : ParseResult) :
    parseOptions historyCommand 0 r [str "-channel", c, str "-period", decimal n] =
      { r with Channel := c, Period := n, Matched := true } := by
  have hnn : ¬ ((n : Int) < 0) := by omega
  simp [parseOptions, historyCommand, scanOptions, str_channel, str_period, Atoi_decimal n h,
    hnn]

/-- C2: for every space-free channel token `c` and every `n` that fits a Go `int`, the line
`:history -channel c -period n` (with `n` in decimal) parses to `Matched = true`,
`Channel = c`, `Period = n` and no error. -/
theorem ParseCommand_history_channel_period (m : GoString → GoString) (c : GoString)
    (n : Nat) (hc : 32 ∉ c) (hn : n < 2 ^ (intSize - 1)) :
    (ParseCommand m (str ":history -channel " ++ c ++ str " -period " ++ decimal n)).Matched
        = true ∧
    (ParseCommand m (str ":history -channel " ++ c ++ str " -period " ++ decimal n)).Channel
        = c ∧
    (ParseCommand m (str ":history -channel " ++ c ++ str " -period " ++ decimal n)).Period
        = n ∧
    (ParseCommand m (str ":history -channel " ++ c ++ str " -period " ++ decimal n)).Error
        = none := by
  have hline : str ":history -channel " ++ c ++ str " -period " ++ decimal n =
      lineOf (historyCommand.name :: [str "-channel", c, str "-period", decimal n]) := by
    have h1 : str ":history -channel " = historyCommand.name ++ 32 :: (str "-channel" ++ [32]) := by
      decide
    have h2 : str " -period " = 32 :: (str "-period" ++ [32]) := by decide
    rw [h1, h2]
    simp [lineOf]
  have hsp : ∀ x ∈ [str "-channel", c, str "-period", decimal n], 32 ∉ x := by
    intro x hx
    simp only [List.mem_cons, List.mem_singleton, List.not_mem_nil, or_false] at hx
    rcases hx with e | e | e | e
    · rw [e]; decide
    · rw [e]; exact hc
    · rw [e]; decide
    · rw [e]; exact decimal_no_space n
  rw [hline, ParseCommand_lineOf m historyCommand _ historyCommand_mem hsp,
    parseOptions_channel_period c n (by simpa [intSize] using hn)]
  simp [sentinelResult]

/-- Witness of C2: `:history -channel general -period 10`. -/
theorem ParseCommand_history_channel_period_witness :
    (32 ∉ str "general" ∧ 10 < 2 ^ (intSize - 1)) ∧
    str ":history -channel " ++ str "general" ++ str " -period " ++ decimal 10 =
      str ":history -channel general -period 10" ∧
    (ParseCommand id (str ":history -channel general -period 10")).Matched = true ∧
    (ParseCommand id (str ":history -channel general -period 10")).Channel = str "general" ∧
    (ParseCommand id (str ":history -channel general -period 10")).Period = 10 ∧
    (ParseCommand id (str ":history -channel general -period 10")).Error = none :=
  ⟨⟨by decide, by decide⟩, by decide,
    ParseCommand_history_channel_period id (str "general") 10 (by decide) (by decide)⟩

/-- C3: `ParseCommand` returns the sentinel command type exactly when the line does not
start with `:` or the lower-cased first token equals no registered command name; the
result is then the untouched initial one (not matched, no error, empty channel, period 0).
`:unknown` is such a line, and a first token `:HISTORY` is treated exactly like
`:history`, whatever follows it. -/
theorem ParseCommand_sentinel_iff (m : GoString → GoString) (line : GoString) :
    ((ParseCommand m line).CommandType = commandSentinel ↔
      (HasPrefix line (str ":") = false ∨
        ∀ cmd ∈ commandTable, ToLower m ((Split line 32).headD []) ≠ cmd.name)) ∧
    ((ParseCommand m line).CommandType = commandSentinel →
      (ParseCommand m line).Matched = false ∧ (ParseCommand m line).Error = none ∧
      (ParseCommand m line).Channel = [] ∧ (ParseCommand m line).Period = 0) ∧
    ((ParseCommand m (str ":unknown")).CommandType = commandSentinel ∧
      (ParseCommand m (str ":unknown")).Matched = false ∧
      (ParseCommand m (str ":unknown")).Error = none) ∧
    (ParseCommand m (str ":HISTORY") = ParseCommand m (str ":history") ∧
      ParseCommand m (str ":HISTORY" ++ 32 :: line) =
        ParseCommand m (str ":history" ++ 32 :: line)) := by
  have hnull : ∀ cmd ∈ commandTable, cmd._type ≠ commandSentinel := by decide
  refine ⟨?_, ?_, ⟨rfl, rfl, rfl⟩, rfl, ?_⟩
  · rcases ParseCommand_cases m line with ⟨h1, h2⟩ | ⟨h1, cmd, h2, h3, h4⟩
    · rw [h2]
      exact ⟨fun _ => h1, fun _ => rfl⟩
    · rw [h4, parseOptions_CommandType]
      constructor
      · intro h
        exact absurd h (hnull cmd h2)
      · intro h
        rcases h with h | h
        · rw [h1] at h
          exact absurd h (by simp)
        · exact absurd h3 (h cmd h2)
  · rcases ParseCommand_cases m line with ⟨_, h2⟩ | ⟨_, cmd, h2, _, h4⟩
    · rw [h2]
      intro _
      exact ⟨rfl, rfl, rfl, rfl⟩
    · rw [h4, parseOptions_CommandType]
      intro h
      exact absurd h (hnull cmd h2)
  · have hU : 32 ∉ str ":HISTORY" := by decide
    have hL : 32 ∉ str ":history" := by decide
    have hpU : HasPrefix (str ":HISTORY" ++ 32 :: line) (str ":") = true := rfl
    have hpL : HasPrefix (str ":history" ++ 32 :: line) (str ":") = true := rfl
    have hlow : ToLower m (str ":HISTORY") = ToLower m (str ":history") := rfl
    simp only [ParseCommand, hpU, hpL, if_true, Split_append_sep _ line hU,
      Split_append_sep _ line hL]
    exact matchCommand_congr m _ _ _ _ hlow commandTable

/-- C4 (fails on the code): on `:history -channel a -bogus x` the second pair names no
option of `:history`, yet `ParseCommand` reports no error: `result.Matched` is still true
from the first pair, so the test `!result.Matched` after the option loop does not fire.
On the first pair the same token is rejected with "unrecognized argument". -/
theorem ParseCommand_unrecognized_second_pair (m : GoString → GoString) :
    ParseCommand m (str ":history -channel a -bogus x") =
      { CommandType := CommandNull, Channel := str "a", Period := 0, Error := none,
        Matched := true } ∧
    (ParseCommand m (str ":history -bogus x")).Error =
      some { t := errorUnrecognizedArgument, msg := str "-bogus" } :=
  ⟨rfl, rfl⟩

/-- A line with at least one token after the command name that parses without error has
set `Matched`. -/
theorem parseOptions_success_Matched (cmd : command) (oi : Nat) (r : ParseResult) :
    ∀ ts : List GoString, ts ≠ [] → (parseOptions cmd oi r ts).Error = none →
      (parseOptions cmd oi r ts).Matched = true := by
  intro ts hne herr
  match ts, hne with
  | [a], _ =>
    simp only [parseOptions] at herr
    split_ifs at herr
  | a :: v :: rest, _ =>
    simp only [parseOptions] at herr ⊢
    by_cases h1 : oi ≥ cmd.options.length
    · rw [if_pos h1] at herr
      simp at herr
    · rw [if_neg h1] at herr
      simp only [if_neg h1]
      cases hs : scanOptions a v r cmd.options with
      | returned r1 =>
        rw [hs] at herr
        simp only at herr
        rw [scanOptions_returned a v r r1 _ hs] at herr
        simp at herr
      | done r1 =>
        rw [hs] at herr
        simp only at herr ⊢
        by_cases h2 : r1.Matched = false
        · rw [if_pos h2] at herr
          simp at herr
        · simp only [if_neg h2]
          exact parseOptions_Matched cmd rest (oi + 1) r1 (by simpa using h2)

/-- C5 (counterexample): `:menu` matches a registered command and parses without error,
and the result has `Matched = false`. -/
theorem ParseCommand_menu_not_Matched :
    (∃ cmd ∈ commandTable, cmd.name = ToLower id (str ":menu")) ∧
    (ParseCommand id (str ":menu")).CommandType = CommandNull ∧
    (ParseCommand id (str ":menu")).Error = none ∧
    (ParseCommand id (str ":menu")).Matched = false := by
  decide

/-- C5 (amended): when `ParseCommand` matches a registered command and returns no error,
`Matched` is true exactly when at least one token follows the command name, that is when
an option pair was parsed; a line that is only a command name succeeds with
`Matched = false`. -/
theorem ParseCommand_success_Matched_iff (m : GoString → GoString) (line : GoString)
    (hcmd : (ParseCommand m line).CommandType ≠ commandSentinel)
    (herr : (ParseCommand m line).Error = none) :
    (ParseCommand m line).Matched = true ↔ 1 < (Split line 32).length := by
  rcases ParseCommand_cases m line with ⟨_, h2⟩ | ⟨_, cmd, _, _, h4⟩
  · rw [h2] at hcmd
    exact absurd rfl hcmd
  · rw [h4] at herr ⊢
    cases hs : Split line 32 with
    | nil => exact absurd hs (Split_ne_nil line)
    | cons first rest =>
      rw [hs] at herr
      simp only [List.tail_cons] at herr ⊢
      cases rest with
      | nil => simp [parseOptions, sentinelResult]
      | cons a rest1 =>
        have := parseOptions_success_Matched cmd 0 _ (a :: rest1) (by simp) herr
        simp [this]

/-- Witness of C5 (amended): `:history -channel general`. -/
theorem ParseCommand_success_Matched_iff_witness :
    ((ParseCommand id (str ":history -channel general")).CommandType ≠ commandSentinel ∧
      (ParseCommand id (str ":history -channel general")).Error = none) ∧
    ((ParseCommand id (str ":history -channel general")).Matched = true ↔
      1 < (Split (str ":history -channel general") 32).length) :=
  ⟨⟨by decide, by decide⟩,
    ParseCommand_success_Matched_iff id (str ":history -channel general") (by decide)
      (by decide)⟩

/-- C6 (counterexample): `:history -channel general` is parsed without error. -/
theorem ParseCommand_history_channel_general_no_error :
    (ParseCommand id (str ":history -channel general")).Error = none := by
  decide

/-- C6 (amended): `:history -channel general` holds one complete pair and parses to
`Matched = true`, `Channel = "general"` and no error; "argument not specified" is the
error of a line whose option name has no value token, such as `:history -channel`. -/
theorem ParseCommand_complete_pair_accepted (m : GoString → GoString) :
    ((ParseCommand m (str ":history -channel general")).Error = none ∧
      (ParseCommand m (str ":history -channel general")).Matched = true ∧
      (ParseCommand m (str ":history -channel general")).Channel = str "general") ∧
    (ParseCommand m (str ":history -channel")).Error =
      some { t := errorArgumentNotSpecified, msg := [] } :=
  ⟨⟨rfl, rfl, rfl⟩, rfl⟩

/-- C7: for a registered command with `k` options, a line made of the command name, `j < k`
pairs that are accepted (the line without the last token parses without error) and one more
token fails with "argument not specified" and an empty detail: the trailing option name has
no value token. -/
theorem ParseCommand_argument_not_specified (m : GoString → GoString) (cmd : command)
    (pairs : List GoString) (t : GoString) (j : Nat)
    (hcmd : cmd ∈ commandTable) (hlen : pairs.length = 2 * j) (hj : j < cmd.options.length)
    (hsp : ∀ x ∈ pairs ++ [t], 32 ∉ x)
    (hacc : (ParseCommand m (lineOf (cmd.name :: pairs))).Error = none) :
    (ParseCommand m (lineOf (cmd.name :: (pairs ++ [t])))).Error =
      some { t := errorArgumentNotSpecified, msg := [] } := by
  have hsp1 : ∀ x ∈ pairs, 32 ∉ x := fun x hx => hsp x (List.mem_append_left _ hx)
  rw [ParseCommand_lineOf m cmd pairs hcmd hsp1] at hacc
  rw [ParseCommand_lineOf m cmd (pairs ++ [t]) hcmd hsp,
    parseOptions_append cmd [t] j pairs 0 _ hlen hacc]
  have hlt : ¬ (0 + j ≥ cmd.options.length) := by omega
  simp only [parseOptions, if_neg hlt]

/-- Witness of C7: `:history -channel general -period`. -/
theorem ParseCommand_argument_not_specified_witness :
    (historyCommand ∈ commandTable ∧ [str "-channel", str "general"].length = 2 * 1 ∧
      1 < historyCommand.options.length ∧
      (∀ x ∈ [str "-channel", str "general"] ++ [str "-period"], 32 ∉ x) ∧
      (ParseCommand id (str ":history -channel general")).Error = none) ∧
    (ParseCommand id (str ":history -channel general -period")).Error =
      some { t := errorArgumentNotSpecified, msg := [] } :=
  ⟨⟨by decide, by decide, by decide, by decide, by decide⟩,
    ParseCommand_argument_not_specified id historyCommand [str "-channel", str "general"]
      (str "-period") 1 (by decide) (by decide) (by decide) (by decide) (by decide)⟩

theorem Fmt_period (v : GoString) : Fmt (str "period %s") [v] = str "period " ++ v := by
  have h1 : str "period %s" = [112, 101, 114, 105, 111, 100, 32, 37, 115] := by decide
  have h2 : str "period " = [112, 101, 114, 105, 111, 100, 32] := by decide
  rw [h1, h2]
  simp [Fmt, Sprintf]

/-- The option loop of `:history` on one `-period` pair. -/
theorem parseOptions_period (v : GoString) (r : ParseResult) :
    parseOptions historyCommand 0 r [str "-period", v] =
      match Atoi v with
      | none =>
        { r with Error := some { t := errorInvalidValue, msg := str "period " ++ v } }
      | some count =>
        if count < 0 then
          { r with Error := some { t := errorInvalidValue, msg := str "period " ++ v } }
        else { r with Period := count.toNat, Matched := true } := by
  cases h : Atoi v with
  | none =>
    simp [parseOptions, historyCommand, scanOptions, str_channel, str_period, h, Fmt_period]
  | some count =>
    by_cases hc : count < 0
    · simp [parseOptions, historyCommand, scanOptions, str_channel, str_period, h, hc,
        Fmt_period]
    · simp [parseOptions, historyCommand, scanOptions, str_channel, str_period, h, hc]

/-- C8: on `:history -period v`, for a space-free value token `v`: when `strconv.Atoi`
parses `v` to an integer `n >= 0` the result has `Matched = true`, `Period = n` and no
error; when `v` does not parse or parses to a negative integer the result carries the error
"invalid value" with detail `period v`, `Period` stays 0 and nothing is matched; and the
parse is free of error exactly in the first case. -/
theorem ParseCommand_history_period (m : GoString → GoString) (v : GoString)
    (hv : 32 ∉ v) :
    (∀ n : Int, Atoi v = some n → 0 ≤ n →
      (ParseCommand m (str ":history -period " ++ v)).Matched = true ∧
      ((ParseCommand m (str ":history -period " ++ v)).Period : Int) = n ∧
      (ParseCommand m (str ":history -period " ++ v)).Error = none) ∧
    ((Atoi v = none ∨ ∃ n : Int, Atoi v = some n ∧ n < 0) →
      (ParseCommand m (str ":history -period " ++ v)).Error =
        some { t := errorInvalidValue, msg := str "period " ++ v } ∧
      (ParseCommand m (str ":history -period " ++ v)).Period = 0 ∧
      (ParseCommand m (str ":history -period " ++ v)).Matched = false) ∧
    ((ParseCommand m (str ":history -period " ++ v)).Error = none ↔
      ∃ n : Int, Atoi v = some n ∧ 0 ≤ n) := by
  have hline : str ":history -period " ++ v =
      lineOf (historyCommand.name :: [str "-period", v]) := by
    have h1 : str ":history -period " = historyCommand.name ++ 32 :: (str "-period" ++ [32]) := by
      decide
    rw [h1]
    simp [lineOf]
  have hsp : ∀ x ∈ [str "-period", v], 32 ∉ x := by
    intro x hx
    simp only [List.mem_cons, List.mem_singleton, List.not_mem_nil, or_false] at hx
    rcases hx with e | e
    · rw [e]; decide
    · rw [e]; exact hv
  rw [hline, ParseCommand_lineOf m historyCommand _ historyCommand_mem hsp,
    parseOptions_period v _]
  cases h : Atoi v with
  | none => simp [sentinelResult]
  | some count =>
    by_cases hc : count < 0
    · have hc1 : ¬ (0 ≤ count) := by omega
      simp [sentinelResult, hc, hc1]
    · have hc1 : 0 ≤ count := by omega
      simp [sentinelResult, hc, hc1, Int.toNat_of_nonneg hc1]

/-- Witness of C8: `:history -period -5` is rejected and `:history -period 7` is accepted. -/
theorem ParseCommand_history_period_witness :
    (32 ∉ str "-5" ∧ Atoi (str "-5") = some (-5) ∧ 32 ∉ str "7" ∧ Atoi (str "7") = some 7) ∧
    ((ParseCommand id (str ":history -period -5")).Error =
        some { t := errorInvalidValue, msg := str "period -5" } ∧
      (ParseCommand id (str ":history -period -5")).Period = 0 ∧
      (ParseCommand id (str ":history -period -5")).Matched = false) ∧
    ((ParseCommand id (str ":history -period 7")).Matched = true ∧
      ((ParseCommand id (str ":history -period 7")).Period : Int) = 7 ∧
      (ParseCommand id (str ":history -period 7")).Error = none) :=
  ⟨⟨by decide, by decide, by decide, by decide⟩,
    (ParseCommand_history_period id (str "-5") (by decide)).2.1
      (Or.inr ⟨-5, by decide, by decide⟩),
    (ParseCommand_history_period id (str "7") (by decide)).1 7 (by decide) (by decide)⟩

/-- C9: for a registered command with `k` options, when the `k` pairs after the command
name are accepted (the line made of the name and these pairs parses without error; nothing
to accept for a command without options), a further token `t` makes `ParseCommand` fail
with "unexpected argument" and detail `t`, whatever follows `t`. -/
theorem ParseCommand_unexpected_argument (m : GoString → GoString) (cmd : command)
    (pairs : List GoString) (t : GoString) (more : List GoString)
    (hcmd : cmd ∈ commandTable) (hlen : pairs.length = 2 * cmd.options.length)
    (hsp : ∀ x ∈ pairs ++ t :: more, 32 ∉ x)
    (hacc : cmd.options ≠ [] → (ParseCommand m (lineOf (cmd.name :: pairs))).Error = none) :
    (ParseCommand m (lineOf (cmd.name :: (pairs ++ t :: more)))).Error =
      some { t := errorUnexpectedArgument, msg := t } := by
  have hsp1 : ∀ x ∈ pairs, 32 ∉ x := fun x hx => hsp x (List.mem_append_left _ hx)
  have hacc1 : (ParseCommand m (lineOf (cmd.name :: pairs))).Error = none := by
    by_cases ho : cmd.options = []
    · have hp : pairs = [] := by
        apply List.length_eq_zero.mp
        rw [hlen, ho]
        rfl
      rw [hp, ParseCommand_lineOf m cmd [] hcmd (by simp)]
      rfl
    · exact hacc ho
  rw [ParseCommand_lineOf m cmd pairs hcmd hsp1] at hacc1
  rw [ParseCommand_lineOf m cmd (pairs ++ t :: more) hcmd hsp,
    parseOptions_append cmd (t :: more) cmd.options.length pairs 0 _ hlen hacc1]
  have hge : 0 + cmd.options.length ≥ cmd.options.length := by omega
  cases more with
  | nil => simp only [parseOptions, if_pos hge, Fmt_verb]
  | cons u rest => simp only [parseOptions, if_pos hge, Fmt_verb]

/-- Witness of C9: `:history -channel general -period 10 -extra x` fails citing `-extra`. -/
theorem ParseCommand_unexpected_argument_witness :
    (historyCommand ∈ commandTable ∧
      [str "-channel", str "general", str "-period", str "10"].length =
        2 * historyCommand.options.length ∧
      (∀ x ∈ [str "-channel", str "general", str "-period", str "10"] ++
          str "-extra" :: [str "x"], 32 ∉ x) ∧
      (ParseCommand id (str ":history -channel general -period 10")).Error = none) ∧
    (ParseCommand id (str ":history -channel general -period 10 -extra x")).Error =
      some { t := errorUnexpectedArgument, msg := str "-extra" } :=
  ⟨⟨by decide, by decide, by decide, by decide⟩,
    ParseCommand_unexpected_argument id historyCommand
      [str "-channel", str "general", str "-period", str "10"] (str "-extra") [str "x"]
      (by decide) (by decide) (by decide) (fun _ => by decide)⟩

/-- C10 (counterexample): the rendering of an "invalid value" error with detail `x` ends
with a carriage return and a line feed after the detail. -/
theorem parseError_Error_invalid_value_x :
    parseError.Error { t := errorInvalidValue, msg := str "x" } =
      some (str "error: Invalid value x\r\n") ∧
    str "error: Invalid value x\r\n" ≠ str "error: " ++ str "Invalid value" ++ str " " ++ str "x" := by
  decide

/-- C10 (amended): for each of the four error kinds and every detail `d`, `Error()` yields
`error: `, the description of the kind in `errorsTable`, one space, `d`, and then the
line ending `\r\n` that `Fmtln` appends. -/
theorem parseError_Error_rendering (d : GoString) :
    parseError.Error { t := errorUnexpectedArgument, msg := d } =
      some (str "error: " ++ str "Unexpected argument" ++ str " " ++ d ++ str "\r\n") ∧
    parseError.Error { t := errorArgumentNotSpecified, msg := d } =
      some (str "error: " ++ str "Argument not specified" ++ str " " ++ d ++ str "\r\n") ∧
    parseError.Error { t := errorInvalidValue, msg := d } =
      some (str "error: " ++ str "Invalid value" ++ str " " ++ d ++ str "\r\n") ∧
    parseError.Error { t := errorUnrecognizedArgument, msg := d } =
      some (str "error: " ++ str "Unregognized argument" ++ str " " ++ d ++ str "\r\n") :=
  ⟨rfl, rfl, rfl, rfl⟩

/-! ## Lemmas on `writeBytes` -/

theorem wrapInt_of_small (x : Int) (h0 : 0 ≤ x) (h1 : x < 2 ^ 63) : wrapInt x = x := by
  unfold wrapInt
  omega

theorem wrapInt32_of_small (x : Int) (h0 : 0 ≤ x) (h1 : x < 2 ^ 31) : wrapInt32 x = x := by
  unfold wrapInt32
  omega

theorem Conn.Write_reply (c : Conn) (p : GoString) : (c.Write p).1.reply = c.reply := rfl

/-- The loop of `writeBytes` on a transport that makes progress: it ends within
`len(contents) - bWritten` iterations; without error every byte from `bWritten` on has been
accepted once, in order; with an error the count returned is the number of bytes accepted
before the failing call, which was given `contents[count:]`. -/
theorem writeBytesLoop_spec (contents : GoString) (hlen : (contents.length : Int) < 2 ^ 63) :
    ∀ (fuel : Nat) (conn : Conn) (b : Nat), conn.progresses → b ≤ contents.length →
      contents.length - b ≤ fuel →
      ∃ (conn1 : Conn) (k : Nat) (err : Option GoError),
        writeBytesLoop contents contents.length fuel conn b = Except.ok (conn1, (k : Int), err) ∧
        conn1.reply = conn.reply ∧
        (err = none → k = contents.length ∧
          conn1.written = conn.written ++ contents.drop b) ∧
        (∀ e, err = some e → b ≤ k ∧ k < contents.length ∧
          ∃ c0 : Conn, c0.written = conn.written ++ (contents.drop b).take (k - b) ∧
            c0.Write (contents.drop k) = (conn1, c0.reply c0.calls (contents.drop k)) ∧
            (c0.reply c0.calls (contents.drop k)).err = some e) := by
  intro fuel
  induction fuel with
  | zero =>
    intro conn b _ hb hfuel
    have hbe : b = contents.length := by omega
    subst hbe
    refine ⟨conn, contents.length, none, ?_, rfl, ?_, ?_⟩
    · simp [writeBytesLoop]
    · intro _; simp
    · intro e he; simp at he
  | succ fuel ih =>
    intro conn b hprog hb hfuel
    by_cases hlt : b < contents.length
    · have hcond : ((b : Int) < (contents.length : Int)) := by omega
      have hnp : ¬ ((b : Int) < 0 ∨ (contents.length : Int) < (b : Int)) := by omega
      have hne : contents.drop b ≠ [] := by
        intro h
        have := congrArg List.length h
        simp at this
        omega
      simp only [writeBytesLoop, hcond, if_true, hnp, if_false, Int.toNat_ofNat]
      cases herr : (conn.reply conn.calls (contents.drop b)).err with
      | some e =>
        refine ⟨(conn.Write (contents.drop b)).1, b, some e, ?_, rfl, ?_, ?_⟩
        · simp [Conn.Write, herr]
        · intro h; simp at h
        · intro e1 he1
          simp only [Option.some.injEq] at he1
          subst he1
          refine ⟨le_refl _, hlt, conn, by simp, rfl, herr⟩
      | none =>
        rcases hprog conn.calls (contents.drop b) hne with h | ⟨h1, h2⟩
        · exact absurd herr h
        · obtain ⟨n, hn⟩ : ∃ n : Nat, (conn.reply conn.calls (contents.drop b)).n = (n : Int) :=
            ⟨(conn.reply conn.calls (contents.drop b)).n.toNat, by omega⟩
          rw [hn] at h1 h2
          simp only [List.length_drop] at h2
          have hn1 : 1 ≤ n := by omega
          have hn2 : b + n ≤ contents.length := by omega
          have hw : wrapInt ((b : Int) + (n : Int)) = ((b + n : Nat) : Int) := by
            rw [wrapInt_of_small _ (by omega) (by omega)]
            simp
          obtain ⟨conn1, k, err, e1, e2, e3, e4⟩ :=
            ih (conn.Write (contents.drop b)).1 (b + n) hprog hn2 (by omega)
          have hwr : (conn.Write (contents.drop b)).1.written =
              conn.written ++ (contents.drop b).take n := by
            simp [Conn.Write, hn]
          refine ⟨conn1, k, err, ?_, e2, ?_, ?_⟩
          · simp only [Conn.Write, herr, hn, hw]
            simpa [Conn.Write, hn] using e1
          · intro h
            obtain ⟨h3, h4⟩ := e3 h
            refine ⟨h3, ?_⟩
            rw [h4, hwr, List.append_assoc, ← List.drop_drop, List.take_append_drop]
          · intro e he
            obtain ⟨h3, h4, c0, h5, h6, h7⟩ := e4 e he
            refine ⟨by omega, h4, c0, ?_, h6, h7⟩
            have hk : k - b = n + (k - (b + n)) := by omega
            rw [h5, hwr, List.append_assoc, hk, List.take_add, List.drop_drop]
    · have hbe : b = contents.length := by omega
      subst hbe
      refine ⟨conn, contents.length, none, ?_, rfl, ?_, ?_⟩
      · simp [writeBytesLoop]
      · intro _; simp
      · intro e he; simp at he

theorem writeBytesLoop_neverFails (contents : GoString) (size : Int) :
    ∀ (fuel : Nat) (conn conn1 : Conn) (b k : Int) (err : Option GoError),
      conn.neverFails →
      writeBytesLoop contents size fuel conn b = Except.ok (conn1, k, err) → err = none := by
  intro fuel
  induction fuel with
  | zero =>
    intro conn conn1 b k err _ h
    simp only [writeBytesLoop] at h
    split_ifs at h
    simp only [Except.ok.injEq, Prod.mk.injEq] at h
    exact h.2.2.symm
  | succ fuel ih =>
    intro conn conn1 b k err hnf h
    simp only [writeBytesLoop] at h
    split_ifs at h
    · have herr : (conn.Write (List.drop b.toNat contents)).2.err = none := hnf _ _
      rw [herr] at h
      simp only at h
      exact ih (conn.Write (List.drop b.toNat contents)).1 _ _ _ _ (fun k p => hnf k p) h
    · simp only [Except.ok.injEq, Prod.mk.injEq] at h
      exact h.2.2.symm

theorem byteWiseConn_progresses : byteWiseConn.progresses := by
  intro k p hp
  right
  cases p with
  | nil => exact absurd rfl hp
  | cons a rest =>
    simp only [byteWiseConn, List.length_cons]
    omega

theorem greedyConn_progresses : greedyConn.progresses := by
  intro k p hp
  right
  cases p with
  | nil => exact absurd rfl hp
  | cons a rest =>
    simp only [greedyConn, List.length_cons]
    omega

/-- C15: on a transport whose every `Write` either fails or accepts between one byte and
the whole slice, `Connection.writeBytes(contents, len(contents))` returns within
`len(contents)` iterations.  Without error it returns `(len(contents), nil)` and the
transport has accepted exactly `contents` after what it held before; that is the case when
no call fails.  With an error it returns that error and a count `k`: the transport had
accepted `contents[:k]` before the failing call, which was given `contents[k:]`.  The other
fields of the connection are left alone. -/
theorem writeBytes_complete_or_error (c : Connection) (contents : GoString) (fuel : Nat)
    (hprog : c.conn.progresses) (hlen : (contents.length : Int) < 2 ^ 63)
    (hfuel : contents.length ≤ fuel) :
    ∃ (c1 : Connection) (k : Nat) (err : Option GoError),
      c.writeBytes fuel contents contents.length = Except.ok (c1, (k : Int), err) ∧
      (c1.ipAddr = c.ipAddr ∧ c1.state = c.state ∧ c1.participant = c.participant ∧
        c1.conn.reply = c.conn.reply) ∧
      (err = none → k = contents.length ∧ c1.conn.written = c.conn.written ++ contents) ∧
      (c.conn.neverFails → err = none) ∧
      (∀ e, err = some e → k < contents.length ∧
        ∃ c0 : Conn, c0.written = c.conn.written ++ contents.take k ∧
          c0.Write (contents.drop k) = (c1.conn, c0.reply c0.calls (contents.drop k)) ∧
          (c0.reply c0.calls (contents.drop k)).err = some e) := by
  obtain ⟨conn1, k, err, h1, h2, h3, h4⟩ :=
    writeBytesLoop_spec contents hlen fuel c.conn 0 hprog (Nat.zero_le _) (by omega)
  refine ⟨{ c with conn := conn1 }, k, err, ?_, ⟨rfl, rfl, rfl, h2⟩, ?_, ?_, ?_⟩
  · simp only [Connection.writeBytes]
    have h1a : writeBytesLoop contents (contents.length : Int) fuel c.conn 0 =
        Except.ok (conn1, (k : Int), err) := by simpa using h1
    rw [h1a]
  · intro h
    simpa using h3 h
  · intro hnf
    exact writeBytesLoop_neverFails contents contents.length fuel c.conn conn1 0 k err hnf
      (by simpa using h1)
  · intro e he
    obtain ⟨_, h5, c0, h6, h7, h8⟩ := h4 e he
    exact ⟨h5, c0, by simpa using h6, h7, h8⟩

/-- Witness of C15: the three bytes `abc` on a transport that takes one byte per call. -/
theorem writeBytes_complete_or_error_witness :
    (byteWiseConn.progresses ∧ (((str "abc").length : Nat) : Int) < 2 ^ 63 ∧
      (str "abc").length ≤ 3) ∧
    ∃ (c1 : Connection) (k : Nat) (err : Option GoError),
      Connection.writeBytes 3
          { conn := byteWiseConn, ipAddr := str "10.0.0.1:4000", state := Connected,
            participant := some { Name := str "bob" } }
          (str "abc") (str "abc").length = Except.ok (c1, (k : Int), err) ∧
      (c1.ipAddr = str "10.0.0.1:4000" ∧ c1.state = Connected ∧
        c1.participant = some { Name := str "bob" } ∧ c1.conn.reply = byteWiseConn.reply) ∧
      (err = none → k = (str "abc").length ∧
        c1.conn.written = byteWiseConn.written ++ str "abc") ∧
      (byteWiseConn.neverFails → err = none) ∧
      (∀ e, err = some e → k < (str "abc").length ∧
        ∃ c0 : Conn, c0.written = byteWiseConn.written ++ (str "abc").take k ∧
          c0.Write ((str "abc").drop k) =
            (c1.conn, c0.reply c0.calls ((str "abc").drop k)) ∧
          (c0.reply c0.calls ((str "abc").drop k)).err = some e) :=
  ⟨⟨byteWiseConn_progresses, by decide, by decide⟩,
    writeBytes_complete_or_error
      { conn := byteWiseConn, ipAddr := str "10.0.0.1:4000", state := Connected,
        participant := some { Name := str "bob" } }
      (str "abc") 3 byteWiseConn_progresses (by decide) (by decide)⟩

/-! ## Lemmas on the delivery step -/

theorem writeBytesLoop_reply (contents : GoString) (size : Int) :
    ∀ (fuel : Nat) (conn conn1 : Conn) (b k : Int) (err : Option GoError),
      writeBytesLoop contents size fuel conn b = Except.ok (conn1, k, err) →
      conn1.reply = conn.reply := by
  intro fuel
  induction fuel with
  | zero =>
    intro conn conn1 b k err h
    simp only [writeBytesLoop] at h
    split_ifs at h
    simp only [Except.ok.injEq, Prod.mk.injEq] at h
    rw [← h.1]
  | succ fuel ih =>
    intro conn conn1 b k err h
    simp only [writeBytesLoop] at h
    split_ifs at h
    · cases herr : (conn.Write (List.drop b.toNat contents)).2.err with
      | some e =>
        rw [herr] at h
        simp only [Except.ok.injEq, Prod.mk.injEq] at h
        rw [← h.1]
        rfl
      | none =>
        rw [herr] at h
        have := ih _ _ _ _ _ h
        rw [this]
        rfl
    · simp only [Except.ok.injEq, Prod.mk.injEq] at h
      rw [← h.1]

theorem writeBytes_fields (fuel : Nat) (c c1 : Connection) (contents : GoString)
    (size k : Int) (err : Option GoError)
    (h : c.writeBytes fuel contents size = Except.ok (c1, k, err)) :
    c1.ipAddr = c.ipAddr ∧ c1.state = c.state ∧ c1.participant = c.participant ∧
      c1.conn.reply = c.conn.reply := by
  simp only [Connection.writeBytes] at h
  cases hl : writeBytesLoop contents size fuel c.conn 0 with
  | error f => rw [hl] at h; simp at h
  | ok r =>
    obtain ⟨conn1, k1, err1⟩ := r
    rw [hl] at h
    simp only [Except.ok.injEq, Prod.mk.injEq] at h
    have hr := writeBytesLoop_reply contents size fuel c.conn conn1 0 k1 err1 hl
    rw [← h.1]
    exact ⟨rfl, rfl, rfl, hr⟩

/-- What a delivery step that returns has done. -/
theorem deliver_ok (fuel : Nat) (key : GoString) (c c1 : Connection) (f : GoString)
    (len d s d1 s1 : Int) (call : Delivery)
    (h : deliver fuel key c f len d s = Except.ok (c1, d1, s1, call)) :
    (call.key = key ∧ call.contents = f) ∧
    (c1.ipAddr = c.ipAddr ∧ c1.state = c.state ∧ c1.participant = c.participant ∧
      c1.conn.reply = c.conn.reply) ∧
    ((call.isSent len = true ∧ d1 = d ∧ s1 = wrapInt32 (s + 1)) ∨
      (call.isSent len = false ∧ d1 = wrapInt32 (d + 1) ∧ s1 = s)) := by
  simp only [deliver] at h
  cases hw : c.writeBytes fuel f len with
  | error e => rw [hw] at h; simp at h
  | ok r =>
    obtain ⟨c2, k, err⟩ := r
    rw [hw] at h
    simp only at h
    have hf := writeBytes_fields fuel c c2 f len k err hw
    split_ifs at h with hc
    · simp only [Except.ok.injEq, Prod.mk.injEq] at h
      obtain ⟨h1, h2, h3, h4⟩ := h
      subst h1 h2 h3 h4
      refine ⟨⟨rfl, rfl⟩, hf, Or.inr ⟨?_, rfl, rfl⟩⟩
      simp only [Delivery.isSent]
      rcases hc with hc | hc
      · simp [hc]
      · simp [hc]
    · simp only [Except.ok.injEq, Prod.mk.injEq] at h
      obtain ⟨h1, h2, h3, h4⟩ := h
      subst h1 h2 h3 h4
      refine ⟨⟨rfl, rfl⟩, hf, Or.inl ⟨?_, rfl, rfl⟩⟩
      simp only [Delivery.isSent]
      have h5 : err = none := by
        by_contra hne
        exact hc (Or.inl hne)
      have h6 : k = len := by
        by_contra hne
        exact hc (Or.inr hne)
      simp [h5, h6]

/-- A delivery step on a transport that makes progress returns, and its call counts as sent
when the transport never fails. -/
theorem deliver_total (fuel : Nat) (key : GoString) (c : Connection) (f : GoString)
    (d s : Int) (hprog : c.conn.progresses) (hlen : (f.length : Int) < 2 ^ 63)
    (hfuel : f.length ≤ fuel) :
    ∃ (c1 : Connection) (d1 s1 : Int) (call : Delivery),
      deliver fuel key c f f.length d s = Except.ok (c1, d1, s1, call) ∧
      (c.conn.neverFails → call.isSent f.length = true ∧
        c1.conn.written = c.conn.written ++ f) := by
  obtain ⟨conn1, k, err, h1, _, h3, _⟩ :=
    writeBytesLoop_spec f hlen fuel c.conn 0 hprog (Nat.zero_le _) (by omega)
  have h1a : writeBytesLoop f (f.length : Int) fuel c.conn 0 =
      Except.ok (conn1, (k : Int), err) := by simpa using h1
  have h4 : c.conn.neverFails → err = none := fun hnf =>
    writeBytesLoop_neverFails f f.length fuel c.conn conn1 0 k err hnf h1a
  simp only [deliver, Connection.writeBytes, h1a]
  split_ifs with hc
  · refine ⟨_, _, _, _, rfl, ?_⟩
    intro hnf
    have he := h4 hnf
    have hk := (h3 he).1
    rcases hc with hc | hc
    · exact absurd he hc
    · exact absurd (by rw [hk]) hc
  · refine ⟨_, _, _, _, rfl, ?_⟩
    intro hnf
    have he := h4 hnf
    refine ⟨?_, by simpa using (h3 he).2⟩
    simp only [Delivery.isSent]
    simp [he, (h3 he).1]

/-! ## Lemmas on the loops of the broadcasts -/

theorem participantLine_eq (message : ParticipantMessage) :
    Sprintf (str "[%s:%s]  %s") [message.Sender, message.Time, message.Contents] =
      participantLine message := by
  have h1 : str "[%s:%s]  %s" = [91, 37, 115, 58, 37, 115, 93, 32, 32, 37, 115] := by decide
  have h2 : str "[" = [91] := by decide
  have h3 : str ":" = [58] := by decide
  have h4 : str "]  " = [93, 32, 32] := by decide
  rw [participantLine, h1, h2, h3, h4]
  simp [Sprintf]

theorem systemLine_eq (message : SystemMessage) :
    Sprintf (str "[%s]  %s") [message.Time, message.Contents] = systemLine message := by
  have h1 : str "[%s]  %s" = [91, 37, 115, 93, 32, 32, 37, 115] := by decide
  have h2 : str "[" = [91] := by decide
  have h4 : str "]  " = [93, 32, 32] := by decide
  rw [systemLine, h1, h2, h4]
  simp [Sprintf]

theorem count32_eq_wrap (n : Nat) :
    ∀ x : Int, -(2 : Int) ^ 31 ≤ x → x < 2 ^ 31 → count32 x n = wrapInt32 (x + n) := by
  induction n with
  | zero =>
    intro x h0 h1
    simp only [count32, wrapInt32]
    push_cast
    omega
  | succ n ih =>
    intro x h0 h1
    simp only [count32]
    rw [ih (wrapInt32 (x + 1)) (by unfold wrapInt32; omega) (by unfold wrapInt32; omega)]
    unfold wrapInt32
    push_cast
    omega

theorem count32_of_small (x : Int) (n : Nat) (h0 : 0 ≤ x) (h1 : x + n < 2 ^ 31) :
    count32 x n = x + n := by
  rw [count32_eq_wrap n x (by omega) (by omega)]
  exact wrapInt32_of_small _ (by omega) h1

theorem isSender_true (uni : GoString → GoString → Bool) (sk : Bool) (c : Connection)
    (sender : GoString) (h : isSender uni sk c sender = Except.ok true) :
    sk = false ∧ sameName uni sender c = true := by
  unfold isSender at h
  cases sk with
  | true => simp at h
  | false =>
    cases hp : c.participant with
    | none => rw [hp] at h; simp at h
    | some p =>
      rw [hp] at h
      simp only [Bool.false_eq_true, if_false, Except.ok.injEq] at h
      exact ⟨rfl, by simp [sameName, hp, h]⟩

theorem isSender_false (uni : GoString → GoString → Bool) (sk : Bool) (c : Connection)
    (sender : GoString) (h : isSender uni sk c sender = Except.ok false) :
    sk = true ∨ sameName uni sender c = false := by
  unfold isSender at h
  cases sk with
  | true => exact Or.inl rfl
  | false =>
    cases hp : c.participant with
    | none => rw [hp] at h; simp at h
    | some p =>
      rw [hp] at h
      simp only [Bool.false_eq_true, if_false, Except.ok.injEq] at h
      exact Or.inr (by simp [sameName, hp, h])

/-- What the loop of `broadcastParticipantMessage` has done when it returns: whom it called
`writeBytes` for, with what, what it left of the registry, and the two counters. -/
theorem participantLoop_ok (uni : GoString → GoString → Bool) (fuel : Nat) (f : GoString)
    (len : Int) (sender : GoString) :
    ∀ (m : ConnectionMap) (sk : Bool) (d s : Int) (b : Broadcast),
      participantLoop uni fuel f len sender m sk d s = Except.ok b →
      b.deliveries.map (fun x => x.key) =
        (if sk then connectedKeys m else recipients uni sender m) ∧
      (∀ x ∈ b.deliveries, x.contents = f) ∧
      List.Forall₂ (fun e e1 => sameEntry e e1 ∧ (e.2.state ≠ Connected → e1 = e))
        m b.connections ∧
      b.sent = count32 s (b.deliveries.countP (Delivery.isSent len)) ∧
      b.dropped = count32 d (b.deliveries.countP (fun x => !Delivery.isSent len x)) := by
  intro m
  induction m with
  | nil =>
    intro sk d s b h
    simp only [participantLoop, Except.ok.injEq] at h
    subst h
    cases sk <;> simp [connectedKeys, recipients, count32]
  | cons e rest ih =>
    obtain ⟨k, c⟩ := e
    intro sk d s b h
    simp only [participantLoop] at h
    by_cases hst : c.state = Connected
    · simp only [Connection.isState, hst, decide_True, if_true] at h
      cases hs : isSender uni sk c sender with
      | error e => rw [hs] at h; simp at h
      | ok r =>
        rw [hs] at h
        cases r with
        | true =>
          simp only at h
          cases hr : participantLoop uni fuel f len sender rest true d s with
          | error e => rw [hr] at h; simp at h
          | ok b1 =>
            rw [hr] at h
            simp only [Except.ok.injEq] at h
            subst h
            obtain ⟨h1, h2, h3, h4, h5⟩ := ih true d s b1 hr
            obtain ⟨hsk, hname⟩ := isSender_true uni sk c sender hs
            subst hsk
            refine ⟨?_, h2, ?_, h4, h5⟩
            · simpa [recipients, hst, hname] using h1
            · exact List.Forall₂.cons ⟨⟨rfl, rfl, rfl, rfl, rfl⟩, fun hne => absurd hst hne⟩ h3
        | false =>
          simp only at h
          cases hd : deliver fuel k c f len d s with
          | error e => rw [hd] at h; simp at h
          | ok r =>
            obtain ⟨c1, d1, s1, call⟩ := r
            rw [hd] at h
            simp only at h
            cases hr : participantLoop uni fuel f len sender rest sk d1 s1 with
            | error e => rw [hr] at h; simp at h
            | ok b1 =>
              rw [hr] at h
              simp only [Except.ok.injEq] at h
              subst h
              obtain ⟨h1, h2, h3, h4, h5⟩ := ih sk d1 s1 b1 hr
              obtain ⟨⟨hk, hcont⟩, hfields, hcount⟩ := deliver_ok fuel k c c1 f len d s d1 s1 call hd
              refine ⟨?_, ?_, ?_, ?_, ?_⟩
              · rcases isSender_false uni sk c sender hs with hsk | hname
                · subst hsk
                  simpa [connectedKeys, hst, hk] using h1
                · cases sk with
                  | true => simpa [connectedKeys, hst, hk] using h1
                  | false => simpa [recipients, hst, hname, hk] using h1
              · intro x hx
                rcases List.mem_cons.mp hx with e | e
                · rw [e]; exact hcont
                · exact h2 x e
              · exact List.Forall₂.cons ⟨⟨rfl, hfields⟩, fun hne => absurd hst hne⟩ h3
              · rcases hcount with ⟨q1, _, q3⟩ | ⟨q1, _, q3⟩
                · simp only [List.countP_cons, q1, if_true]
                  rw [h4, q3]
                  rfl
                · simp only [List.countP_cons, q1, Bool.false_eq_true, if_false, add_zero]
                  rw [h4, q3]
              · rcases hcount with ⟨q1, q2, _⟩ | ⟨q1, q2, _⟩
                · simp only [List.countP_cons, q1, Bool.not_true, Bool.false_eq_true, if_false,
                    add_zero]
                  rw [h5, q2]
                · simp only [List.countP_cons, q1, Bool.not_false, if_true]
                  rw [h5, q2]
                  rfl
    · simp only [Connection.isState, hst, decide_False, Bool.false_eq_true, if_false] at h
      cases hr : participantLoop uni fuel f len sender rest sk d s with
      | error e => rw [hr] at h; simp at h
      | ok b1 =>
        rw [hr] at h
        simp only [Except.ok.injEq] at h
        subst h
        obtain ⟨h1, h2, h3, h4, h5⟩ := ih sk d s b1 hr
        refine ⟨?_, h2, ?_, h4, h5⟩
        · simpa [connectedKeys, recipients, hst] using h1
        · exact List.Forall₂.cons ⟨⟨rfl, rfl, rfl, rfl, rfl⟩, fun _ => rfl⟩ h3

theorem participantLoop_total (uni : GoString → GoString → Bool) (fuel : Nat) (f : GoString)
    (sender : GoString) (hlen : (f.length : Int) < 2 ^ 63) (hfuel : f.length ≤ fuel) :
    ∀ (m : ConnectionMap) (sk : Bool) (d s : Int),
      (∀ e ∈ m, e.2.state = Connected → e.2.participant ≠ none) →
      (∀ e ∈ m, e.2.state = Connected → e.2.conn.progresses) →
      ∃ b, participantLoop uni fuel f f.length sender m sk d s = Except.ok b := by
  intro m
  induction m with
  | nil => intro sk d s _ _; exact ⟨_, rfl⟩
  | cons e rest ih =>
    obtain ⟨k, c⟩ := e
    intro sk d s hinv hprog
    have hinv1 : ∀ e ∈ rest, e.2.state = Connected → e.2.participant ≠ none :=
      fun e he => hinv e (List.mem_cons_of_mem _ he)
    have hprog1 : ∀ e ∈ rest, e.2.state = Connected → e.2.conn.progresses :=
      fun e he => hprog e (List.mem_cons_of_mem _ he)
    simp only [participantLoop]
    by_cases hst : c.state = Connected
    · simp only [Connection.isState, hst, decide_True, if_true]
      have hpart : c.participant ≠ none := hinv (k, c) (by simp) hst
      obtain ⟨r, hr⟩ : ∃ r, isSender uni sk c sender = Except.ok r := by
        unfold isSender
        cases sk with
        | true => exact ⟨false, rfl⟩
        | false =>
          cases hp : c.participant with
          | none => exact absurd hp hpart
          | some p => exact ⟨_, rfl⟩
      rw [hr]
      cases r with
      | true =>
        obtain ⟨b1, hb1⟩ := ih true d s hinv1 hprog1
        simp only [hb1]
        exact ⟨_, rfl⟩
      | false =>
        obtain ⟨c1, d1, s1, call, hd, _⟩ :=
          deliver_total fuel k c f d s (hprog (k, c) (by simp) hst) hlen hfuel
        obtain ⟨b1, hb1⟩ := ih sk d1 s1 hinv1 hprog1
        simp only [hd, hb1]
        exact ⟨_, rfl⟩
    · simp only [Connection.isState, hst, decide_False, Bool.false_eq_true, if_false]
      obtain ⟨b1, hb1⟩ := ih sk d s hinv1 hprog1
      simp only [hb1]
      exact ⟨_, rfl⟩

theorem senderConnected_connectedKeys (uni : GoString → GoString → Bool) (sender : GoString) :
    ∀ m : ConnectionMap, senderConnected uni sender m = true →
      1 ≤ (connectedKeys m).length := by
  intro m
  induction m with
  | nil => intro h; simp [senderConnected] at h
  | cons e rest ih =>
    obtain ⟨k, c⟩ := e
    intro h
    by_cases hst : c.state = Connected
    · simp [connectedKeys, hst]
    · have h1 : senderConnected uni sender rest = true := by
        simpa [senderConnected, hst] using h
      simpa [connectedKeys, hst] using ih h1

theorem recipients_length (uni : GoString → GoString → Bool) (sender : GoString) :
    ∀ m : ConnectionMap,
      (recipients uni sender m).length =
        (connectedKeys m).length - (if senderConnected uni sender m then 1 else 0) := by
  intro m
  induction m with
  | nil => simp [recipients, connectedKeys]
  | cons e rest ih =>
    obtain ⟨k, c⟩ := e
    by_cases hst : c.state = Connected
    · by_cases hn : sameName uni sender c = true
      · simp [recipients, connectedKeys, senderConnected, hst, hn]
      · have hn1 : sameName uni sender c = false := by simpa using hn
        have hsc : senderConnected uni sender ((k, c) :: rest) =
            senderConnected uni sender rest := by
          simp [senderConnected, hn1]
        rw [hsc]
        simp only [recipients, connectedKeys, hst, if_true, hn1, Bool.false_eq_true, if_false,
          List.length_cons, ih]
        by_cases hs : senderConnected uni sender rest = true
        · have := senderConnected_connectedKeys uni sender rest hs
          simp only [hs, if_true]
          omega
        · simp [hs]
    · have hsc : senderConnected uni sender ((k, c) :: rest) =
          senderConnected uni sender rest := by
        simp [senderConnected, hst]
      rw [hsc]
      simpa [recipients, connectedKeys, hst] using ih

/-! ## Lemmas on the calls of `Write` made by a delivery -/

theorem writeBytesLoop_calls (contents : GoString) (size : Int) :
    ∀ (fuel : Nat) (conn conn1 : Conn) (b k : Int) (err : Option GoError),
      writeBytesLoop contents size fuel conn b = Except.ok (conn1, k, err) →
      conn.calls ≤ conn1.calls := by
  intro fuel
  induction fuel with
  | zero =>
    intro conn conn1 b k err h
    simp only [writeBytesLoop] at h
    split_ifs at h
    simp only [Except.ok.injEq, Prod.mk.injEq] at h
    rw [← h.1]
  | succ fuel ih =>
    intro conn conn1 b k err h
    simp only [writeBytesLoop] at h
    split_ifs at h
    · cases herr : (conn.Write (List.drop b.toNat contents)).2.err with
      | some e =>
        rw [herr] at h
        simp only [Except.ok.injEq, Prod.mk.injEq] at h
        rw [← h.1]
        simp [Conn.Write]
      | none =>
        rw [herr] at h
        have := ih _ _ _ _ _ h
        simp only [Conn.Write] at this
        omega
    · simp only [Except.ok.injEq, Prod.mk.injEq] at h
      rw [← h.1]

/-- A call of `writeBytes` with a non-empty line and its length that returns has called
`Write` at least once. -/
theorem writeBytes_calls (fuel : Nat) (c c1 : Connection) (line : GoString) (k : Int)
    (err : Option GoError) (hne : line ≠ [])
    (h : c.writeBytes fuel line line.length = Except.ok (c1, k, err)) :
    c.conn.calls < c1.conn.calls := by
  have hpos : (0 : Int) < (line.length : Int) := by
    have := List.length_pos.mpr hne
    omega
  simp only [Connection.writeBytes] at h
  cases hl : writeBytesLoop line line.length fuel c.conn 0 with
  | error f => rw [hl] at h; simp at h
  | ok r =>
    obtain ⟨conn1, k1, err1⟩ := r
    rw [hl] at h
    simp only [Except.ok.injEq, Prod.mk.injEq] at h
    rw [← h.1]
    show c.conn.calls < conn1.calls
    cases fuel with
    | zero =>
      simp only [writeBytesLoop, hpos, if_true] at hl
      cases hl
    | succ fuel =>
      simp only [writeBytesLoop, hpos, if_true] at hl
      split_ifs at hl
      cases herr : (c.conn.Write (List.drop (0 : Int).toNat line)).2.err with
      | some e =>
        rw [herr] at hl
        simp only [Except.ok.injEq, Prod.mk.injEq] at hl
        rw [← hl.1]
        simp [Conn.Write]
      | none =>
        rw [herr] at hl
        have := writeBytesLoop_calls _ _ _ _ _ _ _ _ hl
        simp only [Conn.Write] at this
        omega

/-- On a transport that accepts nothing and reports no error the loop of `writeBytes` does
not end, whatever the number of iterations allowed. -/
theorem writeBytesLoop_stalled (contents : GoString) (size : Int) (hpos : 0 < size) :
    ∀ (fuel : Nat) (conn : Conn), (∀ k p, conn.reply k p = { n := 0, err := none }) →
      writeBytesLoop contents size fuel conn 0 = Except.error Fault.outOfFuel := by
  intro fuel
  induction fuel with
  | zero =>
    intro conn _
    simp only [writeBytesLoop, hpos, if_true]
  | succ fuel ih =>
    intro conn hst
    have hnp : ¬ ((0 : Int) < 0 ∨ (contents.length : Int) < 0) := by omega
    have hw : wrapInt (0 + 0) = 0 := by decide
    simp only [writeBytesLoop, hpos, if_true, hnp, if_false, Conn.Write, hst, hw]
    exact ih _ hst

/-- What a delivery step with a non-empty line and its length has written. -/
theorem deliver_writes (fuel : Nat) (key : GoString) (c c1 : Connection) (f : GoString)
    (d s d1 s1 : Int) (call : Delivery) (hne : f ≠ [])
    (h : deliver fuel key c f f.length d s = Except.ok (c1, d1, s1, call)) :
    call.key = key ∧ call.contents = f ∧
      writtenOnce fuel f c c1 call.bytesWritten call.err := by
  simp only [deliver] at h
  cases hw : c.writeBytes fuel f f.length with
  | error e => rw [hw] at h; simp at h
  | ok r =>
    obtain ⟨c2, k, err⟩ := r
    rw [hw] at h
    simp only at h
    have hcalls := writeBytes_calls fuel c c2 f k err hne hw
    split_ifs at h with hc
    · simp only [Except.ok.injEq, Prod.mk.injEq] at h
      obtain ⟨h1, h2, h3, h4⟩ := h
      subst h1 h2 h3 h4
      exact ⟨rfl, rfl, hw, hcalls⟩
    · simp only [Except.ok.injEq, Prod.mk.injEq] at h
      obtain ⟨h1, h2, h3, h4⟩ := h
      subst h1 h2 h3 h4
      exact ⟨rfl, rfl, hw, hcalls⟩

theorem lineWritten_cons (fuel : Nat) (line : GoString) (call : Delivery)
    (ds : List Delivery) (e e1 : GoString × Connection)
    (h : lineWritten fuel line ds e e1) : lineWritten fuel line (call :: ds) e e1 := by
  obtain ⟨h1, x, hx, h2⟩ := h
  exact ⟨h1, x, List.mem_cons_of_mem _ hx, h2⟩

theorem broadcastTo_cons (fuel : Nat) (line : GoString) (call : Delivery)
    (ds : List Delivery) (e e1 : GoString × Connection)
    (h : broadcastTo fuel line ds e e1) : broadcastTo fuel line (call :: ds) e e1 :=
  ⟨fun hs => lineWritten_cons fuel line call ds e e1 (h.1 hs), h.2⟩

/-- What the loop of `broadcastParticipantMessage` has written when it returns: once the
sender is skipped, or when no `Connected` entry has the name of the sender, every entry
still to visit is written to if it is `Connected` and left alone otherwise; else the first
`Connected` entry with the name of the sender is left alone, and all the others are
treated in that way. -/
theorem participantLoop_writes (uni : GoString → GoString → Bool) (fuel : Nat)
    (f : GoString) (sender : GoString) (hne : f ≠ []) :
    ∀ (m : ConnectionMap) (sk : Bool) (d s : Int) (b : Broadcast),
      participantLoop uni fuel f f.length sender m sk d s = Except.ok b →
      ((sk = true ∨ senderConnected uni sender m = false) →
        List.Forall₂ (broadcastTo fuel f b.deliveries) m b.connections) ∧
      (sk = false → senderConnected uni sender m = true →
        ∃ (pre : ConnectionMap) (e : GoString × Connection) (post pre1 post1 : ConnectionMap),
          m = pre ++ e :: post ∧ senderConnected uni sender pre = false ∧
          e.2.state = Connected ∧ sameName uni sender e.2 = true ∧
          b.connections = pre1 ++ e :: post1 ∧
          List.Forall₂ (broadcastTo fuel f b.deliveries) pre pre1 ∧
          List.Forall₂ (broadcastTo fuel f b.deliveries) post post1) := by
  intro m
  induction m with
  | nil =>
    intro sk d s b h
    simp only [participantLoop, Except.ok.injEq] at h
    subst h
    exact ⟨fun _ => List.Forall₂.nil, fun _ h2 => by simp [senderConnected] at h2⟩
  | cons e rest ih =>
    obtain ⟨k, c⟩ := e
    intro sk d s b h
    simp only [participantLoop] at h
    by_cases hst : c.state = Connected
    · simp only [Connection.isState, hst, decide_True, if_true] at h
      cases hs : isSender uni sk c sender with
      | error e => rw [hs] at h; simp at h
      | ok r =>
        rw [hs] at h
        cases r with
        | true =>
          simp only at h
          cases hr : participantLoop uni fuel f f.length sender rest true d s with
          | error e => rw [hr] at h; simp at h
          | ok b1 =>
            rw [hr] at h
            simp only [Except.ok.injEq] at h
            subst h
            obtain ⟨h1, _⟩ := ih true d s b1 hr
            obtain ⟨hsk, hname⟩ := isSender_true uni sk c sender hs
            subst hsk
            constructor
            · intro hor
              rcases hor with hor | hor
              · cases hor
              · simp [senderConnected, hst, hname] at hor
            · intro _ _
              exact ⟨[], (k, c), rest, [], b1.connections, rfl, by simp [senderConnected], hst,
                hname, rfl, List.Forall₂.nil, h1 (Or.inl rfl)⟩
        | false =>
          simp only at h
          cases hd : deliver fuel k c f f.length d s with
          | error e => rw [hd] at h; simp at h
          | ok r =>
            obtain ⟨c1, d1, s1, call⟩ := r
            rw [hd] at h
            simp only at h
            cases hr : participantLoop uni fuel f f.length sender rest sk d1 s1 with
            | error e => rw [hr] at h; simp at h
            | ok b1 =>
              rw [hr] at h
              simp only [Except.ok.injEq] at h
              subst h
              obtain ⟨h1, h2⟩ := ih sk d1 s1 b1 hr
              obtain ⟨hk, hcont, hwr⟩ := deliver_writes fuel k c c1 f d s d1 s1 call hne hd
              have hhead : broadcastTo fuel f (call :: b1.deliveries) (k, c) (k, c1) :=
                ⟨fun _ => ⟨rfl, call, List.mem_cons_self _ _, hk, hcont, hwr⟩,
                  fun hn => absurd hst hn⟩
              have hsc : sk = false →
                  senderConnected uni sender ((k, c) :: rest) =
                    senderConnected uni sender rest := by
                intro hsk
                rcases isSender_false uni sk c sender hs with h3 | h3
                · rw [hsk] at h3; cases h3
                · simp [senderConnected, h3]
              constructor
              · intro hor
                refine List.Forall₂.cons hhead ((h1 ?_).imp
                  (fun a b hab => broadcastTo_cons fuel f call _ a b hab))
                rcases hor with hor | hor
                · exact Or.inl hor
                · cases sk with
                  | true => exact Or.inl rfl
                  | false => exact Or.inr (by rw [← hsc rfl]; exact hor)
              · intro hsk hcon
                rw [hsc hsk] at hcon
                obtain ⟨pre, e, post, pre1, post1, q1, q2, q3, q4, q5, q6, q7⟩ := h2 hsk hcon
                have hpre : senderConnected uni sender ((k, c) :: pre) = false := by
                  rcases isSender_false uni sk c sender hs with h3 | h3
                  · rw [hsk] at h3; cases h3
                  · simpa [senderConnected, h3] using q2
                refine ⟨(k, c) :: pre, e, post, (k, c1) :: pre1, post1, by simp [q1], hpre, q3,
                  q4, by simp [q5], ?_, ?_⟩
                · exact List.Forall₂.cons hhead
                    (q6.imp (fun a b hab => broadcastTo_cons fuel f call _ a b hab))
                · exact q7.imp (fun a b hab => broadcastTo_cons fuel f call _ a b hab)
    · simp only [Connection.isState, hst, decide_False, Bool.false_eq_true, if_false] at h
      cases hr : participantLoop uni fuel f f.length sender rest sk d s with
      | error e => rw [hr] at h; simp at h
      | ok b1 =>
        rw [hr] at h
        simp only [Except.ok.injEq] at h
        subst h
        obtain ⟨h1, h2⟩ := ih sk d s b1 hr
        have hhead : broadcastTo fuel f b1.deliveries (k, c) (k, c) :=
          ⟨fun hs => absurd hs hst, fun _ => rfl⟩
        have hsc : senderConnected uni sender ((k, c) :: rest) =
            senderConnected uni sender rest := by
          simp [senderConnected, hst]
        constructor
        · intro hor
          rw [hsc] at hor
          exact List.Forall₂.cons hhead (h1 hor)
        · intro hsk hcon
          rw [hsc] at hcon
          obtain ⟨pre, e, post, pre1, post1, q1, q2, q3, q4, q5, q6, q7⟩ := h2 hsk hcon
          refine ⟨(k, c) :: pre, e, post, (k, c) :: pre1, post1, by simp [q1], ?_, q3,
            q4, by simp [q5], List.Forall₂.cons hhead q6, q7⟩
          simpa [senderConnected, hst] using q2

theorem participantLine_ne_nil (message : ParticipantMessage) : participantLine message ≠ [] := by
  have h : str "[" = [91] := by decide
  simp [participantLine, h]

theorem systemLine_ne_nil (message : SystemMessage) : systemLine message ≠ [] := by
  have h : str "[" = [91] := by decide
  simp [systemLine, h]

/-! ## Claims on the broadcasts -/

/-- C11 (counterexample): two registries on which a `Connected` connection is never written
to.  On the first, the first `Connected` connection has a nil participant: the broadcast
panics when it reads the name, before any write, and the `Connected` connection of Bob
behind it is not written to.  On the second, the transport of Bob accepts nothing and
reports no error: `writeBytes` never ends on it, whatever the number of iterations allowed,
so the broadcast does not return and the `Connected` connection of Carol behind Bob is not
written to. -/
theorem broadcastParticipantMessage_stops_early :
    ((brokenMap.map (fun e => (e.2.state, e.2.participant)) =
        [(Connected, none), (Connected, some { Name := str "bob" })]) ∧
      (match broadcastParticipantMessage noFold 64 brokenMap exampleMessage with
        | Except.error Fault.panic => true
        | _ => false) = true) ∧
    ((stalledMap.map (fun e => (e.2.state, e.2.participant)) =
        [(Connected, some { Name := str "bob" }), (Connected, some { Name := str "carol" })]) ∧
      ∀ fuel : Nat,
        broadcastParticipantMessage noFold fuel stalledMap exampleMessage =
          Except.error Fault.outOfFuel) := by
  refine ⟨by decide, by decide, ?_⟩
  intro fuel
  have hw : writeBytesLoop (participantLine exampleMessage)
      (participantLine exampleMessage).length fuel stalledConn 0 =
        Except.error Fault.outOfFuel :=
    writeBytesLoop_stalled _ _ (by decide) fuel stalledConn (fun _ _ => rfl)
  have hs : isSender noFold false
      (stalledConnection (str "10.0.0.3:1") (some { Name := str "bob" }))
      exampleMessage.Sender = Except.ok false := rfl
  simp only [broadcastParticipantMessage, participantLine_eq, stalledMap, participantLoop]
  have hst : (stalledConnection (str "10.0.0.3:1") (some { Name := str "bob" })).isState
      Connected = true := rfl
  simp only [hst, if_true, hs, deliver, Connection.writeBytes]
  have hc : (stalledConnection (str "10.0.0.3:1") (some { Name := str "bob" })).conn =
      stalledConn := rfl
  rw [hc, hw]

/-- C11 (amended): whenever `broadcastParticipantMessage` returns, `writeBytes` was called,
with the line `[<Sender>:<Time>]  <Contents>`, for the `Connected` connections in registry
order except the first one whose participant has the name of the sender up to case; their
number is the number of `Connected` connections minus one if there is such a connection.
The transports show it: the skipped connection and every entry that is not `Connected` are
left as they were, with no call of `Write`, and every other `Connected` entry is what one
call `writeBytes(line, len(line))`, recorded among the calls, leaves of it, with at least
one call of `Write` on its transport.  The broadcast does return on a registry in which
every `Connected` connection has a participant and whose transports make progress (so that
every `writeBytes` returns). -/
theorem broadcastParticipantMessage_recipients (uni : GoString → GoString → Bool)
    (fuel : Nat) (connMap : ConnectionMap) (message : ParticipantMessage) :
    (∀ b, broadcastParticipantMessage uni fuel connMap message = Except.ok b →
      b.deliveries.map (fun x => x.key) = recipients uni message.Sender connMap ∧
      (∀ x ∈ b.deliveries, x.contents = participantLine message) ∧
      b.deliveries.length =
        (connectedKeys connMap).length -
          (if senderConnected uni message.Sender connMap then 1 else 0) ∧
      List.Forall₂ (fun e e1 => sameEntry e e1 ∧ (e.2.state ≠ Connected → e1 = e))
        connMap b.connections ∧
      (senderConnected uni message.Sender connMap = false →
        List.Forall₂ (broadcastTo fuel (participantLine message) b.deliveries)
          connMap b.connections) ∧
      (senderConnected uni message.Sender connMap = true →
        ∃ (pre : ConnectionMap) (e : GoString × Connection)
          (post pre1 post1 : ConnectionMap),
          connMap = pre ++ e :: post ∧ senderConnected uni message.Sender pre = false ∧
          e.2.state = Connected ∧ sameName uni message.Sender e.2 = true ∧
          b.connections = pre1 ++ e :: post1 ∧
          List.Forall₂ (broadcastTo fuel (participantLine message) b.deliveries) pre pre1 ∧
          List.Forall₂ (broadcastTo fuel (participantLine message) b.deliveries)
            post post1)) ∧
    ((∀ e ∈ connMap, e.2.state = Connected → e.2.participant ≠ none) →
      (∀ e ∈ connMap, e.2.state = Connected → e.2.conn.progresses) →
      ((participantLine message).length : Int) < 2 ^ 63 →
      (participantLine message).length ≤ fuel →
      ∃ b, broadcastParticipantMessage uni fuel connMap message = Except.ok b) := by
  constructor
  · intro b hb
    simp only [broadcastParticipantMessage, participantLine_eq] at hb
    obtain ⟨h1, h2, h3, _, _⟩ := participantLoop_ok uni fuel (participantLine message)
      (participantLine message).length message.Sender connMap false 0 0 b hb
    obtain ⟨w1, w2⟩ := participantLoop_writes uni fuel (participantLine message)
      message.Sender (participantLine_ne_nil message) connMap false 0 0 b hb
    refine ⟨by simpa using h1, h2, ?_, h3, fun hno => w1 (Or.inr hno), fun hyes => w2 rfl hyes⟩
    have := congrArg List.length h1
    simp only [List.length_map, Bool.false_eq_true, if_false] at this
    rw [this, recipients_length]
  · intro hinv hprog hlen hfuel
    obtain ⟨b, hb⟩ := participantLoop_total uni fuel (participantLine message) message.Sender
      hlen hfuel connMap false 0 0 hinv hprog
    exact ⟨b, by simpa only [broadcastParticipantMessage, participantLine_eq] using hb⟩

/-- Witness of C11 (amended): Alice writes to a registry holding two connections named
Alice, one for Bob and a pending one; the broadcast returns, the second Alice and Bob are
written to with one call of `Write` each, which accepts the line, and the transports of
the first Alice and of the pending connection are not called. -/
theorem broadcastParticipantMessage_recipients_witness :
    recipients noFold exampleMessage.Sender exampleMap = [str "10.0.0.2:1", str "10.0.0.3:1"] ∧
    transportsAfter (broadcastParticipantMessage noFold 64 exampleMap exampleMessage) =
      some [(str "10.0.0.1:1", 0, []), (str "10.0.0.2:1", 1, str "[Alice:10:15:00]  hello"),
        (str "10.0.0.3:1", 1, str "[Alice:10:15:00]  hello"), (str "10.0.0.4:1", 0, [])] ∧
    ∃ b, broadcastParticipantMessage noFold 64 exampleMap exampleMessage = Except.ok b ∧
      b.deliveries.map (fun x => x.key) = recipients noFold exampleMessage.Sender exampleMap ∧
      (∀ x ∈ b.deliveries, x.contents = participantLine exampleMessage) ∧
      b.deliveries.length =
        (connectedKeys exampleMap).length -
          (if senderConnected noFold exampleMessage.Sender exampleMap then 1 else 0) ∧
      List.Forall₂ (fun e e1 => sameEntry e e1 ∧ (e.2.state ≠ Connected → e1 = e))
        exampleMap b.connections ∧
      (senderConnected noFold exampleMessage.Sender exampleMap = false →
        List.Forall₂ (broadcastTo 64 (participantLine exampleMessage) b.deliveries)
          exampleMap b.connections) ∧
      (senderConnected noFold exampleMessage.Sender exampleMap = true →
        ∃ (pre : ConnectionMap) (e : GoString × Connection)
          (post pre1 post1 : ConnectionMap),
          exampleMap = pre ++ e :: post ∧
          senderConnected noFold exampleMessage.Sender pre = false ∧
          e.2.state = Connected ∧ sameName noFold exampleMessage.Sender e.2 = true ∧
          b.connections = pre1 ++ e :: post1 ∧
          List.Forall₂ (broadcastTo 64 (participantLine exampleMessage) b.deliveries)
            pre pre1 ∧
          List.Forall₂ (broadcastTo 64 (participantLine exampleMessage) b.deliveries)
            post post1) := by
  have hprog : ∀ e ∈ exampleMap, e.2.state = Connected → e.2.conn.progresses := by
    intro e he _
    simp only [exampleMap, List.mem_cons, List.mem_singleton, List.not_mem_nil, or_false] at he
    rcases he with h | h | h | h <;> (rw [h]; exact greedyConn_progresses)
  obtain ⟨h1, h2⟩ := broadcastParticipantMessage_recipients noFold 64 exampleMap exampleMessage
  obtain ⟨b, hb⟩ := h2 (by decide) hprog (by decide) (by decide)
  exact ⟨by decide, by decide, b, hb, h1 b hb⟩

/-! ## Lemmas on the registry -/

theorem getConn_setConn_self (m : ConnectionMap) (k : GoString) (c : Connection) :
    getConn (setConn m k c) k = some c := by
  induction m with
  | nil => simp [setConn, getConn]
  | cons e rest ih =>
    obtain ⟨k0, c0⟩ := e
    by_cases h : k0 = k
    · simp [setConn, getConn, h]
    · simp [setConn, getConn, h, ih]

theorem getConn_setConn_ne (m : ConnectionMap) (k k1 : GoString) (c : Connection)
    (hne : k1 ≠ k) : getConn (setConn m k c) k1 = getConn m k1 := by
  induction m with
  | nil =>
    have : ¬ k = k1 := fun e => hne e.symm
    simp [setConn, getConn, this]
  | cons e rest ih =>
    obtain ⟨k0, c0⟩ := e
    by_cases h : k0 = k
    · subst h
      have : ¬ k0 = k1 := fun e => hne e.symm
      simp [setConn, getConn, this]
    · by_cases h1 : k0 = k1
      · subst h1
        simp [setConn, getConn, h]
      · simp [setConn, getConn, h, h1, ih]

theorem getConn_mem (m : ConnectionMap) (k : GoString) (c : Connection)
    (h : getConn m k = some c) : (k, c) ∈ m := by
  induction m with
  | nil => simp [getConn] at h
  | cons e rest ih =>
    obtain ⟨k0, c0⟩ := e
    by_cases h0 : k0 = k
    · simp only [getConn, h0, if_true, Option.some.injEq] at h
      simp [h0, h]
    · simp only [getConn, h0, if_false] at h
      exact List.mem_cons_of_mem _ (ih h)

theorem mem_setConn (m : ConnectionMap) (k : GoString) (c : Connection)
    (e : GoString × Connection) (h : e ∈ setConn m k c) : e = (k, c) ∨ e ∈ m := by
  induction m with
  | nil => simpa [setConn] using h
  | cons e0 rest ih =>
    obtain ⟨k0, c0⟩ := e0
    by_cases h0 : k0 = k
    · simp only [setConn, h0, if_true, List.mem_cons] at h
      rcases h with h | h
      · exact Or.inl h
      · exact Or.inr (List.mem_cons_of_mem _ h)
    · simp only [setConn, h0, if_false, List.mem_cons] at h
      rcases h with h | h
      · exact Or.inr (by simp [h])
      · rcases ih h with h1 | h1
        · exact Or.inl h1
        · exact Or.inr (List.mem_cons_of_mem _ h1)

/-- Replacing the connection of a registered key by one that differs in its transport only
keeps every entry up to the transport, and every entry of another key as it was. -/
theorem setConn_forall₂ (m : ConnectionMap) (k : GoString) (c c1 : Connection)
    (hget : getConn m k = some c) (hsame : sameEntry (k, c) (k, c1)) :
    List.Forall₂ (fun e e1 => sameEntry e e1 ∧ (e.1 ≠ k → e1 = e)) m (setConn m k c1) := by
  induction m with
  | nil => simp [getConn] at hget
  | cons e rest ih =>
    obtain ⟨k0, c0⟩ := e
    have hrefl : List.Forall₂ (fun e e1 => sameEntry e e1 ∧ (e.1 ≠ k → e1 = e)) rest rest := by
      clear ih hget
      induction rest with
      | nil => exact List.Forall₂.nil
      | cons x xs ihx =>
        exact List.Forall₂.cons ⟨⟨rfl, rfl, rfl, rfl, rfl⟩, fun _ => rfl⟩ ihx
    by_cases h0 : k0 = k
    · simp only [getConn, h0, if_true, Option.some.injEq] at hget
      subst hget
      simp only [setConn, h0, if_true]
      exact List.Forall₂.cons ⟨hsame, fun hne => absurd rfl hne⟩ hrefl
    · simp only [getConn, h0, if_false] at hget
      simp only [setConn, h0, if_false]
      exact List.Forall₂.cons ⟨⟨rfl, rfl, rfl, rfl, rfl⟩, fun _ => rfl⟩ (ih hget)

theorem forall₂_chain {R1 R2 R : GoString × Connection → GoString × Connection → Prop}
    (hR : ∀ x y z, R1 x y → R2 y z → R x z) :
    ∀ (a b c : ConnectionMap), List.Forall₂ R1 a b → List.Forall₂ R2 b c →
      List.Forall₂ R a c := by
  intro a
  induction a with
  | nil =>
    intro b c h1 h2
    cases h1
    cases h2
    exact List.Forall₂.nil
  | cons x xs ih =>
    intro b c h1 h2
    cases h1 with
    | cons hxy hrest =>
      cases h2 with
      | cons hyz hrest2 => exact List.Forall₂.cons (hR _ _ _ hxy hyz) (ih _ _ hrest hrest2)

theorem registered_setConn (m : ConnectionMap) (k : GoString) (c c1 : Connection)
    (hget : getConn m k = some c) (a : GoString) :
    registered (setConn m k c1) a = registered m a := by
  by_cases h : a = k
  · subst h
    simp [registered, getConn_setConn_self, hget]
  · simp [registered, getConn_setConn_ne m k a c1 h]

theorem forall₂_same (P : GoString × Connection → Prop) :
    ∀ m : ConnectionMap, List.Forall₂ (fun e e1 => sameEntry e e1 ∧ (P e → e1 = e)) m m := by
  intro m
  induction m with
  | nil => exact List.Forall₂.nil
  | cons x xs ih => exact List.Forall₂.cons ⟨⟨rfl, rfl, rfl, rfl, rfl⟩, fun _ => rfl⟩ ih

theorem sameEntry_trans (x y z : GoString × Connection) (h1 : sameEntry x y)
    (h2 : sameEntry y z) : sameEntry x z := by
  obtain ⟨a1, a2, a3, a4, a5⟩ := h1
  obtain ⟨b1, b2, b3, b4, b5⟩ := h2
  exact ⟨b1.trans a1, b2.trans a2, b3.trans a3, b4.trans a4, b5.trans a5⟩

theorem Conn.progresses_of_reply (c c1 : Conn) (h : c1.reply = c.reply)
    (hp : c.progresses) : c1.progresses := by
  intro k p hne
  rw [h]
  exact hp k p hne

theorem Conn.neverFails_of_reply (c c1 : Conn) (h : c1.reply = c.reply)
    (hp : c.neverFails) : c1.neverFails := by
  intro k p
  rw [h]
  exact hp k p

/-- What the loop over `ReceiveList` has done when it returns. -/
theorem receiveListLoop_ok (fuel : Nat) (f : GoString) (len : Int) :
    ∀ (rs : List GoString) (m : ConnectionMap) (d s : Int) (b : Broadcast),
      receiveListLoop fuel f len rs m d s = Except.ok b →
      b.deliveries.map (fun x => x.key) = rs.filter (registered m) ∧
      (∀ x ∈ b.deliveries, x.contents = f) ∧
      List.Forall₂ (fun e e1 => sameEntry e e1 ∧ (e.1 ∉ rs → e1 = e)) m b.connections ∧
      b.sent = count32 s (b.deliveries.countP (Delivery.isSent len)) ∧
      b.dropped = count32 d (b.deliveries.countP (fun x => !Delivery.isSent len x)) := by
  intro rs
  induction rs with
  | nil =>
    intro m d s b h
    simp only [receiveListLoop, Except.ok.injEq] at h
    subst h
    refine ⟨by simp, by simp, forall₂_same _ m, by simp [count32], by simp [count32]⟩
  | cons r rest ih =>
    intro m d s b h
    simp only [receiveListLoop] at h
    cases hg : getConn m r with
    | none =>
      rw [hg] at h
      simp only at h
      obtain ⟨h1, h2, h3, h4, h5⟩ := ih m d s b h
      refine ⟨?_, h2, ?_, h4, h5⟩
      · simpa [List.filter_cons, registered, hg] using h1
      · exact h3.imp (fun x y hxy => ⟨hxy.1, fun hn => hxy.2 (fun hm => hn (List.mem_cons_of_mem _ hm))⟩)
    | some c =>
      rw [hg] at h
      simp only at h
      cases hd : deliver fuel r c f len d s with
      | error e => rw [hd] at h; simp at h
      | ok q =>
        obtain ⟨c1, d1, s1, call⟩ := q
        rw [hd] at h
        simp only at h
        cases hr : receiveListLoop fuel f len rest (setConn m r c1) d1 s1 with
        | error e => rw [hr] at h; simp at h
        | ok b1 =>
          rw [hr] at h
          simp only [Except.ok.injEq] at h
          subst h
          obtain ⟨h1, h2, h3, h4, h5⟩ := ih (setConn m r c1) d1 s1 b1 hr
          obtain ⟨⟨hk, hcont⟩, hfields, hcount⟩ :=
            deliver_ok fuel r c c1 f len d s d1 s1 call hd
          have hreg : registered (setConn m r c1) = registered m :=
            funext (registered_setConn m r c c1 hg)
          refine ⟨?_, ?_, ?_, ?_, ?_⟩
          · rw [hreg] at h1
            simp [List.filter_cons, registered, hg, hk, h1]
          · intro x hx
            rcases List.mem_cons.mp hx with e | e
            · rw [e]; exact hcont
            · exact h2 x e
          · have hset := setConn_forall₂ m r c c1 hg ⟨rfl, hfields⟩
            refine forall₂_chain ?_ m (setConn m r c1) b1.connections hset h3
            intro x y z hxy hyz
            refine ⟨sameEntry_trans x y z hxy.1 hyz.1, fun hn => ?_⟩
            have hx1 : x.1 ≠ r := fun e => hn (by simp [e])
            have hyx : y = x := hxy.2 hx1
            subst hyx
            exact hyz.2 (fun hm => hn (List.mem_cons_of_mem _ hm))
          · rcases hcount with ⟨q1, _, q3⟩ | ⟨q1, _, q3⟩
            · simp only [List.countP_cons, q1, if_true]
              rw [h4, q3]
              rfl
            · simp only [List.countP_cons, q1, Bool.false_eq_true, if_false, add_zero]
              rw [h4, q3]
          · rcases hcount with ⟨q1, q2, _⟩ | ⟨q1, q2, _⟩
            · simp only [List.countP_cons, q1, Bool.not_true, Bool.false_eq_true, if_false,
                add_zero]
              rw [h5, q2]
            · simp only [List.countP_cons, q1, Bool.not_false, if_true]
              rw [h5, q2]
              rfl

/-- What the loop over the whole registry has done when it returns. -/
theorem everyoneLoop_ok (fuel : Nat) (f : GoString) (len : Int) :
    ∀ (m : ConnectionMap) (d s : Int) (b : Broadcast),
      everyoneLoop fuel f len m d s = Except.ok b →
      b.deliveries.map (fun x => x.key) = m.map (fun e => e.1) ∧
      (∀ x ∈ b.deliveries, x.contents = f) ∧
      List.Forall₂ sameEntry m b.connections ∧
      b.sent = count32 s (b.deliveries.countP (Delivery.isSent len)) ∧
      b.dropped = count32 d (b.deliveries.countP (fun x => !Delivery.isSent len x)) := by
  intro m
  induction m with
  | nil =>
    intro d s b h
    simp only [everyoneLoop, Except.ok.injEq] at h
    subst h
    simp [count32]
  | cons e rest ih =>
    obtain ⟨k, c⟩ := e
    intro d s b h
    simp only [everyoneLoop] at h
    cases hd : deliver fuel k c f len d s with
    | error e => rw [hd] at h; simp at h
    | ok q =>
      obtain ⟨c1, d1, s1, call⟩ := q
      rw [hd] at h
      simp only at h
      cases hr : everyoneLoop fuel f len rest d1 s1 with
      | error e => rw [hr] at h; simp at h
      | ok b1 =>
        rw [hr] at h
        simp only [Except.ok.injEq] at h
        subst h
        obtain ⟨h1, h2, h3, h4, h5⟩ := ih d1 s1 b1 hr
        obtain ⟨⟨hk, hcont⟩, hfields, hcount⟩ :=
          deliver_ok fuel k c c1 f len d s d1 s1 call hd
        refine ⟨by simp [hk, h1], ?_, List.Forall₂.cons ⟨rfl, hfields⟩ h3, ?_, ?_⟩
        · intro x hx
          rcases List.mem_cons.mp hx with e | e
          · rw [e]; exact hcont
          · exact h2 x e
        · rcases hcount with ⟨q1, _, q3⟩ | ⟨q1, _, q3⟩
          · simp only [List.countP_cons, q1, if_true]
            rw [h4, q3]
            rfl
          · simp only [List.countP_cons, q1, Bool.false_eq_true, if_false, add_zero]
            rw [h4, q3]
        · rcases hcount with ⟨q1, q2, _⟩ | ⟨q1, q2, _⟩
          · simp only [List.countP_cons, q1, Bool.not_true, Bool.false_eq_true, if_false,
              add_zero]
            rw [h5, q2]
          · simp only [List.countP_cons, q1, Bool.not_false, if_true]
            rw [h5, q2]
            rfl

theorem receiveListLoop_total (fuel : Nat) (f : GoString)
    (hlen : (f.length : Int) < 2 ^ 63) (hfuel : f.length ≤ fuel) :
    ∀ (rs : List GoString) (m : ConnectionMap) (d s : Int),
      (∀ e ∈ m, e.2.conn.progresses) →
      ∃ b, receiveListLoop fuel f f.length rs m d s = Except.ok b ∧
        ((∀ e ∈ m, e.2.conn.neverFails) →
          ∀ x ∈ b.deliveries, x.isSent f.length = true) := by
  intro rs
  induction rs with
  | nil =>
    intro m d s _
    exact ⟨_, rfl, fun _ x hx => by simp at hx⟩
  | cons r rest ih =>
    intro m d s hprog
    simp only [receiveListLoop]
    cases hg : getConn m r with
    | none =>
      simp only
      exact ih m d s hprog
    | some c =>
      simp only
      have hmem := getConn_mem m r c hg
      obtain ⟨c1, d1, s1, call, hd, hsent⟩ :=
        deliver_total fuel r c f d s (hprog _ hmem) hlen hfuel
      obtain ⟨_, ⟨_, _, _, hreply⟩, _⟩ := deliver_ok fuel r c c1 f f.length d s d1 s1 call hd
      have hprog1 : ∀ e ∈ setConn m r c1, e.2.conn.progresses := by
        intro e he
        rcases mem_setConn m r c1 e he with h | h
        · rw [h]
          exact Conn.progresses_of_reply c.conn c1.conn hreply (hprog _ hmem)
        · exact hprog e h
      obtain ⟨b1, hb1, hall⟩ := ih (setConn m r c1) d1 s1 hprog1
      simp only [hd, hb1]
      refine ⟨_, rfl, ?_⟩
      intro hnf x hx
      have hnf1 : ∀ e ∈ setConn m r c1, e.2.conn.neverFails := by
        intro e he
        rcases mem_setConn m r c1 e he with h | h
        · rw [h]
          exact Conn.neverFails_of_reply c.conn c1.conn hreply (hnf _ hmem)
        · exact hnf e h
      rcases List.mem_cons.mp hx with e | e
      · rw [e]
        exact (hsent (hnf _ hmem)).1
      · exact hall hnf1 x e

theorem everyoneLoop_total (fuel : Nat) (f : GoString)
    (hlen : (f.length : Int) < 2 ^ 63) (hfuel : f.length ≤ fuel) :
    ∀ (m : ConnectionMap) (d s : Int),
      (∀ e ∈ m, e.2.conn.progresses) →
      ∃ b, everyoneLoop fuel f f.length m d s = Except.ok b := by
  intro m
  induction m with
  | nil => intro d s _; exact ⟨_, rfl⟩
  | cons e rest ih =>
    obtain ⟨k, c⟩ := e
    intro d s hprog
    obtain ⟨c1, d1, s1, call, hd, _⟩ :=
      deliver_total fuel k c f d s (hprog (k, c) (by simp)) hlen hfuel
    obtain ⟨b1, hb1⟩ := ih d1 s1 (fun e he => hprog e (List.mem_cons_of_mem _ he))
    simp only [everyoneLoop, hd, hb1]
    exact ⟨_, rfl⟩

/-- What the loop over the whole registry has written when it returns: every entry once. -/
theorem everyoneLoop_writes (fuel : Nat) (f : GoString) (hne : f ≠ []) :
    ∀ (m : ConnectionMap) (d s : Int) (b : Broadcast),
      everyoneLoop fuel f f.length m d s = Except.ok b →
      List.Forall₂ (lineWritten fuel f b.deliveries) m b.connections := by
  intro m
  induction m with
  | nil =>
    intro d s b h
    simp only [everyoneLoop, Except.ok.injEq] at h
    subst h
    exact List.Forall₂.nil
  | cons e rest ih =>
    obtain ⟨k, c⟩ := e
    intro d s b h
    simp only [everyoneLoop] at h
    cases hd : deliver fuel k c f f.length d s with
    | error e => rw [hd] at h; simp at h
    | ok r =>
      obtain ⟨c1, d1, s1, call⟩ := r
      rw [hd] at h
      simp only at h
      cases hr : everyoneLoop fuel f f.length rest d1 s1 with
      | error e => rw [hr] at h; simp at h
      | ok b1 =>
        rw [hr] at h
        simp only [Except.ok.injEq] at h
        subst h
        obtain ⟨hk, hcont, hwr⟩ := deliver_writes fuel k c c1 f d s d1 s1 call hne hd
        exact List.Forall₂.cons ⟨rfl, call, List.mem_cons_self _ _, hk, hcont, hwr⟩
          ((ih d1 s1 b1 hr).imp (fun a b hab => lineWritten_cons fuel f call _ a b hab))

/-- What the loop over `ReceiveList` has written when it returns: every registered
connection as many times as its address stands in the list. -/
theorem receiveListLoop_writes (fuel : Nat) (f : GoString) (hne : f ≠ []) :
    ∀ (rs : List GoString) (m : ConnectionMap) (d s : Int) (b : Broadcast),
      receiveListLoop fuel f f.length rs m d s = Except.ok b →
      ∀ (key : GoString) (c : Connection), getConn m key = some c →
        ∃ c1, getConn b.connections key = some c1 ∧
          writtenTimes fuel f (rs.count key) c c1 := by
  intro rs
  induction rs with
  | nil =>
    intro m d s b h key c hg
    simp only [receiveListLoop, Except.ok.injEq] at h
    subst h
    exact ⟨c, hg, rfl⟩
  | cons r rest ih =>
    intro m d s b h key c hg
    simp only [receiveListLoop] at h
    cases hr : getConn m r with
    | none =>
      rw [hr] at h
      simp only at h
      have hne1 : r ≠ key := by
        intro e
        rw [e, hg] at hr
        cases hr
      obtain ⟨c1, h1, h2⟩ := ih m d s b h key c hg
      refine ⟨c1, h1, ?_⟩
      rw [List.count_cons_of_ne (fun e => hne1 e.symm)]
      exact h2
    | some c0 =>
      rw [hr] at h
      simp only at h
      cases hd : deliver fuel r c0 f f.length d s with
      | error e => rw [hd] at h; simp at h
      | ok q =>
        obtain ⟨c2, d1, s1, call⟩ := q
        rw [hd] at h
        simp only at h
        cases hl : receiveListLoop fuel f f.length rest (setConn m r c2) d1 s1 with
        | error e => rw [hl] at h; simp at h
        | ok b1 =>
          rw [hl] at h
          simp only [Except.ok.injEq] at h
          subst h
          obtain ⟨_, _, hwr⟩ := deliver_writes fuel r c0 c2 f d s d1 s1 call hne hd
          by_cases hkey : r = key
          · subst hkey
            have hc : c0 = c := by
              rw [hg] at hr
              exact (Option.some.inj hr).symm
            subst hc
            obtain ⟨c1, h1, h2⟩ := ih (setConn m r c2) d1 s1 b1 hl r c2
              (getConn_setConn_self m r c2)
            refine ⟨c1, h1, ?_⟩
            rw [List.count_cons_self]
            exact ⟨c2, _, _, hwr, h2⟩
          · have hg1 : getConn (setConn m r c2) key = some c := by
              rw [getConn_setConn_ne m r key c2 (fun e => hkey e.symm)]
              exact hg
            obtain ⟨c1, h1, h2⟩ := ih (setConn m r c2) d1 s1 b1 hl key c hg1
            refine ⟨c1, h1, ?_⟩
            rw [List.count_cons_of_ne (fun e => hkey e.symm)]
            exact h2

/-- C12 (counterexample): a registry of two connections in which the transport of the
first accepts nothing and reports no error.  For a message to everyone `writeBytes` never
ends on the first connection, whatever the number of iterations allowed, so the broadcast
does not return and the second registered connection is not written to. -/
theorem broadcastSystemMessage_stalled_recipient :
    stalledMap.map (fun e => e.1) = [str "10.0.0.3:1", str "10.0.0.5:1"] ∧
    everyoneMessage.ReceiveList = [] ∧
    ∀ fuel : Nat,
      broadcastSystemMessage fuel stalledMap everyoneMessage = Except.error Fault.outOfFuel := by
  refine ⟨by decide, rfl, ?_⟩
  intro fuel
  have hw : writeBytesLoop (systemLine everyoneMessage) (systemLine everyoneMessage).length
      fuel stalledConn 0 = Except.error Fault.outOfFuel :=
    writeBytesLoop_stalled _ _ (by decide) fuel stalledConn (fun _ _ => rfl)
  have hl : everyoneMessage.ReceiveList.length = 0 := rfl
  simp only [broadcastSystemMessage, systemLine_eq, hl, ne_eq, not_true_eq_false, if_false,
    stalledMap, everyoneLoop, deliver, Connection.writeBytes]
  have hc : (stalledConnection (str "10.0.0.3:1") (some { Name := str "bob" })).conn =
      stalledConn := rfl
  rw [hc, hw]

/-- C12 (amended): whenever `broadcastSystemMessage` returns, every call of `writeBytes` it
made was given the line `[<Time>]  <Contents>` and its length.  With a non-empty
`ReceiveList` the calls are, in order, one for each entry of the list whose address is
registered; every registered connection is what as many calls of `writeBytes` as its
address stands in the list leave of it, each with at least one call of `Write` on its
transport, and every entry of the registry whose key is not in the list is left as it was.
With an empty `ReceiveList` there is one call for every entry of the registry, whatever
its state, and every entry is what that call leaves of it.  In both cases keys, addresses,
states and participants are unchanged.  The broadcast does return on transports that make
progress (so that every `writeBytes` returns). -/
theorem broadcastSystemMessage_recipients (fuel : Nat) (connMap : ConnectionMap)
    (message : SystemMessage) :
    (∀ b, broadcastSystemMessage fuel connMap message = Except.ok b →
      (∀ x ∈ b.deliveries, x.contents = systemLine message) ∧
      List.Forall₂ sameEntry connMap b.connections ∧
      (message.ReceiveList ≠ [] →
        b.deliveries.map (fun x => x.key) =
          message.ReceiveList.filter (registered connMap) ∧
        List.Forall₂ (fun e e1 => e.1 ∉ message.ReceiveList → e1 = e)
          connMap b.connections ∧
        ∀ (key : GoString) (c : Connection), getConn connMap key = some c →
          ∃ c1, getConn b.connections key = some c1 ∧
            writtenTimes fuel (systemLine message) (message.ReceiveList.count key) c c1) ∧
      (message.ReceiveList = [] →
        b.deliveries.map (fun x => x.key) = connMap.map (fun e => e.1) ∧
        List.Forall₂ (lineWritten fuel (systemLine message) b.deliveries)
          connMap b.connections)) ∧
    ((∀ e ∈ connMap, e.2.conn.progresses) →
      ((systemLine message).length : Int) < 2 ^ 63 → (systemLine message).length ≤ fuel →
      ∃ b, broadcastSystemMessage fuel connMap message = Except.ok b) := by
  by_cases hl : message.ReceiveList = []
  · have hunfold : broadcastSystemMessage fuel connMap message =
        everyoneLoop fuel (systemLine message) (systemLine message).length connMap 0 0 := by
      simp only [broadcastSystemMessage, systemLine_eq, hl, List.length_nil, ne_eq,
        not_true_eq_false, if_false]
    rw [hunfold]
    constructor
    · intro b hb
      obtain ⟨h1, h2, h3, _, _⟩ := everyoneLoop_ok fuel (systemLine message)
        (systemLine message).length connMap 0 0 b hb
      have hw := everyoneLoop_writes fuel (systemLine message) (systemLine_ne_nil message)
        connMap 0 0 b hb
      exact ⟨h2, h3, fun hne => absurd hl hne, fun _ => ⟨h1, hw⟩⟩
    · intro hprog hlen hfuel
      exact everyoneLoop_total fuel (systemLine message) hlen hfuel connMap 0 0 hprog
  · have hlen0 : message.ReceiveList.length ≠ 0 := fun e => hl (List.length_eq_zero.mp e)
    have hunfold : broadcastSystemMessage fuel connMap message =
        receiveListLoop fuel (systemLine message) (systemLine message).length
          message.ReceiveList connMap 0 0 := by
      simp only [broadcastSystemMessage, systemLine_eq, hlen0, ne_eq, not_false_eq_true,
        if_true]
    rw [hunfold]
    constructor
    · intro b hb
      obtain ⟨h1, h2, h3, _, _⟩ := receiveListLoop_ok fuel (systemLine message)
        (systemLine message).length message.ReceiveList connMap 0 0 b hb
      have hw := receiveListLoop_writes fuel (systemLine message) (systemLine_ne_nil message)
        message.ReceiveList connMap 0 0 b hb
      exact ⟨h2, h3.imp (fun _ _ h => h.1), fun _ => ⟨h1, h3.imp (fun _ _ h => h.2), hw⟩,
        fun he => absurd he hl⟩
    · intro hprog hlen hfuel
      obtain ⟨b, hb, _⟩ := receiveListLoop_total fuel (systemLine message) hlen hfuel
        message.ReceiveList connMap 0 0 hprog
      exact ⟨b, hb⟩

theorem exampleMap_progresses : ∀ e ∈ exampleMap, e.2.conn.progresses := by
  intro e he
  simp only [exampleMap, List.mem_cons, List.mem_singleton, List.not_mem_nil, or_false] at he
  rcases he with h | h | h | h <;> (rw [h]; exact greedyConn_progresses)

/-- Witness of C12 (amended): a message for a registered address named twice and an address
that is not registered; the broadcast returns with two deliveries to the registered
address, whose transport has been called twice and has accepted the line twice, and no
other transport is called.  The same message for everyone calls every transport once. -/
theorem broadcastSystemMessage_recipients_witness :
    exampleSystemMessage.ReceiveList.filter (registered exampleMap) =
      [str "10.0.0.4:1", str "10.0.0.4:1"] ∧
    transportsAfter (broadcastSystemMessage 64 exampleMap exampleSystemMessage) =
      some [(str "10.0.0.1:1", 0, []), (str "10.0.0.2:1", 0, []), (str "10.0.0.3:1", 0, []),
        (str "10.0.0.4:1", 2, str "[10:15:00]  welcome[10:15:00]  welcome")] ∧
    transportsAfter (broadcastSystemMessage 64 exampleMap everyoneMessage) =
      some [(str "10.0.0.1:1", 1, str "[10:15:00]  welcome"),
        (str "10.0.0.2:1", 1, str "[10:15:00]  welcome"),
        (str "10.0.0.3:1", 1, str "[10:15:00]  welcome"),
        (str "10.0.0.4:1", 1, str "[10:15:00]  welcome")] ∧
    ∃ b, broadcastSystemMessage 64 exampleMap exampleSystemMessage = Except.ok b ∧
      (∀ x ∈ b.deliveries, x.contents = systemLine exampleSystemMessage) ∧
      List.Forall₂ sameEntry exampleMap b.connections ∧
      (exampleSystemMessage.ReceiveList ≠ [] →
        b.deliveries.map (fun x => x.key) =
          exampleSystemMessage.ReceiveList.filter (registered exampleMap) ∧
        List.Forall₂ (fun e e1 => e.1 ∉ exampleSystemMessage.ReceiveList → e1 = e)
          exampleMap b.connections ∧
        ∀ (key : GoString) (c : Connection), getConn exampleMap key = some c →
          ∃ c1, getConn b.connections key = some c1 ∧
            writtenTimes 64 (systemLine exampleSystemMessage)
              (exampleSystemMessage.ReceiveList.count key) c c1) ∧
      (exampleSystemMessage.ReceiveList = [] →
        b.deliveries.map (fun x => x.key) = exampleMap.map (fun e => e.1) ∧
        List.Forall₂ (lineWritten 64 (systemLine exampleSystemMessage) b.deliveries)
          exampleMap b.connections) := by
  obtain ⟨h1, h2⟩ := broadcastSystemMessage_recipients 64 exampleMap exampleSystemMessage
  obtain ⟨b, hb⟩ := h2 exampleMap_progresses (by decide) (by decide)
  exact ⟨by decide, by decide, by decide, b, hb, h1 b hb⟩

theorem singleMap_progresses : ∀ e ∈ singleMap, e.2.conn.progresses := by
  intro e he
  simp only [singleMap, List.mem_singleton] at he
  rw [he]
  exact greedyConn_progresses

theorem singleMap_neverFails : ∀ e ∈ singleMap, e.2.conn.neverFails := by
  intro e he
  simp only [singleMap, List.mem_singleton] at he
  rw [he]
  intro k p
  rfl

/-- A system message that names one registered connection `n > 0` times, on a transport
that accepts everything: `n` calls of `writeBytes`, all counted as sent by an `int32`
counter. -/
theorem broadcastSystemMessage_repeated (n : Nat) (hn : n ≠ 0) :
    ∃ b, broadcastSystemMessage 64 singleMap (repeatedMessage n) = Except.ok b ∧
      b.deliveries.length = n ∧ b.sent = wrapInt32 (n : Int) ∧ b.dropped = 0 := by
  have hline : systemLine (repeatedMessage n) = str "[10:15:00]  welcome" := rfl
  have hlen : ((systemLine (repeatedMessage n)).length : Int) < 2 ^ 63 := by
    rw [hline]
    decide
  have hfuel : (systemLine (repeatedMessage n)).length ≤ 64 := by
    rw [hline]
    decide
  obtain ⟨b, hb, hall⟩ := receiveListLoop_total 64 (systemLine (repeatedMessage n)) hlen hfuel
    (repeatedMessage n).ReceiveList singleMap 0 0 singleMap_progresses
  obtain ⟨h1, _, _, h4, h5⟩ := receiveListLoop_ok 64 (systemLine (repeatedMessage n))
    (systemLine (repeatedMessage n)).length (repeatedMessage n).ReceiveList singleMap 0 0 b hb
  have hsent := hall singleMap_neverFails
  have hfilter : (repeatedMessage n).ReceiveList.filter (registered singleMap) =
      (repeatedMessage n).ReceiveList := by
    rw [List.filter_eq_self]
    intro a ha
    have := List.eq_of_mem_replicate ha
    rw [this]
    decide
  have hcount : b.deliveries.length = n := by
    have := congrArg List.length h1
    rw [hfilter] at this
    simpa [repeatedMessage] using this
  have hc1 : b.deliveries.countP (Delivery.isSent (systemLine (repeatedMessage n)).length) = n := by
    rw [← hcount, List.countP_eq_length]
    exact hsent
  have hc2 : b.deliveries.countP
      (fun x => !Delivery.isSent (systemLine (repeatedMessage n)).length x) = 0 := by
    rw [List.countP_eq_zero]
    intro x hx
    simp [hsent x hx]
  refine ⟨b, ?_, hcount, ?_, ?_⟩
  · have hl0 : (repeatedMessage n).ReceiveList.length ≠ 0 := by
      simpa [repeatedMessage] using hn
    simp only [broadcastSystemMessage, systemLine_eq, hl0, ne_eq, not_false_eq_true, if_true]
    exact hb
  · rw [h4, hc1, count32_eq_wrap n 0 (by norm_num) (by norm_num)]
    simp
  · rw [h5, hc2]
    rfl

/-- C13 (counterexample): a system message that names one registered connection `2 ^ 31`
times makes `2 ^ 31` deliveries, all sent, and the `int32` counters returned add up to
`-2 ^ 31`. -/
theorem broadcastSystemMessage_counter_wraps :
    ∃ b, broadcastSystemMessage 64 singleMap (repeatedMessage (2 ^ 31)) = Except.ok b ∧
      b.deliveries.length = 2 ^ 31 ∧ b.dropped + b.sent = -(2 : Int) ^ 31 := by
  obtain ⟨b, h1, h2, h3, h4⟩ := broadcastSystemMessage_repeated (2 ^ 31) (by norm_num)
  refine ⟨b, h1, h2, ?_⟩
  rw [h3, h4]
  unfold wrapInt32
  norm_num

theorem counters_sum (len : Int) (dels : List Delivery) (d s : Int)
    (hbound : (dels.length : Int) < 2 ^ 31)
    (hs : s = count32 0 (dels.countP (Delivery.isSent len)))
    (hd : d = count32 0 (dels.countP (fun x => !Delivery.isSent len x))) :
    s = (dels.countP (Delivery.isSent len) : Int) ∧
    d = (dels.countP (fun x => !Delivery.isSent len x) : Int) ∧
    d + s = (dels.length : Int) := by
  have hsum := List.length_eq_countP_add_countP (Delivery.isSent len) dels
  have e : (fun x => ¬ Delivery.isSent len x = true) = (fun x => (!Delivery.isSent len x) = true) := by
    funext x
    simp
  have hsum1 : dels.length = dels.countP (Delivery.isSent len) +
      dels.countP (fun x => !Delivery.isSent len x) := by
    rw [hsum]
    congr 1
    apply List.countP_congr
    intro x _
    simp
  rw [count32_of_small 0 _ (le_refl _) (by omega)] at hs hd
  refine ⟨by omega, by omega, by omega⟩

/-- C13 (amended): whatever the transports do, when a broadcast returns and made fewer than
`2 ^ 31` calls of `writeBytes`, `sent` is the number of calls that returned no error and the
full length, `dropped` is the number of the other calls, and both add up to the number of
calls; the connections called are fixed by the registry and the message alone, so a dropped
delivery changes nothing for the remaining recipients.  Both broadcasts return on
transports that make progress (and, for a participant message, when every `Connected`
connection has a participant). -/
theorem broadcast_counters (uni : GoString → GoString → Bool) (fuel : Nat)
    (connMap : ConnectionMap) (pm : ParticipantMessage) (sm : SystemMessage) :
    (∀ b, broadcastParticipantMessage uni fuel connMap pm = Except.ok b →
      (b.deliveries.length : Int) < 2 ^ 31 →
      b.sent = (b.deliveries.countP (Delivery.isSent (participantLine pm).length) : Int) ∧
      b.dropped =
        (b.deliveries.countP (fun x => !Delivery.isSent (participantLine pm).length x) : Int) ∧
      b.dropped + b.sent = (b.deliveries.length : Int) ∧
      b.deliveries.map (fun x => x.key) = recipients uni pm.Sender connMap) ∧
    (∀ b, broadcastSystemMessage fuel connMap sm = Except.ok b →
      (b.deliveries.length : Int) < 2 ^ 31 →
      b.sent = (b.deliveries.countP (Delivery.isSent (systemLine sm).length) : Int) ∧
      b.dropped =
        (b.deliveries.countP (fun x => !Delivery.isSent (systemLine sm).length x) : Int) ∧
      b.dropped + b.sent = (b.deliveries.length : Int) ∧
      b.deliveries.map (fun x => x.key) =
        (if sm.ReceiveList = [] then connMap.map (fun e => e.1)
         else sm.ReceiveList.filter (registered connMap))) ∧
    ((∀ e ∈ connMap, e.2.state = Connected → e.2.participant ≠ none) →
      (∀ e ∈ connMap, e.2.conn.progresses) →
      ((participantLine pm).length : Int) < 2 ^ 63 → (participantLine pm).length ≤ fuel →
      ∃ b, broadcastParticipantMessage uni fuel connMap pm = Except.ok b) ∧
    ((∀ e ∈ connMap, e.2.conn.progresses) →
      ((systemLine sm).length : Int) < 2 ^ 63 → (systemLine sm).length ≤ fuel →
      ∃ b, broadcastSystemMessage fuel connMap sm = Except.ok b) := by
  refine ⟨?_, ?_, ?_, ?_⟩
  · intro b hb hbound
    simp only [broadcastParticipantMessage, participantLine_eq] at hb
    obtain ⟨h1, _, _, h4, h5⟩ := participantLoop_ok uni fuel (participantLine pm)
      (participantLine pm).length pm.Sender connMap false 0 0 b hb
    obtain ⟨q1, q2, q3⟩ := counters_sum _ b.deliveries b.dropped b.sent hbound h4 h5
    exact ⟨q1, q2, q3, by simpa using h1⟩
  · intro b hb hbound
    simp only [broadcastSystemMessage, systemLine_eq] at hb
    by_cases hl : sm.ReceiveList = []
    · simp only [hl, List.length_nil, ne_eq, not_true_eq_false, if_false] at hb
      obtain ⟨h1, _, _, h4, h5⟩ := everyoneLoop_ok fuel (systemLine sm)
        (systemLine sm).length connMap 0 0 b hb
      obtain ⟨q1, q2, q3⟩ := counters_sum _ b.deliveries b.dropped b.sent hbound h4 h5
      exact ⟨q1, q2, q3, by simpa [hl] using h1⟩
    · have hlen0 : sm.ReceiveList.length ≠ 0 := fun e => hl (List.length_eq_zero.mp e)
      simp only [hlen0, ne_eq, not_false_eq_true, if_true] at hb
      obtain ⟨h1, _, _, h4, h5⟩ := receiveListLoop_ok fuel (systemLine sm)
        (systemLine sm).length sm.ReceiveList connMap 0 0 b hb
      obtain ⟨q1, q2, q3⟩ := counters_sum _ b.deliveries b.dropped b.sent hbound h4 h5
      exact ⟨q1, q2, q3, by simpa [hl] using h1⟩
  · intro hinv hprog hlen hfuel
    obtain ⟨b, hb⟩ := participantLoop_total uni fuel (participantLine pm) pm.Sender
      hlen hfuel connMap false 0 0 hinv (fun e he _ => hprog e he)
    exact ⟨b, by simpa only [broadcastParticipantMessage, participantLine_eq] using hb⟩
  · intro hprog hlen hfuel
    by_cases hl : sm.ReceiveList = []
    · obtain ⟨b, hb⟩ := everyoneLoop_total fuel (systemLine sm) hlen hfuel connMap 0 0 hprog
      refine ⟨b, ?_⟩
      simp only [broadcastSystemMessage, systemLine_eq, hl, List.length_nil, ne_eq,
        not_true_eq_false, if_false]
      exact hb
    · obtain ⟨b, hb, _⟩ := receiveListLoop_total fuel (systemLine sm) hlen hfuel
        sm.ReceiveList connMap 0 0 hprog
      have hlen0 : sm.ReceiveList.length ≠ 0 := fun e => hl (List.length_eq_zero.mp e)
      refine ⟨b, ?_⟩
      simp only [broadcastSystemMessage, systemLine_eq, hlen0, ne_eq, not_false_eq_true,
        if_true]
      exact hb

/-- Witness of C13 (amended): the message of Alice to the example registry returns with two
deliveries, and the counters add up to two. -/
theorem broadcast_counters_witness :
    ∃ b, broadcastParticipantMessage noFold 64 exampleMap exampleMessage = Except.ok b ∧
      b.deliveries.map (fun x => x.key) = [str "10.0.0.2:1", str "10.0.0.3:1"] ∧
      b.dropped + b.sent = 2 := by
  obtain ⟨h1, _, h3, _⟩ :=
    broadcast_counters noFold 64 exampleMap exampleMessage exampleSystemMessage
  obtain ⟨b, hb⟩ := h3 (by decide) exampleMap_progresses (by decide) (by decide)
  have hkeys : b.deliveries.map (fun x => x.key) = [str "10.0.0.2:1", str "10.0.0.3:1"] := by
    simp only [broadcastParticipantMessage, participantLine_eq] at hb
    have := (participantLoop_ok noFold 64 (participantLine exampleMessage)
      (participantLine exampleMessage).length exampleMessage.Sender exampleMap false 0 0 b hb).1
    rw [this]
    decide
  have hlen : b.deliveries.length = 2 := by
    have := congrArg List.length hkeys
    simpa using this
  obtain ⟨_, _, q3, _⟩ := h1 b hb (by rw [hlen]; norm_num)
  exact ⟨b, hb, hkeys, by rw [q3, hlen]; norm_num⟩

/-! ## Claims on the registry -/

/-- Writing the connection of a registered key changes one entry: every entry is kept, or
it is the entry read for the key and is replaced. -/
theorem setConn_entries (m : ConnectionMap) (k : GoString) (c0 c : Connection)
    (hget : getConn m k = some c0) :
    List.Forall₂ (fun e e1 => e1 = e ∨ (e = (k, c0) ∧ e1 = (k, c))) m (setConn m k c) := by
  induction m with
  | nil => simp [getConn] at hget
  | cons e rest ih =>
    obtain ⟨k0, c1⟩ := e
    by_cases h0 : k0 = k
    · simp only [getConn, h0, if_true, Option.some.injEq] at hget
      subst hget
      subst h0
      simp only [setConn, if_true]
      refine List.Forall₂.cons (Or.inr ⟨rfl, rfl⟩) ?_
      exact List.forall₂_same.mpr (fun _ _ => Or.inl rfl)
    · simp only [getConn, h0, if_false] at hget
      simp only [setConn, h0, if_false]
      exact List.Forall₂.cons (Or.inl rfl) (ih hget)

theorem forall₂_map_eq {β : Type} (g : GoString × Connection → β) :
    ∀ (m m1 : ConnectionMap), List.Forall₂ (fun e e1 => g e1 = g e) m m1 →
      m1.map g = m.map g := by
  intro m
  induction m with
  | nil =>
    intro m1 h
    cases h
    rfl
  | cons x xs ih =>
    intro m1 h
    cases h with
    | cons hxy hrest =>
      simp only [List.map_cons, hxy, ih _ hrest]

/-- C14: `assignParticipant(a, p)` panics on an address that is not registered and leaves
the registry as it was; on a registered address it returns, the connection read at `a` now
has participant `p` and state `Connected`, the connections of the other keys, the list of
keys and the address of every connection are unchanged.  After `addConn(c)`, assigning to
`c.ipAddr` returns and the connection at that address is `c` with the participant, in
state `Connected`. -/
theorem assignParticipant_effect (connMap : ConnectionMap) (a : GoString)
    (p : Option Participant) :
    (getConn connMap a = none →
      ∃ message, assignParticipant connMap a p = Run.panicked connMap message) ∧
    (∀ c, getConn connMap a = some c →
      ∃ m1, assignParticipant connMap a p = Run.returned m1 ∧
        getConn m1 a = some { c with participant := p, state := Connected } ∧
        (∀ k, k ≠ a → getConn m1 k = getConn connMap k) ∧
        m1.map (fun e => e.1) = connMap.map (fun e => e.1) ∧
        m1.map (fun e => e.2.ipAddr) = connMap.map (fun e => e.2.ipAddr)) ∧
    (∀ c : Connection,
      ∃ m1, assignParticipant (addConn connMap c) c.ipAddr p = Run.returned m1 ∧
        getConn m1 c.ipAddr = some { c with participant := p, state := Connected }) := by
  refine ⟨?_, ?_, ?_⟩
  · intro h
    simp only [assignParticipant, h]
    exact ⟨_, rfl⟩
  · intro c h
    refine ⟨setConn connMap a { c with participant := p, state := Connected }, ?_,
      getConn_setConn_self _ _ _, fun k hk => getConn_setConn_ne _ _ _ _ hk, ?_, ?_⟩
    · simp only [assignParticipant, h]
    · apply forall₂_map_eq
      refine (setConn_entries connMap a c _ h).imp ?_
      intro e e1 he
      rcases he with he | ⟨h1, h2⟩
      · rw [he]
      · rw [h1, h2]
    · apply forall₂_map_eq
      refine (setConn_entries connMap a c _ h).imp ?_
      intro e e1 he
      rcases he with he | ⟨h1, h2⟩
      · rw [he]
      · rw [h1, h2]
  · intro c
    have h : getConn (addConn connMap c) c.ipAddr = some c := getConn_setConn_self _ _ _
    refine ⟨setConn (addConn connMap c) c.ipAddr
      { c with participant := p, state := Connected }, ?_, getConn_setConn_self _ _ _⟩
    simp only [assignParticipant, h]

/-- C16 (counterexample): `addConn` of a pending connection without participant followed
by `assignParticipant` with a nil participant returns normally and leaves a registered
connection in state `Connected` whose participant is nil; `broadcastParticipantMessage`
then panics on it. -/
theorem assignParticipant_nil_participant :
    ((exampleConnection (str "10.0.0.4:1") Pending none).state = Pending ∧
      (exampleConnection (str "10.0.0.4:1") Pending none).participant = none) ∧
    (assignParticipant (addConn newConnectionMap
        (exampleConnection (str "10.0.0.4:1") Pending none)) (str "10.0.0.4:1")
        none).isReturned = true ∧
    (assignParticipant (addConn newConnectionMap
        (exampleConnection (str "10.0.0.4:1") Pending none)) (str "10.0.0.4:1")
        none).connections.map (fun e => (e.1, e.2.state, e.2.participant)) =
      [(str "10.0.0.4:1", Connected, none)] ∧
    (match broadcastParticipantMessage noFold 64
        (assignParticipant (addConn newConnectionMap
          (exampleConnection (str "10.0.0.4:1") Pending none)) (str "10.0.0.4:1")
          none).connections exampleMessage with
      | Except.error Fault.panic => true
      | _ => false) = true := by
  decide

/-- C16 (amended): in every registry reached from the empty one by `addConn` of pending
connections without participant, `removeConn`, and calls of `assignParticipant` with a
non-nil participant that return normally, a registered connection is in state `Connected`
exactly when its participant is present; so the test on the sender's name in
`broadcastParticipantMessage` never reads through a nil participant. -/
theorem Reachable_connected_iff_participant (m : ConnectionMap) (h : Reachable m) :
    (∀ e ∈ m, e.2.state = Connected ↔ e.2.participant ≠ none) ∧
    (∀ (uni : GoString → GoString → Bool) (sk : Bool) (sender : GoString),
      ∀ e ∈ m, e.2.isState Connected = true →
        isSender uni sk e.2 sender ≠ Except.error Fault.panic) := by
  have hinv : ∀ e ∈ m, e.2.state = Connected ↔ e.2.participant ≠ none := by
    induction h with
    | empty => intro e he; simp [newConnectionMap] at he
    | add m c _ hs hp ih =>
      intro e he
      rcases mem_setConn m c.ipAddr c e he with h1 | h1
      · rw [h1]
        simp only [hs, hp]
        constructor
        · intro h2
          exact absurd h2 (by decide)
        · intro h2
          exact absurd rfl h2
      · exact ih e h1
    | remove m a _ ih =>
      intro e he
      exact ih e (List.mem_of_mem_filter he)
    | assign m a p m1 _ hr ih =>
      intro e he
      simp only [assignParticipant] at hr
      cases hg : getConn m a with
      | none => rw [hg] at hr; simp at hr
      | some c =>
        rw [hg] at hr
        simp only [Run.returned.injEq] at hr
        subst hr
        rcases mem_setConn m a _ e he with h1 | h1
        · rw [h1]
          simp
        · exact ih e h1
  refine ⟨hinv, ?_⟩
  intro uni sk sender e he hst
  have hc : e.2.state = Connected := by simpa [Connection.isState] using hst
  have hp := (hinv e he).mp hc
  unfold isSender
  cases sk with
  | true => simp
  | false =>
    cases hq : e.2.participant with
    | none => exact absurd hq hp
    | some q => simp

/-- Witness of C16 (amended): a pending connection is added and Bob is assigned to it. -/
theorem Reachable_connected_iff_participant_witness :
    Reachable (setConn (addConn newConnectionMap
        (exampleConnection (str "10.0.0.4:1") Pending none)) (str "10.0.0.4:1")
        (exampleConnection (str "10.0.0.4:1") Connected (some { Name := str "bob" }))) ∧
    ((∀ e ∈ setConn (addConn newConnectionMap
          (exampleConnection (str "10.0.0.4:1") Pending none)) (str "10.0.0.4:1")
          (exampleConnection (str "10.0.0.4:1") Connected (some { Name := str "bob" })),
        e.2.state = Connected ↔ e.2.participant ≠ none) ∧
      (∀ (uni : GoString → GoString → Bool) (sk : Bool) (sender : GoString),
        ∀ e ∈ setConn (addConn newConnectionMap
            (exampleConnection (str "10.0.0.4:1") Pending none)) (str "10.0.0.4:1")
            (exampleConnection (str "10.0.0.4:1") Connected (some { Name := str "bob" })),
          e.2.isState Connected = true →
            isSender uni sk e.2 sender ≠ Except.error Fault.panic)) :=
  have hr : Reachable (setConn (addConn newConnectionMap
      (exampleConnection (str "10.0.0.4:1") Pending none)) (str "10.0.0.4:1")
      (exampleConnection (str "10.0.0.4:1") Connected (some { Name := str "bob" }))) :=
    Reachable.assign
      (addConn newConnectionMap (exampleConnection (str "10.0.0.4:1") Pending none))
      (str "10.0.0.4:1") { Name := str "bob" } _
      (Reachable.add newConnectionMap (exampleConnection (str "10.0.0.4:1") Pending none)
        Reachable.empty rfl rfl) rfl
  ⟨hr, Reachable_connected_iff_participant _ hr⟩

/-! ## The idle supervisor -/

theorem run_append (s : Supervisor) (es : List Event) (e : Event) :
    run s (es ++ [e]) = step (run s es) e := by
  simp [run, List.foldl_append]

theorem run_cons (s : Supervisor) (e : Event) (es : List Event) :
    run s (e :: es) = run (step s e) es := rfl

theorem step_stopped (s : Supervisor) (e : Event) (h : s.running = false) :
    (step s e).running = false ∧ (step s e).connClosed = s.connClosed ∧
      (step s e).idleConnectionsChClosed = s.idleConnectionsChClosed := by
  cases e <;> simp [step, handles, h]

theorem run_stopped (es : List Event) :
    ∀ s : Supervisor, s.running = false →
      (run s es).running = false ∧ (run s es).connClosed = s.connClosed := by
  induction es with
  | nil => intro s h; exact ⟨h, rfl⟩
  | cons e es ih =>
    intro s h
    obtain ⟨h1, h2, _⟩ := step_stopped s e h
    obtain ⟨h3, h4⟩ := ih (step s e) h1
    rw [run_cons]
    exact ⟨h3, h4.trans h2⟩

theorem Supervised_new (d : Nat) : Supervised d (newSupervisor d) := by
  simp [Supervised, newSupervisor, NewTimer]

theorem Supervised_step (d : Nat) (s : Supervisor) (e : Event) (h : Supervised d s) :
    Supervised d (step s e) := by
  obtain ⟨⟨act, pend, dur⟩, td, ic, cc, rn, bl⟩ := s
  obtain ⟨h1, h2, h3, h4, h5⟩ := h
  simp only at h1 h2 h3 h4 h5
  subst h1 h2 h3
  cases rn with
  | false =>
    cases e <;> simp [Supervised, step, handles]
  | true =>
    obtain ⟨hd, ha⟩ := h5 rfl
    have hc : ic = false := by
      cases ic with
      | false => rfl
      | true => exact absurd (h4 rfl) (by simp)
    subst hd ha hc
    cases e <;> cases pend <;>
      simp [Supervised, step, handles, Timer.Stop, Timer.Reset, Timer.fire]

theorem Supervised_run (d : Nat) (es : List Event) :
    Supervised d (run (newSupervisor d) es) := by
  induction es using List.reverseRecOn with
  | nil => exact Supervised_new d
  | append_singleton es e ih =>
    rw [run_append]
    exact Supervised_step d _ e ih

/-- What one step does to a running supervisor: it stops exactly on a handled timer expiry
or quit, closes exactly on a handled timer expiry, and an abort leaves it running with
nothing closed and the timer armed again for the whole duration. -/
theorem step_running (d : Nat) (s : Supervisor) (e : Event) (h : Supervised d s)
    (hr : s.running = true) :
    ((step s e).running = false ↔
      handles s e = true ∧ (e = Event.timerExpiry ∨ e = Event.quit)) ∧
    ((step s e).connClosed = true ↔ handles s e = true ∧ e = Event.timerExpiry) ∧
    (e = Event.abort →
      handles s e = true ∧ (step s e).running = true ∧ (step s e).blocked = false ∧
      (step s e).connClosed = false ∧ (step s e).idleConnectionsChClosed = false ∧
      (step s e).connectionTimeout = NewTimer d) ∧
    (e = Event.quit →
      handles s e = true ∧ (step s e).connClosed = false ∧
      (step s e).idleConnectionsChClosed = false) := by
  obtain ⟨⟨act, pend, dur⟩, td, ic, cc, rn, bl⟩ := s
  obtain ⟨h1, h2, h3, h4, h5⟩ := h
  simp only at h1 h2 h3 h4 h5 hr
  subst h1 h2 h3 hr
  obtain ⟨hd, ha⟩ := h5 rfl
  have hc : ic = false := by
    cases ic with
    | false => rfl
    | true => exact absurd (h4 rfl) (by simp)
  subst hd ha hc
  cases e <;> cases pend <;>
    simp [step, handles, Timer.Stop, Timer.Reset, Timer.fire, NewTimer]

theorem append_singleton_split (es pre post : List Event) (e e1 : Event)
    (h : es ++ [e] = pre ++ e1 :: post) :
    (post = [] ∧ pre = es ∧ e1 = e) ∨ ∃ post1, post = post1 ++ [e] ∧ es = pre ++ e1 :: post1 := by
  rcases List.eq_nil_or_concat post with hp | ⟨post1, x, hp⟩
  · subst hp
    left
    have h1 : es ++ [e] = pre ++ [e1] := h
    have := List.append_inj' h1 rfl
    simp only [List.cons.injEq, and_true] at this
    exact ⟨rfl, this.1.symm, this.2.symm⟩
  · subst hp
    right
    have h1 : es ++ [e] = (pre ++ e1 :: post1) ++ [x] := by
      rw [h]
      simp
    have := List.append_inj' h1 rfl
    simp only [List.cons.injEq, and_true] at this
    exact ⟨post1, by rw [this.2, List.concat_eq_append], this.1⟩

/-- A flag of the supervisor that is off at the start, stays on once it is on, and is
switched on exactly by handling an event of some kind, is on after a run exactly when an
event of that kind was handled during the run. -/
theorem run_flag_iff (d : Nat) (flag : Supervisor → Bool) (trigger : Event → Prop)
    (h0 : flag (newSupervisor d) = false)
    (hkeep : ∀ s e, Supervised d s → flag s = true → flag (step s e) = true)
    (hset : ∀ s e, Supervised d s → flag s = false →
      (flag (step s e) = true ↔ handles s e = true ∧ trigger e)) :
    ∀ events : List Event,
      flag (run (newSupervisor d) events) = true ↔
        ∃ pre e post, events = pre ++ e :: post ∧ trigger e ∧
          handles (run (newSupervisor d) pre) e = true := by
  intro events
  induction events using List.reverseRecOn with
  | nil =>
    constructor
    · intro h
      rw [show run (newSupervisor d) [] = newSupervisor d from rfl, h0] at h
      exact absurd h (by simp)
    · rintro ⟨pre, e, post, h, _⟩
      exact absurd h (by simp)
  | append_singleton es e ih =>
    rw [run_append]
    have hsup := Supervised_run d es
    constructor
    · intro h
      by_cases hf : flag (run (newSupervisor d) es) = true
      · obtain ⟨pre, e1, post, h1, h2, h3⟩ := ih.mp hf
        exact ⟨pre, e1, post ++ [e], by rw [h1]; simp, h2, h3⟩
      · have hf1 : flag (run (newSupervisor d) es) = false := by simpa using hf
        obtain ⟨h1, h2⟩ := (hset _ e hsup hf1).mp h
        exact ⟨es, e, [], rfl, h2, h1⟩
    · rintro ⟨pre, e1, post, h1, h2, h3⟩
      rcases append_singleton_split es pre post e e1 h1 with ⟨_, hp, he⟩ | ⟨post1, _, hes⟩
      · subst hp he
        by_cases hf : flag (run (newSupervisor d) pre) = true
        · exact hkeep _ _ hsup hf
        · have hf1 : flag (run (newSupervisor d) pre) = false := by simpa using hf
          exact (hset _ _ hsup hf1).mpr ⟨h3, h2⟩
      · exact hkeep _ _ hsup (ih.mpr ⟨pre, e1, post1, hes, h2, h3⟩)

/-- C17: `disconnectIfIdle` as a step machine, started by `newReader` with time-out `d` and
run over any sequence of events.  It has returned exactly when it has handled a timer expiry
or a quit; the transport is closed exactly when it has handled a timer expiry, and the
notification channel is closed with it, so leaving on a quit closes nothing; it never blocks;
and from any state it is still running in, an abort is handled, keeps it running, closes
nothing and leaves the timer armed for the whole duration `d`, while a quit is handled and
closes nothing. -/
theorem disconnectIfIdle_machine (d : Nat) (events : List Event) :
    ((run (newSupervisor d) events).running = false ↔
      ∃ pre e post, events = pre ++ e :: post ∧ (e = Event.timerExpiry ∨ e = Event.quit) ∧
        handles (run (newSupervisor d) pre) e = true) ∧
    ((run (newSupervisor d) events).connClosed = true ↔
      ∃ pre e post, events = pre ++ e :: post ∧ e = Event.timerExpiry ∧
        handles (run (newSupervisor d) pre) e = true) ∧
    (run (newSupervisor d) events).idleConnectionsChClosed =
      (run (newSupervisor d) events).connClosed ∧
    (run (newSupervisor d) events).blocked = false ∧
    ((run (newSupervisor d) events).running = true →
      (handles (run (newSupervisor d) events) Event.abort = true ∧
        (step (run (newSupervisor d) events) Event.abort).running = true ∧
        (step (run (newSupervisor d) events) Event.abort).blocked = false ∧
        (step (run (newSupervisor d) events) Event.abort).connClosed = false ∧
        (step (run (newSupervisor d) events) Event.abort).idleConnectionsChClosed = false ∧
        (step (run (newSupervisor d) events) Event.abort).connectionTimeout = NewTimer d) ∧
      (handles (run (newSupervisor d) events) Event.quit = true ∧
        (step (run (newSupervisor d) events) Event.quit).running = false ∧
        (step (run (newSupervisor d) events) Event.quit).connClosed = false ∧
        (step (run (newSupervisor d) events) Event.quit).idleConnectionsChClosed = false)) := by
  have hsup := Supervised_run d events
  refine ⟨?_, ?_, hsup.2.2.1, hsup.2.1, ?_⟩
  · have h := run_flag_iff d (fun s => !s.running)
      (fun e => e = Event.timerExpiry ∨ e = Event.quit) rfl
      (fun s e _ hf => by
        have := (step_stopped s e (by simpa using hf)).1
        simpa using this)
      (fun s e hs hf => by
        have hr : s.running = true := by simpa using hf
        have := (step_running d s e hs hr).1
        simpa using this) events
    simpa using h
  · exact run_flag_iff d (fun s => s.connClosed) (fun e => e = Event.timerExpiry) rfl
      (fun s e hs hf => by
        have hr : s.running = false := hs.2.2.2.1 hf
        show (step s e).connClosed = true
        rw [(step_stopped s e hr).2.1]
        exact hf)
      (fun s e hs hf => by
        show (step s e).connClosed = true ↔ handles s e = true ∧ e = Event.timerExpiry
        have hf0 : s.connClosed = false := hf
        by_cases hr : s.running = true
        · exact (step_running d s e hs hr).2.1
        · have hr1 : s.running = false := by simpa using hr
          rw [(step_stopped s e hr1).2.1]
          simp [hf0, handles, hr1]) events
  · intro hr
    obtain ⟨_, _, ha, _⟩ := step_running d _ Event.abort hsup hr
    obtain ⟨hq1, _, _, hq⟩ := step_running d _ Event.quit hsup hr
    obtain ⟨q1, q2, q3⟩ := hq rfl
    exact ⟨ha rfl, q1, hq1.mpr ⟨q1, Or.inr rfl⟩, q2, q3⟩

/-- Witness of C17: an expiry that races with an abort is drained and the timer armed again;
the quit that follows stops the supervisor with nothing closed, while a timer expiry that
is handled closes the channel and the transport. -/
theorem disconnectIfIdle_machine_witness :
    run (newSupervisor 30) [Event.timerFires, Event.abort, Event.quit, Event.timerFires] =
      { connectionTimeout := { active := false, pending := true, duration := 30 },
        timeoutDuration := 30, idleConnectionsChClosed := false, connClosed := false,
        running := false, blocked := false } ∧
    (run (newSupervisor 30) [Event.abort, Event.timerFires, Event.timerExpiry]).connClosed =
      true ∧
    ((run (newSupervisor 30) [Event.timerFires, Event.abort, Event.quit,
        Event.timerFires]).connClosed = true ↔
      ∃ pre e post, [Event.timerFires, Event.abort, Event.quit, Event.timerFires] =
          pre ++ e :: post ∧ e = Event.timerExpiry ∧
        handles (run (newSupervisor 30) pre) e = true) :=
  ⟨by decide, by decide,
    (disconnectIfIdle_machine 30
      [Event.timerFires, Event.abort, Event.quit, Event.timerFires]).2.1⟩

/-! ## `ParseCommand` is total -/

theorem initCommandTable_populated : initCommandTable = some (commandTable.map some) := by
  decide

theorem argAt_of_lt (arguments : List GoString) (i : Nat) (h : i < arguments.length) :
    argAt arguments i = Except.ok (arguments.get ⟨i, h⟩) := by
  simp only [argAt, List.get?_eq_get h]

theorem drop_of_lt (arguments : List GoString) (i : Nat) (h : i < arguments.length) :
    arguments.drop i = arguments.get ⟨i, h⟩ :: arguments.drop (i + 1) := by
  rw [List.get_eq_getElem]
  exact List.drop_eq_getElem_cons h

/-- The loop on the index `i` with checked indexing runs to its end without panic, and
returns what the loop on the remaining tokens returns. -/
theorem parseOptionsChecked_eq (cmd : command) (arguments : List GoString) :
    ∀ (fuel i oi : Nat) (r : ParseResult), i ≤ arguments.length →
      arguments.length - i ≤ fuel →
      parseOptionsChecked cmd arguments fuel i oi r =
        Except.ok (parseOptions cmd oi r (arguments.drop i)) := by
  intro fuel
  induction fuel with
  | zero =>
    intro i oi r hi hf
    have he : i = arguments.length := by omega
    subst he
    simp [parseOptionsChecked, parseOptions]
  | succ fuel ih =>
    intro i oi r hi hf
    by_cases hlt : i < arguments.length
    · rw [drop_of_lt arguments i hlt]
      simp only [parseOptionsChecked, hlt, if_true, argAt_of_lt arguments i hlt]
      by_cases ho : oi ≥ cmd.options.length
      · simp only [ho, if_true]
        cases arguments.drop (i + 1) <;> simp [parseOptions, ho]
      · simp only [ho, if_false]
        by_cases hlast : i = arguments.length - 1
        · have hd : arguments.drop (i + 1) = [] := by
            apply List.drop_of_length_le
            omega
          rw [hd, if_pos hlast]
          simp only [parseOptions, ho, if_false]
        · have hlt1 : i + 1 < arguments.length := by omega
          rw [drop_of_lt arguments (i + 1) hlt1]
          rw [if_neg hlast]
          simp only [argAt_of_lt arguments (i + 1) hlt1, parseOptions, ho, if_false]
          cases scanOptions (arguments.get ⟨i, hlt⟩) (arguments.get ⟨i + 1, hlt1⟩) r
              cmd.options with
          | returned r1 => rfl
          | done r1 =>
            simp only
            by_cases hm : r1.Matched = false
            · simp [hm]
            · simp only [hm, if_false]
              exact ih (i + 2) (oi + 1) r1 (by omega) (by omega)
    · have he : i = arguments.length := by omega
      subst he
      simp [parseOptionsChecked, parseOptions]

theorem matchCommandChecked_eq (m : GoString → GoString) (first : GoString)
    (rest : List GoString) (r : ParseResult) :
    ∀ table : List command,
      matchCommandChecked m (first :: rest) r (table.map some) =
        Except.ok (matchCommand m first rest r table) := by
  intro table
  induction table with
  | nil => rfl
  | cons cmd cmds ih =>
    simp only [List.map_cons, matchCommandChecked, matchCommand]
    have h0 : argAt (first :: rest) 0 = Except.ok first := rfl
    rw [h0]
    simp only
    by_cases hn : ToLower m first = cmd.name
    · simp only [hn, if_true]
      rw [parseOptionsChecked_eq cmd (first :: rest) (first :: rest).length 1 0 _
        (by simp) (by simp)]
      rfl
    · simp only [hn, if_false]
      exact ih

theorem scanOptions_error_kind (a v : GoString) (r : ParseResult) (opts : List option)
    (h : r.Error = none) :
    ∀ out, scanOptions a v r opts = out →
      (∀ r1, out = Flow.done r1 → r1.Error = none) ∧
      (∀ r1, out = Flow.returned r1 →
        ∃ msg, r1.Error = some { t := errorInvalidValue, msg := msg }) := by
  intro out hout
  constructor
  · intro r1 h1
    rw [h1] at hout
    rw [(scanOptions_done a v r r1 opts hout).2.1, h]
  · intro r1 h1
    rw [h1] at hout
    rw [scanOptions_returned a v r r1 opts hout]
    exact ⟨_, rfl⟩

/-- Every error set by the option loop has one of the four kinds between `errorSuccess` and
`errorSentinel`. -/
theorem parseOptions_error_kind (cmd : command) :
    ∀ (ts : List GoString) (oi : Nat) (r : ParseResult), r.Error = none →
      ∀ e, (parseOptions cmd oi r ts).Error = some e →
        errorSuccess < e.t ∧ e.t < errorSentinel := by
  intro ts
  induction ts using pairs_induction with
  | h0 =>
    intro oi r hr e he
    simp only [parseOptions] at he
    rw [hr] at he
    simp at he
  | h1 a =>
    intro oi r hr e he
    simp only [parseOptions] at he
    split_ifs at he <;>
      (simp only [Option.some.injEq] at he; subst he; (dsimp only; exact ⟨by decide, by decide⟩))
  | h2 a v rest ih =>
    intro oi r hr e he
    simp only [parseOptions] at he
    by_cases ho : oi ≥ cmd.options.length
    · rw [if_pos ho] at he
      simp only [Option.some.injEq] at he
      subst he
      (dsimp only; exact ⟨by decide, by decide⟩)
    · rw [if_neg ho] at he
      obtain ⟨hdone, hret⟩ := scanOptions_error_kind a v r cmd.options hr _ rfl
      cases hs : scanOptions a v r cmd.options with
      | returned r1 =>
        rw [hs] at he
        simp only at he
        obtain ⟨msg, hm⟩ := hret r1 hs
        rw [hm] at he
        simp only [Option.some.injEq] at he
        subst he
        (dsimp only; exact ⟨by decide, by decide⟩)
      | done r1 =>
        rw [hs] at he
        simp only at he
        by_cases hm : r1.Matched = false
        · rw [if_pos hm] at he
          simp only [Option.some.injEq] at he
          subst he
          (dsimp only; exact ⟨by decide, by decide⟩)
        · rw [if_neg hm] at he
          exact ih (oi + 1) r1 (hdone r1 hs) e he

theorem int_between_zero_five (t : Int) (h0 : 0 < t) (h1 : t < 5) :
    t = 1 ∨ t = 2 ∨ t = 3 ∨ t = 4 := by
  omega

theorem parseError_Error_defined (e : parseError) (h0 : errorSuccess < e.t)
    (h1 : e.t < errorSentinel) : ∃ s, e.Error = some s := by
  obtain ⟨t, msg⟩ := e
  have : t = 1 ∨ t = 2 ∨ t = 3 ∨ t = 4 := int_between_zero_five t h0 h1
  rcases this with h | h | h | h <;> (subst h; exact ⟨_, rfl⟩)

/-- C18: `ParseCommand` returns on every line.  With every slot of `commandTable` filled by
`init`, the run with checked indexing (`arguments[0]`, `arguments[i]`, `arguments[i+1]`) and
checked reads through the slots ends without panic and within `len(arguments)` iterations
of the option loop, with the result of `ParseCommand`; and every error in a result has a
kind strictly between `errorSuccess` and `errorSentinel`, for which `Error()` finds its
description in `errorsTable`. -/
theorem ParseCommand_total (m : GoString → GoString) (line : GoString) :
    ParseCommandChecked m line = Except.ok (ParseCommand m line) ∧
    (initCommandTable = some (commandTable.map some) ∧
      commandTable.length = (commandSentinel - CommandNull - 1).toNat) ∧
    (∀ e, (ParseCommand m line).Error = some e →
      errorSuccess < e.t ∧ e.t < errorSentinel ∧ ∃ s, e.Error = some s) := by
  refine ⟨?_, ⟨initCommandTable_populated, by decide⟩, ?_⟩
  · simp only [ParseCommandChecked, initCommandTable_populated, ParseCommand]
    by_cases hp : HasPrefix line (str ":") = true
    · simp only [hp, if_true]
      cases hs : Split line 32 with
      | nil => exact absurd hs (Split_ne_nil line)
      | cons first rest => exact matchCommandChecked_eq m first rest _ commandTable
    · simp [hp, sentinelResult]
  · intro e he
    rcases ParseCommand_cases m line with ⟨_, h2⟩ | ⟨_, cmd, _, _, h4⟩
    · rw [h2] at he
      simp [sentinelResult] at he
    · rw [h4] at he
      have hk := parseOptions_error_kind cmd _ 0 _ rfl e he
      exact ⟨hk.1, hk.2, parseError_Error_defined e hk.1 hk.2⟩

/-! ## Repeated options -/

theorem parseOptions_channel_channel (a b : GoString) (r : ParseResult) :
    parseOptions historyCommand 0 r [str "-channel", a, str "-channel", b] =
      { r with Channel := b, Matched := true } := by
  simp [parseOptions, historyCommand, scanOptions, str_channel, str_period]

theorem parseOptions_period_period (i j : Nat) (hi : i < 2 ^ 63) (hj : j < 2 ^ 63)
    (r : ParseResult) :
    parseOptions historyCommand 0 r [str "-period", decimal i, str "-period", decimal j] =
      { r with Period := j, Matched := true } := by
  have hi0 : ¬ ((i : Int) < 0) := by omega
  have hj0 : ¬ ((j : Int) < 0) := by omega
  simp [parseOptions, historyCommand, scanOptions, str_channel, str_period,
    Atoi_decimal i hi, Atoi_decimal j hj, hi0, hj0]

/-- C19 (counterexample): the second period `9223372036854775808` (that is `2 ^ 63`) does
not fit a Go `int`; `strconv.Atoi` fails on it and the line is rejected with
"invalid value". -/
theorem ParseCommand_period_out_of_range :
    decimal 1 = str "1" ∧ decimal (2 ^ 63) = str "9223372036854775808" ∧
    (ParseCommand id (str ":history -period 1 -period 9223372036854775808")).Error =
      some { t := errorInvalidValue, msg := str "period 9223372036854775808" } := by
  decide

/-- C19 (amended): a `:history` line that names the same option twice is accepted and the
last value wins: with space-free tokens `a` and `b`, `:history -channel a -channel b`
gives `Matched = true`, `Channel = b` and no error; with `i` and `j` that fit a Go `int`,
written in decimal, `:history -period i -period j` gives `Period = j` and no error. -/
theorem ParseCommand_repeated_option (m : GoString → GoString) (a b : GoString)
    (i j : Nat) (ha : 32 ∉ a) (hb : 32 ∉ b) (hi : i < 2 ^ (intSize - 1))
    (hj : j < 2 ^ (intSize - 1)) :
    ((ParseCommand m (str ":history -channel " ++ a ++ str " -channel " ++ b)).Matched = true ∧
      (ParseCommand m (str ":history -channel " ++ a ++ str " -channel " ++ b)).Channel = b ∧
      (ParseCommand m (str ":history -channel " ++ a ++ str " -channel " ++ b)).Error
        = none) ∧
    ((ParseCommand m
        (str ":history -period " ++ decimal i ++ str " -period " ++ decimal j)).Period = j ∧
      (ParseCommand m
        (str ":history -period " ++ decimal i ++ str " -period " ++ decimal j)).Matched
        = true ∧
      (ParseCommand m
        (str ":history -period " ++ decimal i ++ str " -period " ++ decimal j)).Error
        = none) := by
  have h1 : str ":history -channel " = historyCommand.name ++ 32 :: (str "-channel" ++ [32]) := by
    decide
  have h2 : str " -channel " = 32 :: (str "-channel" ++ [32]) := by decide
  have h3 : str ":history -period " = historyCommand.name ++ 32 :: (str "-period" ++ [32]) := by
    decide
  have h4 : str " -period " = 32 :: (str "-period" ++ [32]) := by decide
  have hc : 32 ∉ str "-channel" := by decide
  have hp : 32 ∉ str "-period" := by decide
  have hline1 : str ":history -channel " ++ a ++ str " -channel " ++ b =
      lineOf (historyCommand.name :: [str "-channel", a, str "-channel", b]) := by
    rw [h1, h2]
    simp [lineOf]
  have hline2 : str ":history -period " ++ decimal i ++ str " -period " ++ decimal j =
      lineOf (historyCommand.name :: [str "-period", decimal i, str "-period", decimal j]) := by
    rw [h3, h4]
    simp [lineOf]
  have hsp1 : ∀ x ∈ [str "-channel", a, str "-channel", b], 32 ∉ x := by
    intro x hx
    simp only [List.mem_cons, List.mem_singleton, List.not_mem_nil, or_false] at hx
    rcases hx with e | e | e | e <;> rw [e] <;> assumption
  have hsp2 : ∀ x ∈ [str "-period", decimal i, str "-period", decimal j], 32 ∉ x := by
    intro x hx
    simp only [List.mem_cons, List.mem_singleton, List.not_mem_nil, or_false] at hx
    rcases hx with e | e | e | e
    · rw [e]; exact hp
    · rw [e]; exact decimal_no_space i
    · rw [e]; exact hp
    · rw [e]; exact decimal_no_space j
  rw [hline1, hline2, ParseCommand_lineOf m historyCommand _ historyCommand_mem hsp1,
    ParseCommand_lineOf m historyCommand _ historyCommand_mem hsp2,
    parseOptions_channel_channel,
    parseOptions_period_period i j (by simpa [intSize] using hi) (by simpa [intSize] using hj)]
  simp [sentinelResult]

/-- Witness of C19 (amended): two channels and two periods. -/
theorem ParseCommand_repeated_option_witness :
    (32 ∉ str "general" ∧ 32 ∉ str "random" ∧ 5 < 2 ^ (intSize - 1) ∧
      10 < 2 ^ (intSize - 1)) ∧
    ((ParseCommand id (str ":history -channel general -channel random")).Matched = true ∧
      (ParseCommand id (str ":history -channel general -channel random")).Channel =
        str "random" ∧
      (ParseCommand id (str ":history -channel general -channel random")).Error = none) ∧
    ((ParseCommand id (str ":history -period 5 -period 10")).Period = 10 ∧
      (ParseCommand id (str ":history -period 5 -period 10")).Matched = true ∧
      (ParseCommand id (str ":history -period 5 -period 10")).Error = none) :=
  ⟨⟨by decide, by decide, by decide, by decide⟩,
    ParseCommand_repeated_option id (str "general") (str "random") 5 10 (by decide)
      (by decide) (by decide) (by decide)⟩

/-! ## `util.WriteBytes` -/

/-- C20 (fails on the code): `util.WriteBytes` hands the whole buffer to every call of
`Write`.  On a transport that accepts one byte per call the buffer `ab` is reported as
written, `(2, nil)`, while the transport has accepted `aa`; `Connection.writeBytes` on the
same transport and payload delivers `ab`.  On a transport that accepts two bytes per call
the buffer `abc` gives `(4, nil)`, not `(3, nil)`, and the transport has accepted
`abab`. -/
theorem WriteBytes_repeats_the_start :
    observe (WriteBytes 8 byteWiseConn (str "ab")) = some (str "aa", 2, none) ∧
    observe (writeBytesLoop (str "ab") 2 8 byteWiseConn 0) = some (str "ab", 2, none) ∧
    observe (WriteBytes 8 pairWiseConn (str "abc")) = some (str "abab", 4, none) ∧
    observe (writeBytesLoop (str "abc") 3 8 pairWiseConn 0) = some (str "abc", 3, none) :=
  ⟨rfl, rfl, rfl, rfl⟩

/-! ## The reader's `read` -/

theorem read_cutset : str " \\t\\r\\n\\v\\f" = [32, 92, 116, 92, 114, 92, 110, 92, 118, 92, 102] := by
  decide

theorem TrimWhitespaces_cutset : str " \r\n\x0b\t\x0c" = [32, 13, 10, 11, 9, 12] := by
  decide

/-- Whenever `read` returns, `asStr` is `asBytes` trimmed by the cutset of the source: space,
backslash and the letters `t`, `r`, `n`, `v`, `f`. -/
theorem read_asStr (reader reader1 : Reader) (result : ReadResult)
    (h : reader.read = Except.ok (reader1, result)) :
    result.asStr = Trim result.asBytes [32, 92, 116, 92, 114, 92, 110, 92, 118, 92, 102] := by
  unfold Reader.read at h
  rcases hr : reader.conn.Read reader.buffer with ⟨conn1, buffer1, bytesRead, err⟩
  rw [hr] at h
  simp only at h
  cases hs : buffer1.upTo bytesRead with
  | error f => rw [hs] at h; cases h
  | ok bytes =>
    rw [hs] at h
    simp only [Except.ok.injEq, Prod.mk.injEq] at h
    rw [← h.2, read_cutset]

/-- Claim C21: the string `asStr` that `read` returns is not its `asBytes` without the
leading and trailing whitespace.  For the bytes `hi\r\n` placed in the buffer `asStr` is
`hi\r\n`, where `TrimWhitespaces` gives `hi`; for the bytes `front` it is `o`, where
`TrimWhitespaces` gives `front`. -/
theorem read_asStr_differs_from_TrimWhitespaces :
    readResult (readerOfLength (fillingEnd (str "hi\r\n")) 8).read
        = some { bytesRead := 4, asBytes := str "hi\r\n", asStr := str "hi\r\n", err := none }
      ∧ TrimWhitespaces (str "hi\r\n") = str "hi"
      ∧ readResult (readerOfLength (fillingEnd (str "front")) 8).read
        = some { bytesRead := 5, asBytes := str "front", asStr := str "o", err := none }
      ∧ TrimWhitespaces (str "front") = str "front" := by
  refine ⟨?_, ?_, ?_, ?_⟩ <;> decide

/-- Claim C22: a reader made by `newReader` hands `Read` a slice of length 0, so on a
transport that has `k >= 1` bytes available and stores as many as the slice takes, `read`
returns `bytesRead = 0` and an empty `asBytes`, without an error, and not `min(k, 1024)`
bytes. -/
theorem read_of_newReader_receives_nothing (conn : ReadEnd) (connIpAddr avail : GoString)
    (connectionTimeout : Nat) (hk : 1 ≤ avail.length)
    (hfill : ∀ len : Nat, conn.respond conn.calls len
      = { data := avail.take len, n := ((min len avail.length : Nat) : Int), err := none }) :
    readResult (newReader conn connIpAddr connectionTimeout).read
        = some { bytesRead := 0, asBytes := [], asStr := [], err := none }
      ∧ (0 : Int) ≠ ((min avail.length 1024 : Nat) : Int) := by
  constructor
  · have hup : ∀ array : GoString, Slice.upTo { array := array, len := 0 } 0 = Except.ok [] := by
      intro array
      simp [Slice.upTo]
    simp only [Reader.read, newReader, ReadEnd.Read, makeBytes, hfill, List.take_zero,
      List.nil_append, List.length_nil, List.drop_zero, Nat.zero_min, Nat.cast_zero, hup,
      readResult]
    rfl
  · omega

theorem read_of_newReader_receives_nothing_witness :
    1 ≤ (str "hello").length
      ∧ readResult (newReader (fillingEnd (str "hello")) (str "127.0.0.1:8080") 30).read
        = some { bytesRead := 0, asBytes := [], asStr := [], err := none }
      ∧ (0 : Int) ≠ ((min (str "hello").length 1024 : Nat) : Int) :=
  ⟨by decide,
    read_of_newReader_receives_nothing (fillingEnd (str "hello")) (str "127.0.0.1:8080")
      (str "hello") 30 (by decide) (fun _ => rfl)⟩

end Chat
